import Mathlib

/-!
TeamShuffle allocation engine — shallow embedding and verification

This file embeds the grouping engine of the TeamShuffle repository in Lean 4
and settles the specification claims about it.

Embedded source (TypeScript, Angular):
* `StudentService` (`performGrouping`, `forceEqualDistribution`, `addStudents`,
  `parseNumberInput`, `initializeGroups`),
* the four chain-of-responsibility handlers
  (`BlockDistributionHandler`, `SameGroupHandler`, `DifferentGroupHandler`,
  `GenderRatioHandler`) together with the abstract `GroupingHandler.handle`
  dispatch,
* `GroupingConditionsService.updateBlockInput`,
* the grouping page's `validateSameGroupInput` / `parseStudentNumbers`,
* the home page's structural pre-checks in `initializeFromInputs`.

Modelling conventions:
* JavaScript numbers that hold parsed ids are modelled as `Int`
  (`parseInt` can produce negative values); sizes and indices are `Nat`.
* JavaScript's in-place `Array.prototype.sort` with a consistent comparator is
  a stable sort (TimSort), modelled by the stable `List.sortJs` below.
* Every use of `Math.random` in the source is a shuffle
  (`arr.sort(() => Math.random() - 0.5)` or a Fisher–Yates pass), i.e. it
  produces some permutation of its input.  Randomness is therefore modelled by
  a record `Rand` of shuffle functions, one per call site, and theorems that
  hold "regardless of randomness" quantify over any `Rand` whose members are
  permutations (`Rand.Lawful`).  A random source that always returns the
  midpoint `0.5` makes every comparator-based shuffle return `0`, so the
  stable sort leaves the order unchanged: that source is modelled by `idRand`.
* Growing a JS array with `push` appends at the end; `arr[i] = v` with `i`
  in bounds is `List.set`.  Out-of-bounds reads (`groups[i]` for `i ≥ length`,
  reachable only with zero groups, where the original code would throw a
  `TypeError`) are modelled totally: `List.getD`/`List.set` make the access a
  no-op.  All claims about the engine assume at least one group.
* `isLeader` is reset to `false` for every student at the start of
  `performGrouping` and is never read during allocation, so students are
  modelled without it.
-/

/-- The stable sort used throughout the model: JavaScript's `Array.sort` is
a stable sort (TimSort), and a stable sort by a total preorder is uniquely
determined by its comparator, so the structurally recursive stable insertion
sort is an exact model of it (and, unlike `List.mergeSort`, it evaluates
inside the kernel). -/
def List.sortJs {α : Type} (le : α → α → Bool) (l : List α) : List α :=
  l.insertionSort (fun a b => le a b = true)

/-- Character-wise string splitting, the structurally recursive model of
JavaScript's `String.split` with a single-character separator (or a
character-class regex): split at every matching character, keeping empty
pieces. -/
def jsSplitGo (p : Char → Bool) : List Char → List Char → List (List Char)
  | [], acc => [acc.reverse]
  | c :: cs, acc =>
    if p c then acc.reverse :: jsSplitGo p cs [] else jsSplitGo p cs (c :: acc)

/-- Split at every character satisfying `p`. -/
def String.splitJs (s : String) (p : Char → Bool) : List String :=
  (jsSplitGo p s.data []).map (fun cs => String.mk cs)

/-- Split at every occurrence of the character `sep`. -/
def String.splitOnC (s : String) (sep : Char) : List String :=
  s.splitJs (fun c => c == sep)

/-- JavaScript's `String.trim`: drop whitespace from both ends. -/
def String.trimJs (s : String) : String :=
  String.mk (((s.data.dropWhile Char.isWhitespace).reverse.dropWhile
    Char.isWhitespace).reverse)

/-- Whether the first character is `c`. -/
def String.startsWithC (s : String) (c : Char) : Bool :=
  match s.data with
  | [] => false
  | d :: _ => d == c

/-- Whether the last character is `c`. -/
def String.endsWithC (s : String) (c : Char) : Bool :=
  match s.data.getLast? with
  | none => false
  | some d => d == c

namespace TeamShuffle

open scoped List

inductive Gender where
  | male : Gender
  | female : Gender
  deriving DecidableEq, Repr

/-- A student: `id` (seat number) and `gender` (the binary balance category). -/
structure Student where
  id : Int
  gender : Gender
  deriving DecidableEq, Repr

instance : Inhabited Student := ⟨⟨0, Gender.male⟩⟩

/-- A group: stable identifier, display name, and its current members. -/
structure Group where
  id : String
  name : String
  students : List Student
  deriving DecidableEq, Repr

instance : Inhabited Group := ⟨⟨"", "", []⟩⟩

/-- The four condition types of the engine.  The source uses the string tags
"block-distribution", "same-group", "different-group", "gender-ratio". -/
inductive CType where
  | blockDist : CType
  | sameGroup : CType
  | diffGroup : CType
  | genderBal : CType
  deriving DecidableEq, Repr

/-- `GroupingConditionState` of `GroupingConditionsService`: what
`performGrouping` forwards to the handlers (`config.input`,
`config.blockInputs`). -/
structure CondState where
  id : String
  type : CType
  enabled : Bool
  input : String
  blockInputs : Option (List String)
  deriving DecidableEq, Repr

/-- `GroupingContext` of `grouping-handler.model`. -/
structure GroupingContext where
  students : List Student
  groups : List Group
  conditions : List CondState
  remainingStudents : List Student
  deriving DecidableEq, Repr

/-- `GroupingResult` of `grouping-handler.model`. -/
structure GroupingResult where
  success : Bool
  groups : List Group
  message : String
  handled : Bool
  remainingStudents : List Student
  deriving DecidableEq, Repr

/-- One shuffle function per `Math.random` call site of the engine. -/
structure Rand where
  blockShuffle : Nat → List Student → List Student
  blockRemShuffle : List Student → List Student
  sameRemShuffle : List Student → List Student
  diffRemShuffle : List Student → List Student
  genderMaleShuffle : List Student → List Student
  genderFemaleShuffle : List Student → List Student
  forceMaleShuffle : List Student → List Student
  forceFemaleShuffle : List Student → List Student

/-- A lawful random source: every shuffle returns a permutation of its
input, which is exactly what the JS shuffles guarantee. -/
structure Rand.Lawful (r : Rand) : Prop where
  block : ∀ i l, (r.blockShuffle i l).Perm l
  blockRem : ∀ l, (r.blockRemShuffle l).Perm l
  sameRem : ∀ l, (r.sameRemShuffle l).Perm l
  diffRem : ∀ l, (r.diffRemShuffle l).Perm l
  genderM : ∀ l, (r.genderMaleShuffle l).Perm l
  genderF : ∀ l, (r.genderFemaleShuffle l).Perm l
  forceM : ∀ l, (r.forceMaleShuffle l).Perm l
  forceF : ∀ l, (r.forceFemaleShuffle l).Perm l

/-- The random source that always returns the midpoint value `0.5`:
every comparator `() => Math.random() - 0.5` returns `0`, a stable sort then
changes nothing, so each shuffle is the identity. -/
def idRand : Rand :=
  ⟨fun _ l => l, id, id, id, id, id, id, id⟩

theorem idRand_lawful : idRand.Lawful :=
  ⟨fun _ _ => List.Perm.refl _, fun _ => List.Perm.refl _, fun _ => List.Perm.refl _,
   fun _ => List.Perm.refl _, fun _ => List.Perm.refl _, fun _ => List.Perm.refl _,
   fun _ => List.Perm.refl _, fun _ => List.Perm.refl _⟩

/-! ## Parsing (JavaScript number parsing and the input-string parsers) -/

/-- Numeric value of a run of decimal digit characters. -/
def digitsVal (cs : List Char) : Nat :=
  cs.foldl (fun acc c => acc * 10 + (c.toNat - '0'.toNat)) 0

/-- JavaScript `parseInt(s)` (radix 10): skip leading whitespace, optional
sign, then the longest leading run of decimal digits; `none` models `NaN`.
The engine's inputs are digits, commas, dashes and semicolons, so the
hexadecimal `0x` corner of `parseInt` is irrelevant here. -/
def parseJsInt (s : String) : Option Int :=
  let cs := s.toList.dropWhile (fun c => c.isWhitespace)
  let signed : Bool × List Char :=
    match cs with
    | '-' :: rest => (true, rest)
    | '+' :: rest => (false, rest)
    | _ => (false, cs)
  let ds := signed.2.takeWhile (fun c => c.isDigit)
  if ds.isEmpty then none
  else
    let n : Int := Int.ofNat (digitsVal ds)
    some (if signed.1 then -n else n)

/-- The inclusive integer range `a..b` (for `a ≤ b`), as pushed by the
`for (let i = min; i <= max; i++)` loops of the source. -/
def rangeIncl (a b : Int) : List Int :=
  (List.range (b - a + 1).toNat).map (fun i => a + (i : Int))

/-- Insertion-order deduplication, the observable content of pouring a list
through a JavaScript `Set` (`[...new Set(arr)]`): keeps first occurrences. -/
def jsDedup {α : Type} [DecidableEq α] : List α → List α :=
  go []
where
  go (seen : List α) : List α → List α
    | [] => []
    | x :: xs => if seen.contains x then go seen xs else x :: go (x :: seen) xs

/-- Add an element to a JS `Set` modelled as a first-occurrence list. -/
def insertSet {α : Type} [DecidableEq α] (l : List α) (x : α) : List α :=
  if l.contains x then l else l ++ [x]

/-- Shared token handler of `parseNumberInput` / `parseBlockInput`: a token is
either a range `a-b` (expanded inclusively regardless of order, skipped if
either end is `NaN`) or a single integer (skipped if `NaN`). -/
def parseTokenInto (acc : List Int) (part : String) : List Int :=
  if part.data.any (fun c => c == '-') then
    match (part.splitOnC '-').map (fun n => parseJsInt n.trimJs) with
    | s :: e :: _ =>
      match s, e with
      | some s, some e => acc ++ rangeIncl (min s e) (max s e)
      | _, _ => acc
    | _ => acc
  else
    match parseJsInt part with
    | some n => acc ++ [n]
    | none => acc

/-- `StudentService.parseNumberInput`: comma-separated tokens with `a-b`
ranges; result deduplicated and sorted ascending. -/
def parseNumberInput (input : String) : List Int :=
  let parts := (input.splitOnC ',').map (fun p => p.trimJs)
  let numbers := parts.foldl parseTokenInto []
  (jsDedup numbers).sortJs (fun a b => decide (a ≤ b))

/-- `SameGroupHandler.parseStudentNumbers` (identical in
`DifferentGroupHandler`): comma-separated integers, `NaN` parts skipped;
throws `重複的座號: …` when a number repeats, otherwise returns the numbers
sorted ascending.  The loop body threads `(numbers, duplicates)`; the
source's `seenNumbers` set always equals the collected `numbers`. -/
def seenDupStep (st : List Int × List Int) (part : String) : List Int × List Int :=
  match parseJsInt part with
  | none => st
  | some num =>
    if st.1.contains num then (st.1, insertSet st.2 num)
    else (st.1 ++ [num], st.2)

/-- `parseStudentNumbers` proper: fold the parts, then throw or sort. -/
def parseStudentNumbers (input : String) : Except String (List Int) :=
  let parts := (input.splitOnC ',').map (fun p => p.trimJs)
  let st := parts.foldl seenDupStep ([], [])
  if st.2.length > 0 then
    .error ("重複的座號: " ++
      String.intercalate "," ((st.2.sortJs (fun a b => decide (a ≤ b))).map toString))
  else
    .ok (st.1.sortJs (fun a b => decide (a ≤ b)))

/-- `SameGroupHandler.parseSameGroupInput`: semicolon-separated clusters;
a cluster whose parse throws (duplicate id) is dropped, as is a cluster with
fewer than two members.  `clusterStep` is the loop body. -/
def clusterStep (pairs : List (List Int)) (g : String) : List (List Int) :=
  match parseStudentNumbers g with
  | .ok ns => if ns.length ≥ 2 then pairs ++ [ns] else pairs
  | .error _ => pairs

/-- `parseSameGroupInput` proper. -/
def parseSameGroupInput (input : String) : List (List Int) :=
  if input.trimJs = "" then []
  else
    let gsx := ((input.splitOnC ';').map (fun g => g.trimJs)).filter (fun g => g.length > 0)
    gsx.foldl clusterStep []

/-- `DifferentGroupHandler.parseDifferentGroupInput`: same code as
`parseSameGroupInput`. -/
def parseDifferentGroupInput (input : String) : List (List Int) :=
  if input.trimJs = "" then []
  else
    let gsx := ((input.splitOnC ';').map (fun g => g.trimJs)).filter (fun g => g.length > 0)
    gsx.foldl clusterStep []

/-- Token split of one block line: `line.split(/[,\s]+/)`, i.e. split at
every comma/whitespace character, then drop the empty pieces. -/
def splitTokens (line : String) : List String :=
  ((line.splitJs (fun c => c == ',' || c.isWhitespace)).map (fun p => p.trimJs)).filter
    (fun p => p.length > 0)

/-- `BlockDistributionHandler.parseBlockInput`: newline-separated lines of
comma/whitespace-separated tokens with `a-b` ranges; result deduplicated and
sorted ascending. -/
def parseBlockInput (input : String) : List Int :=
  if input.trimJs = "" then []
  else
    let lines := ((input.splitOnC '\n').map (fun l => l.trimJs)).filter (fun l => l.length > 0)
    let numbers := lines.foldl (fun acc line => (splitTokens line).foldl parseTokenInto acc) []
    (jsDedup numbers).sortJs (fun a b => decide (a ≤ b))

/-! ## Group helpers shared by the handlers -/

/-- All students currently placed in some group, in group order. -/
def joinG (gs : List Group) : List Student :=
  (gs.map Group.students).flatten

/-- Current size of group `i` (`groups[i].students.length`). -/
def sizeAt (gs : List Group) (i : Nat) : Nat :=
  ((gs.getD i default).students).length

/-- Replace the member list of group `i`. -/
def setGroupStudents (gs : List Group) (i : Nat) (l : List Student) : List Group :=
  gs.set i { gs.getD i default with students := l }

/-- `groups[i].students.push(s)`. -/
def pushStudent (gs : List Group) (i : Nat) (s : Student) : List Group :=
  setGroupStudents gs i ((gs.getD i default).students ++ [s])

/-- `groups.reduce((min, cur) => cur.students.length < min.students.length ? cur : min)`:
the first group of minimal size.  (On an empty group list the source's
`reduce` would throw; this total model returns index `0`.) -/
def firstMinIdx (gs : List Group) : Nat :=
  (List.range gs.length).foldl (fun best i => if sizeAt gs i < sizeAt gs best then i else best) 0

/-- The `distributeRemainingStudents` private method (identical in the block,
same-group and different-group handlers): shuffle the remaining students and
push each into the currently least-occupied group. -/
def distributeRemainingStudents (gs : List Group) (remaining : List Student)
    (shuffle : List Student → List Student) : List Group :=
  (shuffle remaining).foldl (fun gs s => pushStudent gs (firstMinIdx gs) s) gs

/-- `${g.name}: ${g.students.map(s => s.id).join(",")}` over the non-empty
groups, joined by `"; "`. -/
def groupSummary (gs : List Group) : String :=
  String.intercalate "; "
    ((gs.filter (fun g => g.students.length > 0)).map
      (fun g => g.name ++ ": " ++ String.intercalate "," (g.students.map (fun s => toString s.id))))

/-! ## GenderRatioHandler -/

/-- The per-group counters kept by `GenderRatioHandler.process` (the
additional `genderDiff` field of the source is written but never read, so it
is not modelled). -/
structure GStat where
  index : Nat
  males : Nat
  females : Nat
  total : Nat
  deriving DecidableEq, Repr

instance : Inhabited GStat := ⟨⟨0, 0, 0, 0⟩⟩

/-- The male-placement comparator: (1) projected overflow past the ideal
size, (2) prefer groups with more females than males, (3) fewer members. -/
def maleCmp (ideal : Nat) (a b : GStat) : Int :=
  let overA : Int := max 0 ((a.total : Int) + 1 - (ideal : Int))
  let overB : Int := max 0 ((b.total : Int) + 1 - (ideal : Int))
  if overA ≠ overB then overA - overB
  else
    let gdA : Int := (a.females : Int) - (a.males : Int)
    let gdB : Int := (b.females : Int) - (b.males : Int)
    if gdA ≠ gdB then gdB - gdA
    else (a.total : Int) - (b.total : Int)

/-- The female-placement comparator: as `maleCmp` with the deficit direction
reversed. -/
def femaleCmp (ideal : Nat) (a b : GStat) : Int :=
  let overA : Int := max 0 ((a.total : Int) + 1 - (ideal : Int))
  let overB : Int := max 0 ((b.total : Int) + 1 - (ideal : Int))
  if overA ≠ overB then overA - overB
  else
    let gdA : Int := (a.males : Int) - (a.females : Int)
    let gdB : Int := (b.males : Int) - (b.females : Int)
    if gdA ≠ gdB then gdB - gdA
    else (a.total : Int) - (b.total : Int)

/-- One placement loop of `GenderRatioHandler`: sort the stats array in place
(`stats.sort(cmp)` is a stable sort), take the head, push the student into
that stat's group and bump its counters.  The sorted array is carried to the
next iteration, exactly as the in-place JS sort does. -/
def placeGender (cmp : GStat → GStat → Int) (isMale : Bool) :
    List Group → List GStat → List Student → List Group × List GStat
  | gs, stats, [] => (gs, stats)
  | gs, stats, s :: rest =>
    match stats.sortJs (fun a b => decide (cmp a b ≤ 0)) with
    | [] => (gs, stats)
    | top :: others =>
      let gs' := pushStudent gs top.index s
      let top' :=
        if isMale then { top with males := top.males + 1, total := top.total + 1 }
        else { top with females := top.females + 1, total := top.total + 1 }
      placeGender cmp isMale gs' (top' :: others) rest

/-- Per-group summary string of `GenderRatioHandler.process`. -/
def genderSummary (gs : List Group) : String :=
  String.intercalate ", "
    (gs.map (fun g =>
      let m := (g.students.filter (fun s => s.gender == Gender.male)).length
      let f := (g.students.filter (fun s => s.gender == Gender.female)).length
      g.name ++ ": " ++ toString (m + f) ++ "人(" ++ toString m ++ "男" ++ toString f ++ "女)"))

/-- `GenderRatioHandler.process`. -/
def genderRatioProcess (ctx : GroupingContext) (rnd : Rand) : GroupingResult :=
  match ctx.conditions.find? (fun c => c.type == CType.genderBal && c.enabled) with
  | none =>
    ⟨false, ctx.groups, "Gender ratio condition not found or not enabled", false,
      ctx.remainingStudents⟩
  | some _ =>
    let studentsToProcess := ctx.remainingStudents
    let gs := ctx.groups
    let maleStudents := studentsToProcess.filter (fun s => s.gender == Gender.male)
    let femaleStudents := studentsToProcess.filter (fun s => s.gender == Gender.female)
    let totalGroups := gs.length
    let maleCount := maleStudents.length
    let femaleCount := femaleStudents.length
    if maleCount == 0 && femaleCount == 0 then
      ⟨true, gs, "沒有剩餘學生需要性別比例分配", false, []⟩
    else
      let shuffledMales := rnd.genderMaleShuffle maleStudents
      let shuffledFemales := rnd.genderFemaleShuffle femaleStudents
      let stats := (List.range gs.length).map (fun i =>
        let g := gs.getD i default
        let m := (g.students.filter (fun s => s.gender == Gender.male)).length
        let f := (g.students.filter (fun s => s.gender == Gender.female)).length
        GStat.mk i m f (m + f))
      let totalStudents := maleCount + femaleCount + (gs.map (fun g => g.students.length)).sum
      let idealGroupSize := (totalStudents + totalGroups - 1) / totalGroups
      let step1 := placeGender (maleCmp idealGroupSize) true gs stats shuffledMales
      let step2 := placeGender (femaleCmp idealGroupSize) false step1.1 step1.2 shuffledFemales
      ⟨true, step2.1,
        "已分配" ++ toString (maleCount + femaleCount) ++
          "位剩餘學生並平衡人數與性別比例: " ++ genderSummary step2.1, true, []⟩

/-- `handle` for the last element of the chain: no next handler, so the
process result is returned as is. -/
def genderRatioHandle (ctx : GroupingContext) (rnd : Rand) : GroupingResult :=
  genderRatioProcess ctx rnd

/-! ## DifferentGroupHandler -/

/-- The final content of `studentGroupMap` for a given id: the map is filled
scanning groups in ascending index order with `set` overwriting, so the entry
is the highest group index whose member list contains the id. -/
def lastGroupOf (gs : List Group) (id : Int) : Option Nat :=
  (List.range gs.length).foldl (fun acc i =>
    if (gs.getD i default).students.any (fun s => s.id == id) then some i else acc) none

/-- The cluster ids that are currently placed in some group (the keys of
`studentGroupMap`). -/
def pairPlacedIds (gs : List Group) (pair : List Int) : List Int :=
  pair.filter (fun id => (lastGroupOf gs id).isSome)

/-- `Array.from(new Set(studentGroupMap.values()))`: the distinct group
indices occupied by the cluster.  Only its length, and its sole element when
it is a singleton, are observed, so the iteration order is immaterial. -/
def pairGroupValues (gs : List Group) (pair : List Int) : List Nat :=
  jsDedup ((pairPlacedIds gs pair).map (fun id => (lastGroupOf gs id).getD 0))

/-- `DifferentGroupHandler.redistributeStudents`: push each evicted student
into the currently least-occupied group other than the conflict group
(stable sort on sizes, so ties prefer the lower index). -/
def redistStep (remaining : List Student) (avoidGroupIndex : Nat)
    (gs : List Group) (id : Int) : List Group :=
  match remaining.find? (fun s => s.id == id) with
  | none => gs
  | some student =>
    let available := (((List.range gs.length).filter (fun i => i ≠ avoidGroupIndex)).sortJs
      (fun a b => decide (sizeAt gs a ≤ sizeAt gs b)))
    match available with
    | [] => gs
    | i :: _ => pushStudent gs i student

def redistributeStudents (gs : List Group) (studentIds : List Int)
    (remaining : List Student) (avoidGroupIndex : Nat) : List Group :=
  studentIds.foldl (redistStep remaining avoidGroupIndex) gs

/-- The trailing loop of `assignToDifferentGroups` over the cluster's still
unplaced members: each is assigned to a group not yet used by this cluster
(least-occupied preferred, stable ties by index); once every group is used,
fall back to the globally least-occupied group.  `lkpGs` is the snapshot of
the groups from which `studentGroupMap` was built. -/
def dgStep (lkpGs : List Group) (rem : List Student)
    (st : List Group × List Nat × List Int) (id : Int) : List Group × List Nat × List Int :=
  let gs := st.1
  let used := st.2.1
  let proc := st.2.2
  if (lastGroupOf lkpGs id).isSome then (gs, used, insertSet proc id)
  else
    match rem.find? (fun s => s.id == id) with
    | none => (gs, used, proc)
    | some student =>
      let available := (((List.range gs.length).filter (fun i => !(used.contains i))).sortJs
        (fun a b => decide (sizeAt gs a ≤ sizeAt gs b)))
      match available with
      | i :: _ => (pushStudent gs i student, insertSet used i, insertSet proc id)
      | [] =>
        if gs.length = 0 then (gs, used, proc)
        else (pushStudent gs (firstMinIdx gs) student, used, insertSet proc id)

def dgLastLoop (lkpGs : List Group) (rem : List Student) (pair : List Int)
    (gs : List Group) (used : List Nat) (proc : List Int) :
    List Group × List Nat × List Int :=
  pair.foldl (dgStep lkpGs rem) (gs, used, proc)

/-- One eviction of `assignToDifferentGroups`: remove the student with the
given id from the conflict group and append the removed object to the
remaining pool. -/
def evictStep (conflict : Nat) (st : List Group × List Student) (id : Int) :
    List Group × List Student :=
  match (st.1.getD conflict default).students.find? (fun s => s.id == id) with
  | some obj =>
    (setGroupStudents st.1 conflict
      ((st.1.getD conflict default).students.filter (fun s => !(s.id == id))),
     st.2 ++ [obj])
  | none => st

/-- `DifferentGroupHandler.assignToDifferentGroups` for one cluster.
Returns the updated `(groups, remainingStudents, processedStudentIds)`. -/
def assignToDifferentGroups (gs : List Group) (pair : List Int)
    (rem : List Student) (proc : List Int) :
    List Group × List Student × List Int :=
  let vals := pairGroupValues gs pair
  if vals.length > 1 then
    -- already spread over several groups: mark the placed members processed
    let proc1 := (pairPlacedIds gs pair).foldl insertSet proc
    let res := dgLastLoop gs rem pair gs vals proc1
    (res.1, rem, res.2.2)
  else if vals.length == 1 then
    -- all placed members sit in one group: keep the first, evict the rest
    let conflict := vals.headD 0
    let inConflict := pair.filter (fun id => lastGroupOf gs id == some conflict)
    let evictIds := inConflict.drop 1
    let ev := evictIds.foldl (evictStep conflict) (gs, rem)
    let gs2 := redistributeStudents ev.1 evictIds ev.2 conflict
    let proc1 := pair.foldl insertSet proc
    let res := dgLastLoop gs ev.2 pair gs2 vals proc1
    (res.1, ev.2, res.2.2)
  else
    let res := dgLastLoop gs rem pair gs vals proc
    (res.1, rem, res.2.2)

/-- The `已處理不同組條件…` / `已隨機分配…` result message shared in shape by the
three constraint handlers. -/
def chainFinalMessage (handledPrefix randomOnly : String) (processedCount : Nat)
    (totalRem : Nat) (gs : List Group) : String :=
  if processedCount > 0 then
    handledPrefix ++ toString processedCount ++ "位學生按條件分組，" ++
      toString ((totalRem : Int) - (processedCount : Int)) ++ "位學生隨機分配 - " ++
      groupSummary gs
  else
    randomOnly ++ toString totalRem ++ "位學生 - " ++ groupSummary gs

/-- `DifferentGroupHandler.process` (its next handler is the gender-ratio
handler). -/
def differentGroupProcess (ctx : GroupingContext) (rnd : Rand) : GroupingResult :=
  match ctx.conditions.find? (fun c => c.type == CType.diffGroup && c.enabled) with
  | none =>
    ⟨false, ctx.groups, "Different group condition not found or not enabled", false,
      ctx.remainingStudents⟩
  | some cond =>
    let pairs := parseDifferentGroupInput cond.input
    if pairs.isEmpty then
      ⟨true, ctx.groups, "No different group pairs configured", false, ctx.remainingStudents⟩
    else
      let st := pairs.foldl (fun (st : List Group × List Student × List Int) pair =>
        assignToDifferentGroups st.1 pair st.2.1 st.2.2)
        (ctx.groups, ctx.remainingStudents, [])
      let gs := st.1
      let rem := st.2.1
      let proc := st.2.2
      let finalRemaining := rem.filter (fun s => !(proc.contains s.id))
      let processedCount := proc.length
      if finalRemaining.length > 0 then
        let nextResult := genderRatioHandle
          { ctx with groups := gs, remainingStudents := finalRemaining } rnd
        if nextResult.handled then
          let summary :=
            if processedCount > 0 then
              "不同組條件處理了" ++ toString processedCount ++ "位學生; "
            else ""
          ⟨true, nextResult.groups, summary ++ nextResult.message, true,
            nextResult.remainingStudents⟩
        else
          let gs2 := distributeRemainingStudents gs finalRemaining rnd.diffRemShuffle
          ⟨true, gs2,
            chainFinalMessage "已處理不同組條件: " "已隨機分配" processedCount
              ctx.remainingStudents.length gs2, true, []⟩
      else
        ⟨true, gs,
          chainFinalMessage "已處理不同組條件: " "已隨機分配" processedCount
            ctx.remainingStudents.length gs, true, []⟩

/-- `handle` at the different-group link: on `success = false` forward the
original context to the gender-ratio handler. -/
def differentGroupHandle (ctx : GroupingContext) (rnd : Rand) : GroupingResult :=
  let result := differentGroupProcess ctx rnd
  if !result.success then genderRatioHandle ctx rnd else result

/-! ## SameGroupHandler -/

/-- `SameGroupHandler.canFitInGroup`: soft capacity of 8 members. -/
def canFitInGroup (g : Group) (requiredCapacity : Nat) : Bool :=
  g.students.length + requiredCapacity ≤ 8

/-- `SameGroupHandler.findAvailableGroup`: the least-occupied group whose
size plus the cluster still fits under the cap, else the least-occupied group
overall.  (`none` only on an empty group list, where the source's `reduce`
would throw.) -/
def findAvailableGroup (gs : List Group) (requiredCapacity : Nat) : Option Nat :=
  let available := (List.range gs.length).filter
    (fun i => canFitInGroup (gs.getD i default) requiredCapacity)
  match available with
  | [] => if gs.length = 0 then none else some (firstMinIdx gs)
  | a :: rest =>
    some ((a :: rest).foldl (fun best i => if sizeAt gs i < sizeAt gs best then i else best) a)

/-- One placement of `SameGroupHandler.process`: find the still remaining
student with the given id and push it into the chosen target group. -/
def sgPlace (ti : Nat) (st : List Group × List Student × List Int) (id : Int) :
    List Group × List Student × List Int :=
  match st.2.1.find? (fun s => s.id == id) with
  | some student => (pushStudent st.1 ti student, st.2.1, insertSet st.2.2 id)
  | none => st

/-- One cluster of `SameGroupHandler.process`: place every still-available
member of the cluster into the one chosen target group. -/
def sameGroupPairStep (st : List Group × List Student × List Int) (pair : List Int) :
    List Group × List Student × List Int :=
  let gs := st.1
  let rem := st.2.1
  let proc := st.2.2
  let availableStudents := pair.filter
    (fun id => rem.any (fun s => s.id == id) && !(proc.contains id))
  if availableStudents.isEmpty then st
  else
    match findAvailableGroup gs availableStudents.length with
    | none => st
    | some ti =>
      availableStudents.foldl (sgPlace ti) (gs, rem, proc)

/-- `SameGroupHandler.process` (its next handler is the different-group
handler). -/
def sameGroupProcess (ctx : GroupingContext) (rnd : Rand) : GroupingResult :=
  match ctx.conditions.find? (fun c => c.type == CType.sameGroup && c.enabled) with
  | none =>
    ⟨false, ctx.groups, "Same group condition not found or not enabled", false,
      ctx.remainingStudents⟩
  | some cond =>
    let pairs := parseSameGroupInput cond.input
    if pairs.isEmpty then
      ⟨true, ctx.groups, "No same group pairs configured", false, ctx.remainingStudents⟩
    else
      let st := pairs.foldl sameGroupPairStep (ctx.groups, ctx.remainingStudents, [])
      let gs := st.1
      let rem := st.2.1
      let proc := st.2.2
      let finalRemaining := rem.filter (fun s => !(proc.contains s.id))
      let processedCount := proc.length
      if finalRemaining.length > 0 then
        let nextResult := differentGroupHandle
          { ctx with groups := gs, remainingStudents := finalRemaining } rnd
        if nextResult.handled then
          let summary :=
            if processedCount > 0 then
              "同組條件處理了" ++ toString processedCount ++ "位學生; "
            else ""
          ⟨true, nextResult.groups, summary ++ nextResult.message, true,
            nextResult.remainingStudents⟩
        else
          let gs2 := distributeRemainingStudents gs finalRemaining rnd.sameRemShuffle
          ⟨true, gs2,
            chainFinalMessage "已處理同組條件: " "已隨機分配" processedCount
              ctx.remainingStudents.length gs2, true, []⟩
      else
        ⟨true, gs,
          chainFinalMessage "已處理同組條件: " "已隨機分配" processedCount
            ctx.remainingStudents.length gs, true, []⟩

/-- `handle` at the same-group link. -/
def sameGroupHandle (ctx : GroupingContext) (rnd : Rand) : GroupingResult :=
  let result := sameGroupProcess ctx rnd
  if !result.success then differentGroupHandle ctx rnd else result

/-! ## BlockDistributionHandler -/

/-- The final content of `blockStudentMap` for an id: blocks are scanned in
ascending order with `set` overwriting, so the entry is the highest block
index containing the id. -/
def blockMapLookup (blocks : List (List Int)) (id : Int) : Option Nat :=
  (List.range blocks.length).foldl (fun acc i =>
    if (blocks.getD i []).contains id then some i else acc) none

/-- Sort the remaining students into per-block buckets, marking each
bucketed student's id processed. -/
def blockBucket (blocks : List (List Int)) (st : List (List Student) × List Int)
    (s : Student) : List (List Student) × List Int :=
  match blockMapLookup blocks s.id with
  | some bi => (st.1.set bi ((st.1.getD bi []) ++ [s]), insertSet st.2 s.id)
  | none => st

def buildBlockGroups (blocks : List (List Int)) (rem : List Student) :
    List (List Student) × List Int :=
  rem.foldl (blockBucket blocks) (blocks.map (fun _ => []), [])

/-- The running round-robin assignment: push each student of the pool into
the group at the cyclic pointer, returning the groups and the final pointer. -/
def roundRobinPump (gs : List Group) (cur : Nat) : List Student → List Group × Nat
  | [] => (gs, cur)
  | s :: rest => roundRobinPump (pushStudent gs cur s) ((cur + 1) % gs.length) rest

/-- `BlockDistributionHandler.distributeBlockStudents`: shuffle each block's
bucket and assign with a cyclic pointer that is shared across the blocks of
this invocation (it starts at 0 once and is never reset between blocks). -/
def distributeBlockStudents (gs : List Group) (blocks : List (List Int))
    (rem : List Student) (rnd : Rand) : List Group × List Int :=
  let bb := buildBlockGroups blocks rem
  let final := bb.1.enum.foldl
    (fun (st : List Group × Nat) bi => roundRobinPump st.1 st.2 (rnd.blockShuffle bi.1 bi.2))
    (gs, 0)
  (final.1, bb.2)

/-- The parsed block list: each configured non-blank block input contributes
its parsed id list when non-empty. -/
def parsedBlocks (blockInputs : Option (List String)) : List (List Int) :=
  match blockInputs with
  | some inputs =>
    inputs.foldl (fun bs input =>
      if input.trimJs ≠ "" then
        let parsedBlock := parseBlockInput input
        if parsedBlock.length > 0 then bs ++ [parsedBlock] else bs
      else bs) []
  | none => []

/-- `BlockDistributionHandler.process` (its next handler is the same-group
handler). -/
def blockDistributionProcess (ctx : GroupingContext) (rnd : Rand) : GroupingResult :=
  match ctx.conditions.find? (fun c => c.type == CType.blockDist && c.enabled) with
  | none =>
    ⟨false, ctx.groups, "Block distribution condition not found or not enabled", false,
      ctx.remainingStudents⟩
  | some cond =>
    let blocks := parsedBlocks cond.blockInputs
    if blocks.isEmpty then
      ⟨true, ctx.groups, "No blocks configured", false, ctx.remainingStudents⟩
    else
      let db := distributeBlockStudents ctx.groups blocks ctx.remainingStudents rnd
      let gs := db.1
      let proc := db.2
      let finalRemaining := ctx.remainingStudents.filter (fun s => !(proc.contains s.id))
      let processedCount := proc.length
      if finalRemaining.length > 0 then
        let nextResult := sameGroupHandle
          { ctx with groups := gs, remainingStudents := finalRemaining } rnd
        if nextResult.handled then
          let summary :=
            if processedCount > 0 then
              "區塊分配處理了" ++ toString processedCount ++ "位學生; "
            else ""
          ⟨true, nextResult.groups, summary ++ nextResult.message, true,
            nextResult.remainingStudents⟩
        else
          let gs2 := distributeRemainingStudents gs finalRemaining rnd.blockRemShuffle
          ⟨true, gs2,
            chainFinalMessage "已處理區塊分配: " "已隨機分配" processedCount
              ctx.remainingStudents.length gs2, true, []⟩
      else
        ⟨true, gs,
          chainFinalMessage "已處理區塊分配: " "已隨機分配" processedCount
            ctx.remainingStudents.length gs, true, []⟩

/-- `handle` at the head of the chain (block → same → different → gender). -/
def blockDistributionHandle (ctx : GroupingContext) (rnd : Rand) : GroupingResult :=
  let result := blockDistributionProcess ctx rnd
  if !result.success then sameGroupHandle ctx rnd else result

/-! ## Final Equalizer (`StudentService.forceEqualDistribution`) -/

/-- `groups.every((g, i) => g.students.length >= targetSizes[i])`. -/
def allGroupsFull (targets : List Nat) (gs : List Group) : Bool :=
  (List.range gs.length).all (fun i => sizeAt gs i ≥ targets.getD i 0)

/-- The third distribution round: a `while` loop with a cyclic pointer that
places the next female into the pointed-at group when it is still below its
target size, and stops once every group reached its target (or the pool is
exhausted).  The loop is embedded with explicit fuel; the caller passes more
fuel than the loop can ever consume. -/
def femaleLoop (targets : List Nat) (females : List Student) :
    Nat → List Group → Nat → Nat → List Group × Nat
  | 0, gs, fi, _ => (gs, fi)
  | fuel + 1, gs, fi, cur =>
    if fi < females.length then
      let step : List Group × Nat :=
        if sizeAt gs cur < targets.getD cur 0 then
          (pushStudent gs cur (females.getD fi default), fi + 1)
        else (gs, fi)
      let cur1 := (cur + 1) % gs.length
      if allGroupsFull targets step.1 then (step.1, step.2)
      else femaleLoop targets females fuel step.1 step.2 cur1
    else (gs, fi)

/-- The trailing `while` of the final check: fill one group up to its target
from whatever is left of the pools (males first). -/
def topUpGroup (males females : List Student) :
    Nat → Group → Nat → Nat → Group × Nat × Nat
  | 0, g, mi, fi => (g, mi, fi)
  | need + 1, g, mi, fi =>
    if mi < males.length then
      topUpGroup males females need
        { g with students := g.students ++ [males.getD mi default] } (mi + 1) fi
    else if fi < females.length then
      topUpGroup males females need
        { g with students := g.students ++ [females.getD fi default] } mi (fi + 1)
    else (g, mi, fi)

/-- The final check of `forceEqualDistribution`: walk the groups, topping
each one up to its target size and re-sorting it by seat number. -/
def topUpAll (targets : List Nat) (males females : List Student)
    (gs : List Group) (mi fi : Nat) : List Group :=
  ((List.range gs.length).foldl (fun (st : List Group × Nat × Nat) i =>
    let g := st.1.getD i default
    let t := topUpGroup males females (targets.getD i 0 - g.students.length) g st.2.1 st.2.2
    let g' := { t.1 with students := t.1.students.sortJs (fun a b => decide (a.id ≤ b.id)) }
    (st.1.set i g', t.2.1, t.2.2)) (gs, mi, fi)).1

/-- The pool that the equalizer redistributes: the chain-assigned students
followed by the roster members whose id is not among them. -/
def distributePool (groups : List Group) (allStudents : List Student) : List Student :=
  joinG groups ++
    allStudents.filter (fun s => !((joinG groups).any (fun a => a.id == s.id)))

/-- `StudentService.forceEqualDistribution`: recombine the entire roster
(chain-assigned students first, then the unassigned ones), split by gender
into two shuffled pools, clear every group, then
(1) give every group one male when there are at least as many males as
groups, (2) distribute the remaining males round-robin, (3) distribute the
females with a cyclic pointer, skipping any group already at its target size
(`⌊total/groupCount⌋`, the first `total % groupCount` groups getting one
extra), (4) sort each group by seat number, and (5) top up from the leftover
pools if any student is still unplaced. -/
def forceEqualDistribution (groups : List Group) (allStudents : List Student)
    (rnd : Rand) : List Group :=
  let assignedStudents := joinG groups
  let unassignedStudents := allStudents.filter
    (fun s => !(assignedStudents.any (fun a => a.id == s.id)))
  let studentsToDistribute := assignedStudents ++ unassignedStudents
  let maleStudents := rnd.forceMaleShuffle
    (studentsToDistribute.filter (fun s => s.gender == Gender.male))
  let femaleStudents := rnd.forceFemaleShuffle
    (studentsToDistribute.filter (fun s => s.gender == Gender.female))
  let totalStudents := studentsToDistribute.length
  let groupCount := groups.length
  let baseSize := totalStudents / groupCount
  let extra := totalStudents % groupCount
  let cleared := groups.map (fun g => { g with students := [] })
  -- step 1: one male per group when males.length ≥ groupCount
  let step1 : List Group × Nat :=
    if maleStudents.length ≥ groupCount then
      ((List.range groupCount).foldl
        (fun gs i => pushStudent gs i (maleStudents.getD i default)) cleared, groupCount)
    else (cleared, 0)
  -- step 2: remaining males round-robin from group 0
  let step2 := roundRobinPump step1.1 0 (maleStudents.drop step1.2)
  let maleIndexAfter := maleStudents.length
  -- step 3: females round-robin, skipping groups at their target size
  let targetSizes := (List.range groupCount).map
    (fun i => baseSize + if i < extra then 1 else 0)
  let fuel := (femaleStudents.length + 1) * groupCount + 1
  let step3 := femaleLoop targetSizes femaleStudents fuel step2.1 0 0
  -- the result check sorts every group by seat number
  let gs4 := step3.1.map
    (fun g => { g with students := g.students.sortJs (fun a b => decide (a.id ≤ b.id)) })
  let remainingMales := maleStudents.length - maleIndexAfter
  let remainingFemales := femaleStudents.length - step3.2
  if remainingMales > 0 ∨ remainingFemales > 0 then
    topUpAll targetSizes maleStudents femaleStudents gs4 maleIndexAfter step3.2
  else gs4

/-! ## Orchestration (`StudentService`) -/

/-- `StudentService.initializeGroups`. -/
def initializeGroups (groupCount : Nat) : List Group :=
  (List.range groupCount).map
    (fun i => ⟨"group-" ++ toString (i + 1), "組別" ++ toString (i + 1), []⟩)

/-- `StudentService.performGrouping`: run the chain of responsibility on a
fresh context, then always run the equalizer over the full roster —
on top of the chain's groups when some handler reported `handled`, on empty
groups otherwise.  `conds` is the output of
`GroupingConditionsService.getEnabledConditions()`. -/
def performGrouping (students : List Student) (groupCount : Nat)
    (conds : List CondState) (rnd : Rand) : List Group :=
  let groups := initializeGroups groupCount
  let ctx : GroupingContext := ⟨students, groups, conds, students⟩
  let result := blockDistributionHandle ctx rnd
  let finalGroups := if result.handled then result.groups else groups
  forceEqualDistribution finalGroups students rnd

/-- `StudentService.addStudents`: parse the new seat numbers, throw
`座號 … 已存在` when any of them is already on the roster (before any state
change — the signal update happens only after this check, so a throw leaves
the stored list untouched), otherwise append and re-sort by seat number. -/
def addStudents (students : List Student) (input : String) (gender : Gender) :
    Except String (List Student) :=
  let newNumbers := parseNumberInput input
  let existingIds := students.map Student.id
  let duplicates := newNumbers.filter (fun id => existingIds.contains id)
  if duplicates.length > 0 then
    .error ("座號 " ++ String.intercalate ", " (duplicates.map toString) ++ " 已存在")
  else
    let newStudents := newNumbers.map (fun id => Student.mk id gender)
    .ok ((students ++ newStudents).sortJs (fun a b => decide (a.id ≤ b.id)))

/-! ## GroupingConditionsService.updateBlockInput -/

/-- `GroupingConditionsService.updateBlockInput`: ignore the update when the
submitted value is strictly (`===`) equal to the stored one; otherwise store
the value verbatim at the block index and rebuild the merged `input` by
joining the non-blank block inputs with newlines. -/
def updateBlockInput (conds : List CondState) (conditionId : String)
    (blockIndex : Nat) (value : String) : List CondState :=
  let condition := conds.find? (fun c => c.id == conditionId)
  if (condition.bind (fun c => c.blockInputs.bind (fun bi => bi.get? blockIndex)))
      == some value then
    conds
  else
    conds.map (fun c =>
      if c.id == conditionId then
        match c.blockInputs with
        | some bi =>
          let newBlockInputs := bi.set blockIndex value
          let input := String.intercalate "\n"
            (newBlockInputs.filter (fun b => b.trimJs ≠ ""))
          { c with blockInputs := some newBlockInputs, input := input }
        | none => c
      else c)

/-! ## The grouping page's pre-flight validation (`validateSameGroupInput`) -/

/-- The `[,;]{2,}` test: two adjacent separator characters. -/
def hasConsecutiveSeps (s : String) : Bool :=
  let cs := s.toList
  (cs.zip cs.tail).any
    (fun p => (p.1 == ',' || p.1 == ';') && (p.2 == ',' || p.2 == ';'))

/-- The per-cluster walk of `validateSameGroupInput`, threading the set of
already-seen seat numbers and the set of numbers repeated across clusters;
an early `return { error }` becomes `.error`. -/
def vsgGo (maxPer : Nat) : List String → List Int → List Int → Except String (List Int)
  | [], _, cross => .ok cross
  | g :: rest, all, cross =>
    match parseStudentNumbers g with
    | .error msg => .error ("群組 \"" ++ g ++ "\" 有錯誤: " ++ msg)
    | .ok students =>
      if students.length = 0 then .error ("無效的群組格式: \"" ++ g ++ "\"")
      else if students.length > maxPer then
        .error ("輸入人數超過每組人數上限 (" ++ toString maxPer ++ "人)，群組 \"" ++ g ++
          "\" 有 " ++ toString students.length ++ " 人")
      else
        let st := students.foldl (fun (st : List Int × List Int) n =>
          if st.1.contains n then (st.1, insertSet st.2 n) else (st.1 ++ [n], st.2))
          (all, cross)
        vsgGo maxPer rest st.1 st.2

/-- `GroupingComponent.validateSameGroupInput`: the pre-flight validation
that turns malformed constraint input (including a duplicated seat number
inside one cluster) into a human-readable message before allocation runs;
`none` means the input is accepted. -/
def validateSameGroupInput (input : String) (maxStudentsPerGroup : Nat) : Option String :=
  if input.trimJs = "" then none
  else
    let trimmedInput := input.trimJs
    if !(trimmedInput.toList.all
        (fun c => c.isDigit || c == ',' || c == ';' || c.isWhitespace)) then
      some "輸入格式錯誤，只能包含數字、逗號和分號"
    else if hasConsecutiveSeps trimmedInput || trimmedInput.startsWithC ',' ||
        trimmedInput.endsWithC ',' || trimmedInput.startsWithC ';' ||
        trimmedInput.endsWithC ';' then
      some "輸入格式錯誤，請使用格式: 1,2,3;4,7"
    else
      let gsx := ((trimmedInput.splitOnC ';').map (fun g => g.trimJs)).filter
        (fun g => g.length > 0)
      match vsgGo maxStudentsPerGroup gsx [] [] with
      | .error e => some e
      | .ok cross =>
        if cross.length > 0 then
          some ("座號 " ++
            String.intercalate ","
              ((cross.sortJs (fun a b => decide (a ≤ b))).map toString) ++
            " 重複出現在不同組別中，請將這些學生分配到相同的組別")
        else none

/-! ## The home page's structural pre-checks (`initializeFromInputs`) -/

/-- The guard of `HomeComponent.initializeFromInputs`: the UI refuses to
initialize with an empty roster or with fewer students than groups, *before*
`performGrouping` is ever reachable.  (`canInitialize` additionally requires
`groupCount ≥ 2` for the button to be enabled.) -/
def initializeFromInputsCheck (previewCount groupCount : Nat) : Option String :=
  if previewCount = 0 then some "請至少輸入一位學生"
  else if previewCount < groupCount then some "學生人數不能少於分組數量"
  else none

/-! ## Description-level helpers used to state the claims -/

/-- The students that a round-robin distribution starting at pointer `cur`
hands to group `i`: those at pool positions `p` with `(cur + p) % gc = i`. -/
def selectSlot (gc : Nat) : Nat → Nat → List Student → List Student
  | _, _, [] => []
  | cur, i, s :: rest =>
    (if cur = i then [s] else []) ++ selectSlot gc ((cur + 1) % gc) i rest

/-- How many of the first `n` round-robin positions fall on slot `i`. -/
def rrCount (n gc i : Nat) : Nat :=
  ((List.range n).filter (fun p => p % gc = i)).length

/-- Scan at most `k` groups cyclically from `cur` for the first group still
below its target size. -/
def findSlot (targets : List Nat) (gs : List Group) : Nat → Nat → Option Nat
  | 0, _ => none
  | k + 1, cur =>
    if sizeAt gs cur < targets.getD cur 0 then some cur
    else findSlot targets gs k ((cur + 1) % gs.length)

/-- Round-robin with skipping, as the spec words the female round of the
equalizer: place each pool member into the next group (cyclically from the
pointer) that is still below its target size; stop once no group is.
Returns the groups and the number of members placed. -/
def skipRoundRobin (targets : List Nat) : List Group → Nat → List Student → List Group × Nat
  | gs, _, [] => (gs, 0)
  | gs, cur, f :: rest =>
    match findSlot targets gs gs.length cur with
    | none => (gs, 0)
    | some j =>
      let r := skipRoundRobin targets (pushStudent gs j f) ((j + 1) % gs.length) rest
      (r.1, r.2 + 1)

/-- The final equalizer as described with the male pool first (the amended
reading of the spec's equalizer paragraph): partition into two shuffled
pools; if the male pool has at least as many members as there are groups,
give every group exactly one male first; distribute the remaining males
round-robin; then distribute the female pool round-robin, skipping any group
that has already reached its target size (`⌊total/groupCount⌋`, the first
`total % groupCount` groups getting one extra); list each group sorted by
seat number. -/
def forceEqualMaleFirstDescr (groups : List Group) (allStudents : List Student)
    (rnd : Rand) : List Group :=
  let assigned := joinG groups
  let unassigned := allStudents.filter (fun s => !(assigned.any (fun a => a.id == s.id)))
  let pool := assigned ++ unassigned
  let males := rnd.forceMaleShuffle (pool.filter (fun s => s.gender == Gender.male))
  let females := rnd.forceFemaleShuffle (pool.filter (fun s => s.gender == Gender.female))
  let gc := groups.length
  let targets := (List.range gc).map
    (fun i => pool.length / gc + if i < pool.length % gc then 1 else 0)
  let cleared := groups.map (fun g => { g with students := [] })
  let afterOneEach : List Group × Nat :=
    if males.length ≥ gc then
      ((List.range gc).foldl (fun gs i => pushStudent gs i (males.getD i default)) cleared, gc)
    else (cleared, 0)
  let afterMales := roundRobinPump afterOneEach.1 0 (males.drop afterOneEach.2)
  let afterFemales := skipRoundRobin targets afterMales.1 0 females
  afterFemales.1.map
    (fun g => { g with students := g.students.sortJs (fun a b => decide (a.id ≤ b.id)) })

/-- Modelled from the spec (§4.5 and claim C3): the final equalizer as the
spec words it, with the *majority* category's pool distributed first (one
per group when the majority pool is at least the group count, then
round-robin) and the *minority* pool distributed round-robin afterwards,
skipping groups at their target size.  On a tie the male pool is taken as
the majority, which matches the code's male-first order and so only favours
agreement. -/
def forceEqualMajorityDescr (groups : List Group) (allStudents : List Student)
    (rnd : Rand) : List Group :=
  let assigned := joinG groups
  let unassigned := allStudents.filter (fun s => !(assigned.any (fun a => a.id == s.id)))
  let pool := assigned ++ unassigned
  let males := rnd.forceMaleShuffle (pool.filter (fun s => s.gender == Gender.male))
  let females := rnd.forceFemaleShuffle (pool.filter (fun s => s.gender == Gender.female))
  let majority := if females.length > males.length then females else males
  let minority := if females.length > males.length then males else females
  let gc := groups.length
  let targets := (List.range gc).map
    (fun i => pool.length / gc + if i < pool.length % gc then 1 else 0)
  let cleared := groups.map (fun g => { g with students := [] })
  let afterOneEach : List Group × Nat :=
    if majority.length ≥ gc then
      ((List.range gc).foldl (fun gs i => pushStudent gs i (majority.getD i default)) cleared, gc)
    else (cleared, 0)
  let afterMajority := roundRobinPump afterOneEach.1 0 (majority.drop afterOneEach.2)
  let afterMinority := skipRoundRobin targets afterMajority.1 0 minority
  afterMinority.1.map
    (fun g => { g with students := g.students.sortJs (fun a b => decide (a.id ≤ b.id)) })

/-- The invariant carried through the handler chain for the partition
argument: the group count is preserved, no id occurs twice among the placed
students, placed and remaining students all come from the roster, and no
remaining student's id is already placed. -/
def ChainOk (students : List Student) (n : Nat) (gs : List Group) (rem : List Student) : Prop :=
  gs.length = n ∧
  ((joinG gs).map Student.id).Nodup ∧
  (rem.map Student.id).Nodup ∧
  (∀ s ∈ joinG gs, s ∈ students) ∧
  (∀ s ∈ rem, s ∈ students) ∧
  (∀ s ∈ rem, s.id ∉ (joinG gs).map Student.id)

/-! ## The stable sort -/

theorem sortJs_perm {α : Type} (le : α → α → Bool) (l : List α) :
    (l.sortJs le).Perm l :=
  List.perm_insertionSort _ l

theorem mem_sortJs {α : Type} {le : α → α → Bool} {l : List α} {x : α} :
    x ∈ l.sortJs le ↔ x ∈ l :=
  List.mem_insertionSort _

theorem length_sortJs {α : Type} (le : α → α → Bool) (l : List α) :
    (l.sortJs le).length = l.length :=
  (sortJs_perm le l).length_eq

theorem sorted_sortJs {α : Type} (le : α → α → Bool)
    (htrans : ∀ a b c, le a b = true → le b c = true → le a c = true)
    (htotal : ∀ a b, le a b = true ∨ le b a = true) (l : List α) :
    (l.sortJs le).Pairwise (fun a b => le a b = true) := by
  haveI : IsTrans α (fun a b => le a b = true) := ⟨htrans⟩
  haveI : IsTotal α (fun a b => le a b = true) := ⟨htotal⟩
  exact List.sorted_insertionSort _ l

/-! ## Basic lemmas about groups and the shared helpers -/

theorem joinG_append (l₁ l₂ : List Group) : joinG (l₁ ++ l₂) = joinG l₁ ++ joinG l₂ := by
  simp [joinG]

theorem joinG_cons (g : Group) (gs : List Group) :
    joinG (g :: gs) = g.students ++ joinG gs := by
  simp [joinG]

theorem getD_eq_getElem_of_lt {gs : List Group} {i : Nat} (h : i < gs.length) :
    gs.getD i default = gs[i] := by
  simp [List.getD_eq_getElem?_getD, List.getElem?_eq_getElem h]

theorem joinG_decomp {gs : List Group} {i : Nat} (h : i < gs.length) :
    joinG gs = joinG (gs.take i) ++ (gs.getD i default).students ++ joinG (gs.drop (i + 1)) := by
  conv_lhs => rw [← List.take_append_drop i gs]
  rw [joinG_append, List.drop_eq_getElem_cons h, joinG_cons, getD_eq_getElem_of_lt h]
  simp

theorem length_setGroupStudents (gs : List Group) (i : Nat) (l : List Student) :
    (setGroupStudents gs i l).length = gs.length := by
  simp [setGroupStudents]

theorem length_pushStudent (gs : List Group) (i : Nat) (s : Student) :
    (pushStudent gs i s).length = gs.length := by
  simp [pushStudent, length_setGroupStudents]

theorem setGroupStudents_of_le {gs : List Group} {i : Nat} (h : gs.length ≤ i)
    (l : List Student) : setGroupStudents gs i l = gs := by
  simp [setGroupStudents, List.set_eq_of_length_le h]

theorem joinG_setGroupStudents {gs : List Group} {i : Nat} (h : i < gs.length)
    (l : List Student) :
    joinG (setGroupStudents gs i l) =
      joinG (gs.take i) ++ l ++ joinG (gs.drop (i + 1)) := by
  rw [setGroupStudents, List.set_eq_take_append_cons_drop]
  rw [if_pos h, joinG_append, joinG_cons]
  simp

theorem joinG_pushStudent_perm {gs : List Group} {i : Nat} (h : i < gs.length)
    (s : Student) : joinG (pushStudent gs i s) ~ joinG gs ++ [s] := by
  rw [pushStudent, joinG_setGroupStudents h, joinG_decomp h]
  simp only [List.perm_iff_count, List.count_append]
  intro a
  omega

theorem joinG_pushStudent_subperm (gs : List Group) (i : Nat) (s : Student) :
    joinG (pushStudent gs i s) <+~ joinG gs ++ [s] := by
  by_cases h : i < gs.length
  · exact (joinG_pushStudent_perm h s).subperm
  · rw [pushStudent, setGroupStudents_of_le (Nat.le_of_not_lt h)]
    exact (List.sublist_append_left _ _).subperm

theorem subperm_map {α β : Type} (f : α → β) {l m : List α} (h : l <+~ m) :
    l.map f <+~ m.map f := by
  obtain ⟨w, hw, hsub⟩ := h
  exact ⟨w.map f, hw.map f, hsub.map f⟩

theorem nodup_of_subperm {α : Type} {l m : List α} (h : l <+~ m) (hm : m.Nodup) :
    l.Nodup := by
  obtain ⟨w, hw, hsub⟩ := h
  exact (hsub.nodup hm).perm hw

theorem mem_id_inj {S : List Student} (h : (S.map Student.id).Nodup)
    {a b : Student} (ha : a ∈ S) (hb : b ∈ S) (hid : a.id = b.id) : a = b :=
  List.inj_on_of_nodup_map h ha hb hid

theorem firstMinIdx_lt {gs : List Group} (h : 0 < gs.length) :
    firstMinIdx gs < gs.length := by
  rw [firstMinIdx]
  have : ∀ (l : List Nat) (b : Nat), b < gs.length → (∀ i ∈ l, i < gs.length) →
      l.foldl (fun best i => if sizeAt gs i < sizeAt gs best then i else best) b <
        gs.length := by
    intro l
    induction l with
    | nil => intro b hb _; exact hb
    | cons x xs ih =>
      intro b hb hmem
      simp only [List.foldl_cons]
      by_cases hx : sizeAt gs x < sizeAt gs b
      · rw [if_pos hx]
        exact ih x (hmem x (List.mem_cons_self x xs)) (fun i hi => hmem i (List.mem_cons_of_mem _ hi))
      · rw [if_neg hx]
        exact ih b hb (fun i hi => hmem i (List.mem_cons_of_mem _ hi))
  exact this _ 0 h (fun i hi => List.mem_range.mp hi)

theorem contains_iff_mem {α : Type} [DecidableEq α] {l : List α} {x : α} :
    l.contains x = true ↔ x ∈ l := by
  rw [List.contains_eq_any_beq, List.any_eq_true]
  constructor
  · rintro ⟨a, ha, hx⟩
    rw [beq_iff_eq] at hx
    exact hx ▸ ha
  · intro hx
    exact ⟨x, hx, beq_self_eq_true x⟩

theorem mem_insertSet {α : Type} [DecidableEq α] {l : List α} {x y : α} :
    y ∈ insertSet l x ↔ y ∈ l ∨ y = x := by
  by_cases h : l.contains x
  · simp only [insertSet, if_pos h]
    constructor
    · exact fun hy => Or.inl hy
    · rintro (hy | rfl)
      · exact hy
      · exact contains_iff_mem.mp h
  · have hx : x ∉ l := fun hm => h (contains_iff_mem.mpr hm)
    simp only [insertSet, if_neg h, List.mem_append, List.mem_singleton]

/-- Extracting one occurrence of a student and every other entry with the
same id is a sub-permutation. -/
theorem extract_subperm {l : List Student} {s : Student} (h : s ∈ l) :
    s :: l.filter (fun t => !(t.id == s.id)) <+~ l := by
  induction l with
  | nil => cases h
  | cons x xs ih =>
    rcases List.mem_cons.mp h with rfl | h
    · rw [List.filter_cons]
      simp only [beq_self_eq_true, Bool.not_true]
      rw [if_neg (by simp)]
      exact (List.subperm_cons s).mpr (List.filter_sublist xs).subperm
    · rw [List.filter_cons]
      by_cases hx : x.id == s.id
      · rw [if_neg (by simp [hx])]
        exact (ih h).trans (List.sublist_cons_self x xs).subperm
      · rw [if_pos (by simp [hx])]
        exact ((List.Perm.swap x s _).subperm).trans ((List.subperm_cons x).mpr (ih h))

/-! ## Parser lemmas -/

theorem jsDedup_go_mem {α : Type} [DecidableEq α] (l : List α) :
    ∀ (seen : List α) (x : α), x ∈ jsDedup.go seen l ↔ x ∈ l ∧ x ∉ seen := by
  induction l with
  | nil => intro seen x; simp [jsDedup.go]
  | cons a as ih =>
    intro seen x
    rw [jsDedup.go]
    by_cases h : seen.contains a
    · have ha : a ∈ seen := contains_iff_mem.mp h
      rw [if_pos h, ih]
      simp only [List.mem_cons]
      constructor
      · rintro ⟨hx, hs⟩
        exact ⟨Or.inr hx, hs⟩
      · rintro ⟨hx | hx, hs⟩
        · subst hx
          exact absurd ha hs
        · exact ⟨hx, hs⟩
    · have ha : a ∉ seen := fun hm => h (contains_iff_mem.mpr hm)
      rw [if_neg h]
      rw [List.mem_cons, ih]
      simp only [List.mem_cons]
      constructor
      · rintro (hx | ⟨hx, hs⟩)
        · subst hx
          exact ⟨Or.inl rfl, ha⟩
        · exact ⟨Or.inr hx, fun hm => hs (Or.inr hm)⟩
      · rintro ⟨hx | hx, hs⟩
        · subst hx
          exact Or.inl rfl
        · by_cases hxa : x = a
          · exact Or.inl hxa
          · refine Or.inr ⟨hx, fun hm => ?_⟩
            rcases hm with h1 | h1
            · exact hxa h1
            · exact hs h1

theorem jsDedup_go_nodup {α : Type} [DecidableEq α] (l : List α) :
    ∀ seen : List α, (jsDedup.go seen l).Nodup := by
  induction l with
  | nil => intro seen; simp [jsDedup.go]
  | cons a as ih =>
    intro seen
    rw [jsDedup.go]
    by_cases h : seen.contains a
    · rw [if_pos h]; exact ih seen
    · rw [if_neg h]
      refine List.Nodup.cons ?_ (ih (a :: seen))
      intro hmem
      exact ((jsDedup_go_mem as (a :: seen) a).mp hmem).2 (List.mem_cons_self a seen)

theorem jsDedup_mem {α : Type} [DecidableEq α] {l : List α} {x : α} :
    x ∈ jsDedup l ↔ x ∈ l := by
  rw [jsDedup, jsDedup_go_mem]
  simp

theorem jsDedup_nodup {α : Type} [DecidableEq α] (l : List α) : (jsDedup l).Nodup :=
  jsDedup_go_nodup l []

theorem sortJs_le_nodup {l : List Int} (h : l.Nodup) :
    (l.sortJs (fun a b => decide (a ≤ b))).Nodup :=
  ((sortJs_perm _ l).symm).nodup h

theorem sortJs_le_sorted (l : List Int) :
    (l.sortJs (fun a b => decide (a ≤ b))).Pairwise (fun a b => a ≤ b) := by
  have h : (l.sortJs (fun a b => decide (a ≤ b))).Pairwise
      (fun a b => decide (a ≤ b) = true) :=
    sorted_sortJs (fun a b : Int => decide (a ≤ b))
      (fun a b c hab hbc => by
        simp only [decide_eq_true_eq] at *
        omega)
      (fun a b => by
        simp only [decide_eq_true_eq]
        omega) l
  exact List.Pairwise.imp (fun hab => by simpa using hab) h

/-- The numbers accumulated by `parseStudentNumbers` never repeat: the
`numbers` component doubles as the seen-set. -/
theorem seenDupStep_fold_nodup (parts : List String) :
    ∀ st : List Int × List Int, st.1.Nodup → (parts.foldl seenDupStep st).1.Nodup := by
  induction parts with
  | nil => intro st h; exact h
  | cons p rest ih =>
    intro st h
    simp only [List.foldl_cons]
    refine ih _ ?_
    unfold seenDupStep
    cases hp : parseJsInt p with
    | none => exact h
    | some num =>
      by_cases hc : st.1.contains num
      · simp only [if_pos hc]
        exact h
      · simp only [if_neg hc]
        have hnum : num ∉ st.1 := fun hm => hc (contains_iff_mem.mpr hm)
        simp only [List.nodup_append, List.nodup_cons]
        exact ⟨h, by simp, by simpa [List.disjoint_singleton] using hnum⟩

theorem parseStudentNumbers_ok_nodup {input : String} {ns : List Int}
    (h : parseStudentNumbers input = .ok ns) : ns.Nodup := by
  unfold parseStudentNumbers at h
  set st := ((input.splitOnC ',').map (fun p => p.trimJs)).foldl seenDupStep ([], []) with hst
  by_cases hd : st.2.length > 0
  · rw [if_pos hd] at h
    exact absurd h (by simp)
  · rw [if_neg hd] at h
    have hnd := seenDupStep_fold_nodup ((input.splitOnC ',').map (fun p => p.trimJs))
      ([], []) (by simp)
    rw [← hst] at hnd
    cases h
    exact sortJs_le_nodup hnd

theorem clusterStep_ok {g : String} {ns : List Int}
    (hp : parseStudentNumbers g = .ok ns) (pairs : List (List Int)) :
    clusterStep pairs g = if ns.length ≥ 2 then pairs ++ [ns] else pairs := by
  unfold clusterStep
  rw [hp]

theorem clusterStep_error {g : String} {e : String}
    (hp : parseStudentNumbers g = .error e) (pairs : List (List Int)) :
    clusterStep pairs g = pairs := by
  unfold clusterStep
  rw [hp]

/-- What a `clusterStep` fold can contain: the accumulator's clusters plus
successfully parsed clusters of length at least 2. -/
theorem clusterStep_fold_mem (gsx : List String) :
    ∀ (acc : List (List Int)) (c : List Int), c ∈ gsx.foldl clusterStep acc →
      c ∈ acc ∨ ∃ g ∈ gsx, parseStudentNumbers g = .ok c ∧ 2 ≤ c.length := by
  induction gsx with
  | nil => intro acc c h; exact Or.inl h
  | cons g rest ih =>
    intro acc c h
    simp only [List.foldl_cons] at h
    rcases ih _ _ h with hacc | ⟨g', hg', hex⟩
    · cases hp : parseStudentNumbers g with
      | ok ns =>
        rw [clusterStep_ok hp] at hacc
        by_cases hlen : ns.length ≥ 2
        · rw [if_pos hlen] at hacc
          rcases List.mem_append.mp hacc with hacc | hc
          · exact Or.inl hacc
          · rcases List.mem_singleton.mp hc with rfl
            exact Or.inr ⟨g, List.mem_cons_self _ _, hp, hlen⟩
        · rw [if_neg hlen] at hacc
          exact Or.inl hacc
      | error e =>
        rw [clusterStep_error hp] at hacc
        exact Or.inl hacc
    · exact Or.inr ⟨g', List.mem_cons_of_mem _ hg', hex⟩

/-- Every cluster kept by `parseSameGroupInput` came from a successful
duplicate-free parse with at least two members. -/
theorem parseSameGroupInput_mem {input : String} {c : List Int}
    (h : c ∈ parseSameGroupInput input) : c.Nodup ∧ 2 ≤ c.length := by
  unfold parseSameGroupInput at h
  by_cases he : input.trimJs = ""
  · rw [if_pos he] at h; cases h
  · rw [if_neg he] at h
    rcases clusterStep_fold_mem _ _ _ h with hacc | ⟨g, _, hp, hlen⟩
    · cases hacc
    · exact ⟨parseStudentNumbers_ok_nodup hp, hlen⟩

/-- `parseDifferentGroupInput` is the same code as `parseSameGroupInput`. -/
theorem parseDifferentGroupInput_eq (input : String) :
    parseDifferentGroupInput input = parseSameGroupInput input := rfl

theorem parseDifferentGroupInput_mem {input : String} {c : List Int}
    (h : c ∈ parseDifferentGroupInput input) : c.Nodup ∧ 2 ≤ c.length :=
  parseSameGroupInput_mem (parseDifferentGroupInput_eq input ▸ h)

theorem parseNumberInput_nodup (input : String) : (parseNumberInput input).Nodup := by
  unfold parseNumberInput
  exact sortJs_le_nodup (jsDedup_nodup _)

theorem parseNumberInput_sorted (input : String) :
    (parseNumberInput input).Pairwise (· ≤ ·) := by
  unfold parseNumberInput
  exact sortJs_le_sorted _

/-! ## Round-robin lemmas -/

theorem getD_pushStudent_self {gs : List Group} {i : Nat} (h : i < gs.length)
    (s : Student) :
    (pushStudent gs i s).getD i default =
      { gs.getD i default with students := (gs.getD i default).students ++ [s] } := by
  simp [pushStudent, setGroupStudents, List.getD_eq_getElem?_getD,
    List.getElem?_set_self h]

theorem getD_pushStudent_ne {gs : List Group} {i j : Nat} (h : i ≠ j) (s : Student) :
    (pushStudent gs i s).getD j default = gs.getD j default := by
  simp [pushStudent, setGroupStudents, List.getD_eq_getElem?_getD,
    List.getElem?_set_ne h]

theorem sizeAt_pushStudent_self {gs : List Group} {i : Nat} (h : i < gs.length)
    (s : Student) : sizeAt (pushStudent gs i s) i = sizeAt gs i + 1 := by
  unfold sizeAt
  rw [getD_pushStudent_self h]
  simp

theorem sizeAt_pushStudent_ne {gs : List Group} {i j : Nat} (h : i ≠ j) (s : Student) :
    sizeAt (pushStudent gs i s) j = sizeAt gs j := by
  unfold sizeAt
  rw [getD_pushStudent_ne h]

theorem roundRobinPump_length (pool : List Student) :
    ∀ (gs : List Group) (cur : Nat), (roundRobinPump gs cur pool).1.length = gs.length := by
  induction pool with
  | nil => intro gs cur; rfl
  | cons s rest ih =>
    intro gs cur
    rw [roundRobinPump, ih, length_pushStudent]

theorem roundRobinPump_append (l₁ l₂ : List Student) :
    ∀ (gs : List Group) (cur : Nat),
      roundRobinPump gs cur (l₁ ++ l₂) =
        roundRobinPump (roundRobinPump gs cur l₁).1 (roundRobinPump gs cur l₁).2 l₂ := by
  induction l₁ with
  | nil => intro gs cur; rfl
  | cons s rest ih =>
    intro gs cur
    rw [List.cons_append, roundRobinPump, roundRobinPump, ih]

theorem roundRobinPump_snd (pool : List Student) :
    ∀ (gs : List Group) (cur : Nat), 0 < gs.length → cur < gs.length →
      (roundRobinPump gs cur pool).2 = (cur + pool.length) % gs.length := by
  induction pool with
  | nil =>
    intro gs cur h hcur
    simp [roundRobinPump, Nat.mod_eq_of_lt hcur]
  | cons s rest ih =>
    intro gs cur h hcur
    rw [roundRobinPump]
    have hlen : (pushStudent gs cur s).length = gs.length := length_pushStudent gs cur s
    rw [ih _ _ (by rw [hlen]; exact h) (by rw [hlen]; exact Nat.mod_lt _ h)]
    rw [hlen, Nat.mod_add_mod]
    congr 1
    simp only [List.length_cons]
    omega

theorem roundRobinPump_students (pool : List Student) :
    ∀ (gs : List Group) (cur i : Nat), cur < gs.length →
      ((roundRobinPump gs cur pool).1.getD i default).students =
        (gs.getD i default).students ++ selectSlot gs.length cur i pool := by
  induction pool with
  | nil => intro gs cur i _; simp [roundRobinPump, selectSlot]
  | cons s rest ih =>
    intro gs cur i hcur
    rw [roundRobinPump, selectSlot]
    have hlen : (pushStudent gs cur s).length = gs.length := length_pushStudent gs cur s
    have hpos : 0 < gs.length := Nat.lt_of_le_of_lt (Nat.zero_le _) hcur
    have ih' := ih (pushStudent gs cur s) ((cur + 1) % gs.length) i
      (by rw [hlen]; exact Nat.mod_lt _ hpos)
    rw [hlen] at ih'
    rw [ih']
    by_cases hci : cur = i
    · subst hci
      rw [getD_pushStudent_self hcur]
      simp
    · rw [getD_pushStudent_ne hci]
      simp [hci]

theorem selectSlot_length (pool : List Student) :
    ∀ (gc cur i : Nat), cur < gc →
      (selectSlot gc cur i pool).length =
        ((List.range pool.length).filter (fun p => (cur + p) % gc = i)).length := by
  induction pool with
  | nil => intro gc cur i _; simp [selectSlot]
  | cons s rest ih =>
    intro gc cur i hcur
    have hgc : 0 < gc := Nat.lt_of_le_of_lt (Nat.zero_le _) hcur
    rw [selectSlot, List.length_append]
    rw [ih gc ((cur + 1) % gc) i (Nat.mod_lt _ hgc)]
    simp only [List.length_cons]
    rw [List.range_succ_eq_map, List.filter_cons]
    have hmap : (List.filter (fun p => decide ((cur + p) % gc = i))
        (List.map Nat.succ (List.range rest.length))).length
        = (List.filter (fun p => decide (((cur + 1) % gc + p) % gc = i))
            (List.range rest.length)).length := by
      rw [List.filter_map, List.length_map]
      congr 1
      apply List.filter_congr
      intro p _
      show decide ((cur + Nat.succ p) % gc = i) = decide (((cur + 1) % gc + p) % gc = i)
      rw [Nat.mod_add_mod]
      have harith : cur + Nat.succ p = cur + 1 + p := by omega
      rw [harith]
    have hc0 : (cur + 0) % gc = cur := by
      simpa using Nat.mod_eq_of_lt hcur
    by_cases h0 : cur = i
    · rw [if_pos h0]
      rw [if_pos (show decide ((cur + 0) % gc = i) = true by
        rw [Nat.add_zero, Nat.mod_eq_of_lt hcur]; simp [h0])]
      simp only [List.length_cons, List.length_nil]
      rw [hmap]
      omega
    · rw [if_neg h0]
      rw [if_neg (show ¬ decide ((cur + 0) % gc = i) = true by
        rw [Nat.add_zero, Nat.mod_eq_of_lt hcur]; simp [h0])]
      simp only [List.length_cons, List.length_nil]
      rw [hmap]
      omega

/-! ## Counting round-robin slots -/

theorem filter_range_eq_length (n i : Nat) :
    ((List.range n).filter (fun p => decide (p = i))).length = if i < n then 1 else 0 := by
  induction n with
  | zero => simp
  | succ m ih =>
    rw [List.range_succ, List.filter_append, List.length_append, ih]
    have hsingle : (([m] : List Nat).filter (fun p => decide (p = i))).length
        = if m = i then 1 else 0 := by
      by_cases h : m = i
      · simp [h]
      · simp [h]
    rw [hsingle]
    split_ifs <;> omega

theorem rrCount_small (n gc i : Nat) (hn : n ≤ gc) :
    rrCount n gc i = if i < n then 1 else 0 := by
  unfold rrCount
  have hcongr : (List.range n).filter (fun p => decide (p % gc = i)) =
      (List.range n).filter (fun p => decide (p = i)) := by
    apply List.filter_congr
    intro p hp
    have hplt : p < gc := Nat.lt_of_lt_of_le (List.mem_range.mp hp) hn
    rw [Nat.mod_eq_of_lt hplt]
  rw [hcongr, filter_range_eq_length]

theorem rrCount_add_gc (m gc i : Nat) (hi : i < gc) :
    rrCount (gc + m) gc i = 1 + rrCount m gc i := by
  unfold rrCount
  rw [List.range_add, List.filter_append, List.length_append]
  have h1 : ((List.range gc).filter (fun p => decide (p % gc = i))).length = 1 := by
    have := rrCount_small gc gc i (Nat.le_refl gc)
    unfold rrCount at this
    rw [this, if_pos hi]
  have h2 : (((List.range m).map (gc + ·)).filter
      (fun p => decide (p % gc = i))).length =
      ((List.range m).filter (fun p => decide (p % gc = i))).length := by
    rw [List.filter_map, List.length_map]
    congr 1
    apply List.filter_congr
    intro p _
    show decide ((gc + p) % gc = i) = decide (p % gc = i)
    rw [Nat.add_mod_left]
  rw [h1, h2]

theorem rrCount_closed (n gc i : Nat) (hgc : 0 < gc) (hi : i < gc) :
    rrCount n gc i = n / gc + (if i < n % gc then 1 else 0) := by
  induction n using Nat.strong_induction_on with
  | _ n ih =>
    rcases Nat.lt_or_ge n gc with hn | hn
    · rw [rrCount_small n gc i (Nat.le_of_lt hn), Nat.div_eq_of_lt hn, Nat.mod_eq_of_lt hn]
      simp
    · obtain ⟨m, rfl⟩ : ∃ m, n = gc + m := ⟨n - gc, by omega⟩
      rw [rrCount_add_gc m gc i hi, ih m (by omega)]
      rw [Nat.add_mod_left]
      have hdiv : (gc + m) / gc = m / gc + 1 := by
        rw [Nat.add_comm]
        exact Nat.add_div_right m hgc
      rw [hdiv]
      omega

theorem rrCount_mono (n T gc i : Nat) (h : n ≤ T) : rrCount n gc i ≤ rrCount T gc i := by
  unfold rrCount
  exact ((List.range_sublist.mpr h).filter _).length_le

theorem targets_map_sum (n b e : Nat) (he : e ≤ n) :
    ((List.range n).map (fun i => b + if i < e then 1 else 0)).sum = n * b + e := by
  induction n generalizing e with
  | zero => simp; omega
  | succ m ihm =>
    rw [List.range_succ, List.map_append, List.sum_append]
    by_cases hem : e ≤ m
    · rw [ihm e hem]
      simp only [List.map_cons, List.map_nil, List.sum_cons, List.sum_nil]
      rw [if_neg (by omega), Nat.succ_mul]
      omega
    · have he' : e = m + 1 := by omega
      subst he'
      have hall : ((List.range m).map (fun i => b + if i < m + 1 then 1 else 0)) =
          (List.range m).map (fun _ => b + 1) := by
        apply List.map_congr_left
        intro i hi
        rw [if_pos (by have := List.mem_range.mp hi; omega)]
      rw [hall, List.map_const', List.sum_replicate, List.length_range]
      simp only [List.map_cons, List.map_nil, List.sum_cons, List.sum_nil]
      rw [if_pos (by omega), smul_eq_mul, Nat.mul_succ, Nat.succ_mul]
      omega

theorem targets_sum (gc T : Nat) (hgc : 0 < gc) :
    ((List.range gc).map (fun i => T / gc + if i < T % gc then 1 else 0)).sum = T := by
  rw [targets_map_sum gc (T / gc) (T % gc) (Nat.le_of_lt (Nat.mod_lt _ hgc))]
  exact Nat.div_add_mod T gc

/-! ## Equalizer lemmas: the male phase -/

theorem foldl_pushStudent_length (l : List Nat) (f : Nat → Student) :
    ∀ gs : List Group, (l.foldl (fun gs k => pushStudent gs k (f k)) gs).length = gs.length := by
  induction l with
  | nil => intro gs; rfl
  | cons k rest ih =>
    intro gs
    rw [List.foldl_cons, ih, length_pushStudent]

theorem foldl_pushStudent_joinG (l : List Nat) (f : Nat → Student) :
    ∀ gs : List Group, (∀ k ∈ l, k < gs.length) →
      joinG (l.foldl (fun gs k => pushStudent gs k (f k)) gs) ~ joinG gs ++ l.map f := by
  induction l with
  | nil => intro gs _; simp
  | cons k rest ih =>
    intro gs hmem
    rw [List.foldl_cons, List.map_cons]
    have hk : k < gs.length := hmem k (List.mem_cons_self k rest)
    have hrest : ∀ j ∈ rest, j < (pushStudent gs k (f k)).length := by
      intro j hj
      rw [length_pushStudent]
      exact hmem j (List.mem_cons_of_mem _ hj)
    refine (ih _ hrest).trans ?_
    have hp := joinG_pushStudent_perm hk (f k)
    refine (hp.append_right (rest.map f)).trans ?_
    simp only [List.perm_iff_count, List.count_append]
    intro a
    simp [List.count_cons]
    omega

theorem map_getD_range_take (l : List Student) (n : Nat) (hn : n ≤ l.length) :
    (List.range n).map (fun k => l.getD k default) = l.take n := by
  induction n with
  | zero => simp
  | succ m ih =>
    have hm : m ≤ l.length := by omega
    rw [List.range_succ, List.map_append, ih hm]
    have hml : m < l.length := by omega
    rw [List.take_succ]
    simp [getD_eq_getElem_of_lt, List.getD_eq_getElem?_getD, List.getElem?_eq_getElem hml]

theorem oneEach_getD (cleared : List Group) (males : List Student) :
    ∀ (gc : Nat), gc ≤ cleared.length → ∀ i : Nat,
      (((List.range gc).foldl (fun gs k => pushStudent gs k (males.getD k default)) cleared).getD
        i default).students =
      (cleared.getD i default).students ++ (if i < gc then [males.getD i default] else []) := by
  intro gc
  induction gc with
  | zero => intro _ i; simp
  | succ m ih =>
    intro hgc i
    rw [List.range_succ, List.foldl_append, List.foldl_cons, List.foldl_nil]
    have hmlen : ((List.range m).foldl
        (fun gs k => pushStudent gs k (males.getD k default)) cleared).length =
        cleared.length := foldl_pushStudent_length _ _ _
    by_cases him : i = m
    · subst him
      rw [getD_pushStudent_self (by rw [hmlen]; omega)]
      simp only [ih (by omega) i, if_neg (Nat.lt_irrefl i), if_pos (Nat.lt_succ_self i)]
      simp
    · rw [getD_pushStudent_ne (fun h => him h.symm)]
      rw [ih (by omega) i]
      by_cases hlt : i < m
      · rw [if_pos hlt, if_pos (by omega)]
      · rw [if_neg hlt, if_neg (by omega)]

/-! ## Equalizer lemmas: `findSlot` and `skipRoundRobin` -/

theorem findSlot_some_spec (targets : List Nat) (gs : List Group) :
    ∀ (k cur j : Nat), cur < gs.length → findSlot targets gs k cur = some j →
      sizeAt gs j < targets.getD j 0 ∧ j < gs.length ∧
      ∃ d < k, j = (cur + d) % gs.length ∧
        ∀ t < d, ¬ sizeAt gs ((cur + t) % gs.length) <
          targets.getD ((cur + t) % gs.length) 0 := by
  intro k
  induction k with
  | zero => intro cur j _ h; cases h
  | succ m ih =>
    intro cur j hcur h
    have hgc : 0 < gs.length := Nat.lt_of_le_of_lt (Nat.zero_le _) hcur
    rw [findSlot] at h
    by_cases hc : sizeAt gs cur < targets.getD cur 0
    · rw [if_pos hc] at h
      cases h
      refine ⟨hc, hcur, 0, Nat.succ_pos m, ?_, fun t ht => absurd ht (by omega)⟩
      rw [Nat.add_zero, Nat.mod_eq_of_lt hcur]
    · rw [if_neg hc] at h
      obtain ⟨hj, hjlt, d, hd, hjeq, hskip⟩ := ih ((cur + 1) % gs.length) j
        (Nat.mod_lt _ hgc) h
      refine ⟨hj, hjlt, d + 1, by omega, ?_, ?_⟩
      · rw [hjeq, Nat.mod_add_mod]
        congr 1
        omega
      · intro t ht
        match t with
        | 0 =>
          rw [Nat.add_zero, Nat.mod_eq_of_lt hcur]
          exact hc
        | t' + 1 =>
          have := hskip t' (by omega)
          rw [Nat.mod_add_mod] at this
          have harith : (cur + 1) + t' = cur + (t' + 1) := by omega
          rw [harith] at this
          exact this

theorem findSlot_none_spec (targets : List Nat) (gs : List Group) :
    ∀ (k cur : Nat), cur < gs.length → findSlot targets gs k cur = none →
      ∀ t < k, ¬ sizeAt gs ((cur + t) % gs.length) <
        targets.getD ((cur + t) % gs.length) 0 := by
  intro k
  induction k with
  | zero => intro cur _ _ t ht; exact absurd ht (by omega)
  | succ m ih =>
    intro cur hcur h t ht
    have hgc : 0 < gs.length := Nat.lt_of_le_of_lt (Nat.zero_le _) hcur
    rw [findSlot] at h
    by_cases hc : sizeAt gs cur < targets.getD cur 0
    · rw [if_pos hc] at h; cases h
    · rw [if_neg hc] at h
      match t with
      | 0 =>
        rw [Nat.add_zero, Nat.mod_eq_of_lt hcur]
        exact hc
      | t' + 1 =>
        have := ih ((cur + 1) % gs.length) (Nat.mod_lt _ hgc) h t' (by omega)
        rw [Nat.mod_add_mod] at this
        have harith : (cur + 1) + t' = cur + (t' + 1) := by omega
        rw [harith] at this
        exact this

theorem slot_coverage {gc cur i : Nat} (hcur : cur < gc) (hi : i < gc) :
    ∃ t < gc, (cur + t) % gc = i := by
  refine ⟨(i + gc - cur) % gc, Nat.mod_lt _ (by omega), ?_⟩
  rw [Nat.add_mod_mod]
  have harith : cur + (i + gc - cur) = i + gc := by omega
  rw [harith, Nat.add_mod_right, Nat.mod_eq_of_lt hi]

theorem findSlot_none_allFull {targets : List Nat} {gs : List Group} {cur : Nat}
    (hcur : cur < gs.length)
    (h : findSlot targets gs gs.length cur = none) :
    allGroupsFull targets gs = true := by
  rw [allGroupsFull, List.all_eq_true]
  intro i hi
  have hilt : i < gs.length := List.mem_range.mp hi
  obtain ⟨t, ht, hslot⟩ := slot_coverage hcur hilt
  have := findSlot_none_spec targets gs gs.length cur hcur h t ht
  rw [hslot] at this
  simpa using this

theorem allFull_findSlot_none {targets : List Nat} {gs : List Group}
    (h : allGroupsFull targets gs = true) :
    ∀ (k cur : Nat), cur < gs.length → findSlot targets gs k cur = none := by
  intro k
  induction k with
  | zero => intro cur _; rfl
  | succ m ih =>
    intro cur hcur
    have hgc : 0 < gs.length := Nat.lt_of_le_of_lt (Nat.zero_le _) hcur
    rw [findSlot]
    rw [allGroupsFull, List.all_eq_true] at h
    have hfull := h cur (List.mem_range.mpr hcur)
    rw [if_neg (by simp only [decide_eq_true_eq] at hfull; omega)]
    exact ih _ (Nat.mod_lt _ hgc)

theorem sumSizes_eq_joinG_length (gs : List Group) :
    (gs.map (fun g => g.students.length)).sum = (joinG gs).length := by
  rw [joinG, List.length_flatten, List.map_map]
  rfl

theorem allFull_size_ge {targets : List Nat} {gs : List Group} {i : Nat}
    (h : allGroupsFull targets gs = true) (hi : i < gs.length) :
    targets.getD i 0 ≤ sizeAt gs i := by
  rw [allGroupsFull, List.all_eq_true] at h
  have := h i (List.mem_range.mpr hi)
  simpa using this

theorem skipRR_allFull {targets : List Nat} {gs : List Group} {cur : Nat}
    (hcur : cur < gs.length) (h : allGroupsFull targets gs = true) (pool : List Student) :
    skipRoundRobin targets gs cur pool = (gs, 0) := by
  cases pool with
  | nil => rfl
  | cons f rest =>
    rw [skipRoundRobin, allFull_findSlot_none h gs.length cur hcur]

theorem skipRR_length (targets : List Nat) (pool : List Student) :
    ∀ (gs : List Group) (cur : Nat),
      (skipRoundRobin targets gs cur pool).1.length = gs.length := by
  induction pool with
  | nil => intro gs cur; rfl
  | cons f rest ih =>
    intro gs cur
    rw [skipRoundRobin]
    cases hfind : findSlot targets gs gs.length cur with
    | none => rfl
    | some j =>
      simp only []
      rw [ih, length_pushStudent]

theorem skipRR_spec (targets : List Nat) (pool : List Student) :
    ∀ (gs : List Group) (cur : Nat), cur < gs.length →
      (∀ i < gs.length, sizeAt gs i ≤ targets.getD i 0) →
      (skipRoundRobin targets gs cur pool).2 ≤ pool.length ∧
      joinG (skipRoundRobin targets gs cur pool).1 ~
        joinG gs ++ pool.take (skipRoundRobin targets gs cur pool).2 ∧
      (∀ i < gs.length, sizeAt (skipRoundRobin targets gs cur pool).1 i ≤ targets.getD i 0) := by
  induction pool with
  | nil =>
    intro gs cur _ hle
    exact ⟨Nat.le_refl 0, by simp [skipRoundRobin], hle⟩
  | cons f rest ih =>
    intro gs cur hcur hle
    rw [skipRoundRobin]
    cases hfind : findSlot targets gs gs.length cur with
    | none => exact ⟨Nat.zero_le _, by simp, hle⟩
    | some j =>
      simp only []
      obtain ⟨hj, hjlt, _⟩ := findSlot_some_spec targets gs gs.length cur j hcur hfind
      have hpush := joinG_pushStudent_perm hjlt f
      have hlen : (pushStudent gs j f).length = gs.length := length_pushStudent gs j f
      have hle' : ∀ i < (pushStudent gs j f).length,
          sizeAt (pushStudent gs j f) i ≤ targets.getD i 0 := by
        intro i hi
        rw [hlen] at hi
        by_cases hij : j = i
        · subst hij
          rw [sizeAt_pushStudent_self hjlt]
          omega
        · rw [sizeAt_pushStudent_ne hij]
          exact hle i hi
      have hcur' : (j + 1) % gs.length < (pushStudent gs j f).length := by
        rw [hlen]
        exact Nat.mod_lt _ (Nat.lt_of_le_of_lt (Nat.zero_le _) hjlt)
      obtain ⟨ih1, ih2, ih3⟩ := ih (pushStudent gs j f) ((j + 1) % gs.length) hcur' hle'
      refine ⟨by simpa using Nat.add_le_add_right ih1 1, ?_, ?_⟩
      · rw [List.take_succ_cons]
        refine ih2.trans ?_
        refine (hpush.append_right _).trans ?_
        simp only [List.perm_iff_count, List.count_append, List.count_cons]
        intro a
        simp
        omega
      · intro i hi
        rw [hlen] at ih3
        exact ih3 i hi

theorem sizes_eq_of_full (targets : List Nat) (gs : List Group)
    (hlen : targets.length = gs.length)
    (hle : ∀ i < gs.length, sizeAt gs i ≤ targets.getD i 0)
    (hfull : allGroupsFull targets gs = true) :
    gs.map (fun g => g.students.length) = targets := by
  apply List.ext_getElem
  · rw [List.length_map, hlen]
  · intro i hi hi2
    have hilt : i < gs.length := by simpa using hi
    have h1 : (gs.map (fun g => g.students.length))[i] = sizeAt gs i := by
      rw [List.getElem_map]
      rw [sizeAt, getD_eq_getElem_of_lt hilt]
    have h2 : targets[i] = targets.getD i 0 := by
      rw [List.getD_eq_getElem?_getD, List.getElem?_eq_getElem hi2]
      rfl
    rw [h1, h2]
    exact Nat.le_antisymm (hle i hilt) (allFull_size_ge hfull hilt)

theorem skipRR_places_all (targets : List Nat) (pool : List Student) :
    ∀ (gs : List Group) (cur : Nat), cur < gs.length →
      targets.length = gs.length →
      (∀ i < gs.length, sizeAt gs i ≤ targets.getD i 0) →
      (gs.map (fun g => g.students.length)).sum + pool.length ≤ targets.sum →
      (skipRoundRobin targets gs cur pool).2 = pool.length := by
  induction pool with
  | nil => intro gs cur _ _ _ _; rfl
  | cons f rest ih =>
    intro gs cur hcur hlen hle hsum
    rw [skipRoundRobin]
    cases hfind : findSlot targets gs gs.length cur with
    | none =>
      exfalso
      have hfull := findSlot_none_allFull hcur hfind
      have := sizes_eq_of_full targets gs hlen hle hfull
      rw [this] at hsum
      simp at hsum
    | some j =>
      simp only []
      obtain ⟨hj, hjlt, _⟩ := findSlot_some_spec targets gs gs.length cur j hcur hfind
      have hlenp : (pushStudent gs j f).length = gs.length := length_pushStudent gs j f
      have hle' : ∀ i < (pushStudent gs j f).length,
          sizeAt (pushStudent gs j f) i ≤ targets.getD i 0 := by
        intro i hi
        rw [hlenp] at hi
        by_cases hij : j = i
        · subst hij
          rw [sizeAt_pushStudent_self hjlt]
          omega
        · rw [sizeAt_pushStudent_ne hij]
          exact hle i hi
      have hsump : ((pushStudent gs j f).map (fun g => g.students.length)).sum =
          (gs.map (fun g => g.students.length)).sum + 1 := by
        rw [sumSizes_eq_joinG_length, sumSizes_eq_joinG_length]
        rw [(joinG_pushStudent_perm hjlt f).length_eq]
        simp
      have hcur' : (j + 1) % gs.length < (pushStudent gs j f).length := by
        rw [hlenp]
        exact Nat.mod_lt _ (Nat.lt_of_le_of_lt (Nat.zero_le _) hjlt)
      have := ih (pushStudent gs j f) ((j + 1) % gs.length) hcur'
        (by rw [hlenp]; exact hlen) hle'
        (by rw [hsump]; simp only [List.length_cons] at hsum; omega)
      simp only [this, List.length_cons]

theorem getD_of_drop_cons :
    ∀ (l : List Student) (n : Nat) (f : Student) (t : List Student),
      l.drop n = f :: t → l.getD n default = f := by
  intro l
  induction l with
  | nil => intro n f t h; simp at h
  | cons a l' ih =>
    intro n f t h
    match n with
    | 0 =>
      simp only [List.drop_zero] at h
      cases h
      rfl
    | m + 1 =>
      simp only [List.drop_succ_cons] at h
      simpa using ih m f t h

/-- Skipping full groups one by one: the `while` loop only advances the
pointer over a run of full groups as long as not every group is full. -/
theorem femaleLoop_skip (targets : List Nat) (females : List Student) :
    ∀ (d fuel fi cur : Nat) (gs : List Group), cur < gs.length →
      fi < females.length →
      allGroupsFull targets gs = false →
      (∀ t < d, ¬ sizeAt gs ((cur + t) % gs.length) <
        targets.getD ((cur + t) % gs.length) 0) →
      d ≤ fuel →
      femaleLoop targets females fuel gs fi cur =
        femaleLoop targets females (fuel - d) gs fi ((cur + d) % gs.length) := by
  intro d
  induction d with
  | zero =>
    intro fuel fi cur gs hcur _ _ _ _
    rw [Nat.sub_zero, Nat.add_zero, Nat.mod_eq_of_lt hcur]
  | succ m ih =>
    intro fuel fi cur gs hcur hfi hnf hskip hd
    have hgc : 0 < gs.length := Nat.lt_of_le_of_lt (Nat.zero_le _) hcur
    obtain ⟨fl, rfl⟩ : ∃ fl, fuel = fl + 1 := ⟨fuel - 1, by omega⟩
    have hslot0 : ¬ sizeAt gs cur < targets.getD cur 0 := by
      have := hskip 0 (by omega)
      rwa [Nat.add_zero, Nat.mod_eq_of_lt hcur] at this
    rw [femaleLoop, if_pos hfi]
    simp only [if_neg hslot0]
    rw [if_neg (show ¬ allGroupsFull targets gs = true by simp [hnf])]
    have hrec := ih fl fi ((cur + 1) % gs.length) gs (Nat.mod_lt _ hgc) hfi hnf
      (by
        intro t ht
        have hsk := hskip (t + 1) (by omega)
        rw [Nat.mod_add_mod]
        have harith : cur + 1 + t = cur + (t + 1) := by omega
        rw [harith]
        exact hsk)
      (by omega)
    rw [hrec, Nat.mod_add_mod]
    have h1 : cur + 1 + m = cur + (m + 1) := by omega
    have h2 : fl - m = fl + 1 - (m + 1) := by omega
    rw [h1, h2]

/-- The female `while` loop, run with enough fuel, is round-robin with
skipping: the loop never consumes more than `pool · groupCount` steps before
either exhausting the pool or breaking with every group full. -/
theorem femaleLoop_eq_skipRR (targets : List Nat) (females : List Student) :
    ∀ (rest : List Student) (fi : Nat), females.drop fi = rest →
      ∀ (fuel cur : Nat) (gs : List Group), cur < gs.length →
        rest.length * gs.length + 1 ≤ fuel →
        femaleLoop targets females fuel gs fi cur =
          ((skipRoundRobin targets gs cur rest).1,
            fi + (skipRoundRobin targets gs cur rest).2) := by
  intro rest
  induction rest with
  | nil =>
    intro fi hdrop fuel cur gs hcur hfuel
    have hfi : ¬ fi < females.length := by
      have := List.drop_eq_nil_iff.mp hdrop
      omega
    obtain ⟨fl, rfl⟩ : ∃ fl, fuel = fl + 1 := ⟨fuel - 1, by omega⟩
    rw [femaleLoop, if_neg hfi]
    simp [skipRoundRobin]
  | cons f rest' ih =>
    intro fi hdrop fuel cur gs hcur hfuel
    have hgc : 0 < gs.length := Nat.lt_of_le_of_lt (Nat.zero_le _) hcur
    have hfi : fi < females.length := by
      by_contra hge
      rw [List.drop_eq_nil_of_le (by omega)] at hdrop
      cases hdrop
    have hgetD : females.getD fi default = f := getD_of_drop_cons females fi f rest' hdrop
    have hfuel1 : (rest'.length + 1) * gs.length + 1 ≤ fuel := by
      simpa using hfuel
    rw [skipRoundRobin]
    cases hfind : findSlot targets gs gs.length cur with
    | none =>
      have hfull := findSlot_none_allFull hcur hfind
      obtain ⟨fl, rfl⟩ : ∃ fl, fuel = fl + 1 := ⟨fuel - 1, by omega⟩
      rw [femaleLoop, if_pos hfi]
      have hslot : ¬ sizeAt gs cur < targets.getD cur 0 := by
        have := allFull_size_ge hfull hcur
        omega
      simp only [if_neg hslot]
      rw [if_pos hfull]
      simp
    | some j =>
      simp only []
      obtain ⟨hj, hjlt, d, hd, hjeq, hskip⟩ :=
        findSlot_some_spec targets gs gs.length cur j hcur hfind
      have hnf : allGroupsFull targets gs = false := by
        cases hnf : allGroupsFull targets gs with
        | false => rfl
        | true =>
          have := allFull_size_ge hnf hjlt
          omega
      have hdle : d ≤ fuel := by
        have hmul : gs.length ≤ (rest'.length + 1) * gs.length :=
          Nat.le_mul_of_pos_left gs.length (by omega)
        omega
      rw [femaleLoop_skip targets females d fuel fi cur gs hcur hfi hnf hskip hdle]
      rw [← hjeq]
      obtain ⟨fl, hfl⟩ : ∃ fl, fuel - d = fl + 1 := by
        refine ⟨fuel - d - 1, ?_⟩
        have hmul : gs.length ≤ (rest'.length + 1) * gs.length :=
          Nat.le_mul_of_pos_left gs.length (by omega)
        omega
      rw [hfl, femaleLoop, if_pos hfi]
      rw [if_pos hj]
      simp only [hgetD]
      have hlenp : (pushStudent gs j f).length = gs.length := length_pushStudent gs j f
      by_cases hfull2 : allGroupsFull targets (pushStudent gs j f) = true
      case pos =>
        rw [if_pos hfull2]
        have hskipall := skipRR_allFull
          (show (j + 1) % gs.length < (pushStudent gs j f).length by
            rw [hlenp]; exact Nat.mod_lt _ hgc) hfull2 rest'
        rw [hskipall]
      case neg =>
        rw [if_neg hfull2]
        have hdrop' : females.drop (fi + 1) = rest' := by
          have hdd : females.drop (fi + 1) = (females.drop fi).drop 1 := by
            rw [List.drop_drop]
          rw [hdd, hdrop]
          rfl
        have hcur' : (j + 1) % gs.length < (pushStudent gs j f).length := by
          rw [hlenp]
          exact Nat.mod_lt _ hgc
        have hfuel' : rest'.length * (pushStudent gs j f).length + 1 ≤ fl := by
          rw [hlenp]
          have h2 : d < gs.length := hd
          have h3 : (rest'.length + 1) * gs.length = rest'.length * gs.length + gs.length := by
            rw [Nat.succ_mul]
          omega
        have hrec := ih (fi + 1) hdrop' fl ((j + 1) % gs.length) (pushStudent gs j f)
          hcur' hfuel'
        rw [hrec]
        congr 1
        omega

/-! ## Equalizer lemmas: assembling the phases -/

theorem filter_gender_perm (l : List Student) :
    l.filter (fun s => s.gender == Gender.male) ++
      l.filter (fun s => s.gender == Gender.female) ~ l := by
  induction l with
  | nil => simp
  | cons s rest ih =>
    cases hg : s.gender with
    | male =>
      simp only [List.filter_cons, hg]
      simpa using ih.cons s
    | female =>
      simp only [List.filter_cons, hg]
      refine List.Perm.trans ?_ (ih.cons s)
      simpa using List.perm_middle

theorem filter_gender_length (l : List Student) :
    (l.filter (fun s => s.gender == Gender.male)).length +
      (l.filter (fun s => s.gender == Gender.female)).length = l.length := by
  have := (filter_gender_perm l).length_eq
  simpa using this

theorem roundRobinPump_joinG (pool : List Student) :
    ∀ (gs : List Group) (cur : Nat), cur < gs.length →
      joinG (roundRobinPump gs cur pool).1 ~ joinG gs ++ pool := by
  induction pool with
  | nil => intro gs cur _; simp [roundRobinPump]
  | cons s rest ih =>
    intro gs cur hcur
    have hpos : 0 < gs.length := Nat.lt_of_le_of_lt (Nat.zero_le _) hcur
    rw [roundRobinPump]
    have hlen : (pushStudent gs cur s).length = gs.length := length_pushStudent gs cur s
    have h1 := ih (pushStudent gs cur s) ((cur + 1) % gs.length)
      (by rw [hlen]; exact Nat.mod_lt _ hpos)
    refine h1.trans ?_
    refine ((joinG_pushStudent_perm hcur s).append_right rest).trans ?_
    refine List.Perm.of_eq ?_
    simp

theorem joinG_empty {gs : List Group}
    (hone : ∀ g ∈ gs, g.students = ([] : List Student)) : joinG gs = [] := by
  induction gs with
  | nil => rfl
  | cons g rest ih =>
    rw [joinG_cons, hone g (List.mem_cons_self g rest),
      ih (fun g hg => hone g (List.mem_cons_of_mem _ hg))]
    rfl

theorem getD_students_empty {gs : List Group}
    (hone : ∀ g ∈ gs, g.students = ([] : List Student)) (i : Nat) :
    ((gs.getD i default).students) = [] := by
  by_cases h : i < gs.length
  · rw [getD_eq_getElem_of_lt h]
    exact hone _ (List.getElem_mem h)
  · rw [List.getD_eq_getElem?_getD, List.getElem?_eq_none (by omega)]
    rfl

theorem sizes_getD (gs : List Group) (i : Nat) (h : i < gs.length) :
    (gs.map (fun g => g.students.length)).getD i 0 = sizeAt gs i := by
  rw [sizeAt, getD_eq_getElem_of_lt h]
  rw [List.getD_eq_getElem?_getD, List.getElem?_eq_getElem (by simpa using h)]
  simp

theorem range_map_getD (gc : Nat) (f : Nat → Nat) (i : Nat) (h : i < gc) :
    ((List.range gc).map f).getD i 0 = f i := by
  rw [List.getD_eq_getElem?_getD, List.getElem?_eq_getElem (by simpa using h)]
  simp

theorem sum_pointwise_le : ∀ (a b : List Nat), a.length = b.length →
    (∀ i < a.length, a.getD i 0 ≤ b.getD i 0) → a.sum ≤ b.sum := by
  intro a
  induction a with
  | nil => intro b _ _; simp
  | cons x xs ih =>
    intro b hlen hle
    cases b with
    | nil => simp at hlen
    | cons y ys =>
      simp only [List.sum_cons]
      have h0 := hle 0 (by simp)
      simp only [List.getD_cons_zero] at h0
      have hrest := ih ys (by simpa using hlen) (fun i hi => by
        have := hle (i + 1) (by simpa using Nat.succ_lt_succ hi)
        simpa [List.getD_cons_succ] using this)
      omega

theorem sum_le_ext : ∀ (a b : List Nat), a.length = b.length →
    (∀ i < a.length, a.getD i 0 ≤ b.getD i 0) → b.sum ≤ a.sum → a = b := by
  intro a
  induction a with
  | nil =>
    intro b hlen _ _
    cases b with
    | nil => rfl
    | cons y ys => simp at hlen
  | cons x xs ih =>
    intro b hlen hle hsum
    cases b with
    | nil => simp at hlen
    | cons y ys =>
      have h0 := hle 0 (by simp)
      simp only [List.getD_cons_zero] at h0
      have hrest : ∀ i < xs.length, xs.getD i 0 ≤ ys.getD i 0 := fun i hi => by
        have := hle (i + 1) (by simpa using Nat.succ_lt_succ hi)
        simpa [List.getD_cons_succ] using this
      have hxs := sum_pointwise_le xs ys (by simpa using hlen) hrest
      simp only [List.sum_cons] at hsum
      have heq : xs = ys := ih ys (by simpa using hlen) hrest (by omega)
      have hxy : x = y := by omega
      rw [hxy, heq]

/-- The contents of group `i` after the two male rounds of the equalizer:
the one-each round contributes the `i`-th pool member when the pool covers
every group, the round-robin round contributes its slot-`i` selection. -/
theorem malePhase_students (males : List Student) (cleared : List Group) (gc : Nat)
    (hlen : cleared.length = gc) (hgc : 0 < gc)
    (hone : ∀ g ∈ cleared, g.students = ([] : List Student))
    (s1 : List Group × Nat)
    (hs1 : s1 = if males.length ≥ gc then
        ((List.range gc).foldl (fun gs k => pushStudent gs k (males.getD k default)) cleared, gc)
      else (cleared, 0))
    (i : Nat) (hi : i < gc) :
    (((roundRobinPump s1.1 0 (males.drop s1.2)).1.getD i default).students) =
      (if males.length ≥ gc then [males.getD i default] else []) ++
        selectSlot gc 0 i (males.drop s1.2) := by
  subst hs1
  by_cases hM : males.length ≥ gc
  · rw [if_pos hM]
    dsimp only
    have hfold : ((List.range gc).foldl
        (fun gs k => pushStudent gs k (males.getD k default)) cleared).length = gc := by
      rw [foldl_pushStudent_length, hlen]
    rw [roundRobinPump_students _ _ 0 i (by rw [hfold]; exact hgc)]
    rw [hfold]
    rw [oneEach_getD cleared males gc (by omega) i]
    rw [getD_students_empty hone i, if_pos hi]
    simp [hM]
  · rw [if_neg hM]
    dsimp only
    rw [roundRobinPump_students _ _ 0 i (by rw [hlen]; exact hgc)]
    rw [hlen, getD_students_empty hone i]
    rw [if_neg hM]

theorem malePhase_length (males : List Student) (cleared : List Group) (gc : Nat)
    (hlen : cleared.length = gc)
    (s1 : List Group × Nat)
    (hs1 : s1 = if males.length ≥ gc then
        ((List.range gc).foldl (fun gs k => pushStudent gs k (males.getD k default)) cleared, gc)
      else (cleared, 0)) :
    (roundRobinPump s1.1 0 (males.drop s1.2)).1.length = gc := by
  subst hs1
  by_cases hM : males.length ≥ gc
  · rw [if_pos hM]
    dsimp only
    rw [roundRobinPump_length, foldl_pushStudent_length, hlen]
  · rw [if_neg hM]
    dsimp only
    rw [roundRobinPump_length, hlen]

theorem malePhase_sizeAt (males : List Student) (cleared : List Group) (gc : Nat)
    (hlen : cleared.length = gc) (hgc : 0 < gc)
    (hone : ∀ g ∈ cleared, g.students = ([] : List Student))
    (s1 : List Group × Nat)
    (hs1 : s1 = if males.length ≥ gc then
        ((List.range gc).foldl (fun gs k => pushStudent gs k (males.getD k default)) cleared, gc)
      else (cleared, 0))
    (i : Nat) (hi : i < gc) :
    sizeAt (roundRobinPump s1.1 0 (males.drop s1.2)).1 i = rrCount males.length gc i := by
  rw [sizeAt, malePhase_students males cleared gc hlen hgc hone s1 hs1 i hi]
  rw [List.length_append, selectSlot_length _ gc 0 i hgc]
  have hsel : ((List.range (males.drop s1.2).length).filter
      (fun p => (0 + p) % gc = i)).length = rrCount (males.drop s1.2).length gc i := by
    rw [rrCount]
    congr 1
    apply List.filter_congr
    intro p _
    rw [Nat.zero_add]
  rw [hsel, List.length_drop]
  have h2 : s1.2 = if males.length ≥ gc then gc else 0 := by
    rw [hs1]
    by_cases hM : males.length ≥ gc
    · rw [if_pos hM, if_pos hM]
    · rw [if_neg hM, if_neg hM]
  rw [h2]
  by_cases hM : males.length ≥ gc
  · rw [if_pos hM, if_pos hM]
    have hM' : males.length = gc + (males.length - gc) := by omega
    conv_rhs => rw [hM']
    rw [rrCount_add_gc _ gc i hi]
    simp only [List.length_singleton]
  · rw [if_neg hM, if_neg hM]
    simp

theorem malePhase_joinG (males : List Student) (cleared : List Group) (gc : Nat)
    (hlen : cleared.length = gc) (hgc : 0 < gc)
    (hone : ∀ g ∈ cleared, g.students = ([] : List Student))
    (s1 : List Group × Nat)
    (hs1 : s1 = if males.length ≥ gc then
        ((List.range gc).foldl (fun gs k => pushStudent gs k (males.getD k default)) cleared, gc)
      else (cleared, 0)) :
    joinG (roundRobinPump s1.1 0 (males.drop s1.2)).1 ~ males := by
  subst hs1
  by_cases hM : males.length ≥ gc
  · rw [if_pos hM]
    dsimp only
    have hfold : ((List.range gc).foldl
        (fun gs k => pushStudent gs k (males.getD k default)) cleared).length = gc := by
      rw [foldl_pushStudent_length, hlen]
    refine (roundRobinPump_joinG _ _ 0 (by rw [hfold]; exact hgc)).trans ?_
    have hjf := foldl_pushStudent_joinG (List.range gc) (fun k => males.getD k default) cleared
      (fun k hk => by rw [hlen]; exact List.mem_range.mp hk)
    rw [joinG_empty hone] at hjf
    rw [map_getD_range_take males gc (by omega)] at hjf
    refine (hjf.append_right (males.drop gc)).trans ?_
    refine List.Perm.of_eq ?_
    simp
  · rw [if_neg hM]
    dsimp only
    refine (roundRobinPump_joinG _ _ 0 (by rw [hlen]; exact hgc)).trans ?_
    rw [joinG_empty hone]
    simp

/-- The equalizer pipeline after the pools are fixed: the female `while`
loop agrees with skipping round-robin, places the whole female pool, and the
final state has exactly the target sizes and carries exactly the two pools. -/
theorem equalizer_main (males females : List Student) (cleared : List Group)
    (gc T : Nat) (hlen : cleared.length = gc) (hgc : 0 < gc)
    (hone : ∀ g ∈ cleared, g.students = ([] : List Student))
    (hT : males.length + females.length = T)
    (s1 : List Group × Nat)
    (hs1 : s1 = if males.length ≥ gc then
        ((List.range gc).foldl (fun gs k => pushStudent gs k (males.getD k default)) cleared, gc)
      else (cleared, 0))
    (targets : List Nat)
    (htg : targets = (List.range gc).map (fun j => T / gc + if j < T % gc then 1 else 0))
    (s2 : List Group × Nat)
    (hs2 : s2 = roundRobinPump s1.1 0 (males.drop s1.2))
    (s3 : List Group × Nat)
    (hs3 : s3 = skipRoundRobin targets s2.1 0 females) :
    femaleLoop targets females ((females.length + 1) * gc + 1) s2.1 0 0 = (s3.1, s3.2) ∧
    s3.2 = females.length ∧
    s3.1.length = gc ∧
    s3.1.map (fun g => g.students.length) = targets ∧
    joinG s3.1 ~ males ++ females := by
  have hs2len : s2.1.length = gc := by
    rw [hs2]; exact malePhase_length males cleared gc hlen s1 hs1
  have hsize : ∀ i < gc, sizeAt s2.1 i = rrCount males.length gc i := by
    intro i hi
    rw [hs2]; exact malePhase_sizeAt males cleared gc hlen hgc hone s1 hs1 i hi
  have hjoin2 : joinG s2.1 ~ males := by
    rw [hs2]; exact malePhase_joinG males cleared gc hlen hgc hone s1 hs1
  have htlen : targets.length = gc := by rw [htg]; simp
  have htD : ∀ i < gc, targets.getD i 0 = rrCount T gc i := by
    intro i hi
    rw [htg, range_map_getD gc _ i hi, rrCount_closed T gc i hgc hi]
  have hMle : males.length ≤ T := by omega
  have hle : ∀ i < s2.1.length, sizeAt s2.1 i ≤ targets.getD i 0 := by
    intro i hi
    rw [hs2len] at hi
    rw [hsize i hi, htD i hi]
    exact rrCount_mono _ _ _ _ hMle
  have hsum2 : (s2.1.map (fun g => g.students.length)).sum = males.length := by
    rw [sumSizes_eq_joinG_length, hjoin2.length_eq]
  have htsum : targets.sum = T := by rw [htg]; exact targets_sum gc T hgc
  have hcur0 : 0 < s2.1.length := by rw [hs2len]; exact hgc
  have hE2 : s3.2 = females.length := by
    rw [hs3]
    refine skipRR_places_all targets females s2.1 0 hcur0 (by rw [htlen, hs2len]) hle ?_
    rw [hsum2, htsum]
    omega
  have hE1 : femaleLoop targets females ((females.length + 1) * gc + 1) s2.1 0 0 =
      (s3.1, s3.2) := by
    have heq := femaleLoop_eq_skipRR targets females females 0 (by rw [List.drop_zero])
      ((females.length + 1) * gc + 1) 0 s2.1 hcur0
      (by
        rw [hs2len]
        have h : (females.length + 1) * gc = females.length * gc + gc :=
          Nat.succ_mul females.length gc
        omega)
    rw [heq, hs3]
    simp
  have hE5 : s3.1.length = gc := by rw [hs3, skipRR_length, hs2len]
  obtain ⟨hcnt, hperm, hle3⟩ := skipRR_spec targets females s2.1 0 hcur0 hle
  have hE4 : joinG s3.1 ~ males ++ females := by
    rw [hs3]
    refine hperm.trans ?_
    have hc : (skipRoundRobin targets s2.1 0 females).2 = females.length := by
      rw [← hs3]; exact hE2
    rw [hc, List.take_length]
    exact hjoin2.append_right females
  have hE3 : s3.1.map (fun g => g.students.length) = targets := by
    refine sum_le_ext _ _ ?_ ?_ ?_
    · rw [List.length_map, hE5, htlen]
    · intro i hi
      rw [List.length_map, hE5] at hi
      rw [sizes_getD _ i (by rw [hE5]; exact hi)]
      rw [hs3]
      exact hle3 i (by rw [hs2len]; exact hi)
    · rw [htsum, sumSizes_eq_joinG_length, hE4.length_eq, List.length_append]
      omega
  exact ⟨hE1, hE2, hE5, hE3, hE4⟩

theorem joinG_map_sort_perm (gs : List Group) :
    joinG (gs.map (fun g =>
      { g with students := g.students.sortJs (fun a b => decide (a.id ≤ b.id)) })) ~
      joinG gs := by
  induction gs with
  | nil => simp [joinG]
  | cons g rest ih =>
    simp only [List.map_cons, joinG_cons]
    exact (sortJs_perm _ g.students).append ih

/-- With a lawful random source and at least one group, the equalizer of the
source coincides with its male-pool-first description: the top-up branch of
the final check is dead code because the skipping round-robin provably
places every female. -/
theorem forceEqual_eq_maleFirst (groups : List Group) (roster : List Student) (rnd : Rand)
    (hgc : 0 < groups.length) (hlaw : rnd.Lawful) :
    forceEqualDistribution groups roster rnd = forceEqualMaleFirstDescr groups roster rnd := by
  have hT : (rnd.forceMaleShuffle ((joinG groups ++ roster.filter
        (fun s => !((joinG groups).any (fun a => a.id == s.id)))).filter
        (fun s => s.gender == Gender.male))).length +
      (rnd.forceFemaleShuffle ((joinG groups ++ roster.filter
        (fun s => !((joinG groups).any (fun a => a.id == s.id)))).filter
        (fun s => s.gender == Gender.female))).length =
      (joinG groups ++ roster.filter
        (fun s => !((joinG groups).any (fun a => a.id == s.id)))).length := by
    rw [(hlaw.forceM _).length_eq, (hlaw.forceF _).length_eq]
    exact filter_gender_length _
  obtain ⟨hE1, hE2, hE5, hE3, hE4⟩ := equalizer_main
    (rnd.forceMaleShuffle ((joinG groups ++ roster.filter
      (fun s => !((joinG groups).any (fun a => a.id == s.id)))).filter
      (fun s => s.gender == Gender.male)))
    (rnd.forceFemaleShuffle ((joinG groups ++ roster.filter
      (fun s => !((joinG groups).any (fun a => a.id == s.id)))).filter
      (fun s => s.gender == Gender.female)))
    (groups.map (fun g => { g with students := [] })) groups.length
    (joinG groups ++ roster.filter
      (fun s => !((joinG groups).any (fun a => a.id == s.id)))).length
    (by simp) hgc (by simp) hT _ rfl _ rfl _ rfl _ rfl
  simp only [forceEqualDistribution, forceEqualMaleFirstDescr]
  rw [hE1]
  dsimp only
  rw [hE2]
  rw [if_neg (by omega)]

theorem maleFirst_length (groups : List Group) (roster : List Student) (rnd : Rand)
    (hgc : 0 < groups.length) (hlaw : rnd.Lawful) :
    (forceEqualMaleFirstDescr groups roster rnd).length = groups.length := by
  have hT : (rnd.forceMaleShuffle ((joinG groups ++ roster.filter
        (fun s => !((joinG groups).any (fun a => a.id == s.id)))).filter
        (fun s => s.gender == Gender.male))).length +
      (rnd.forceFemaleShuffle ((joinG groups ++ roster.filter
        (fun s => !((joinG groups).any (fun a => a.id == s.id)))).filter
        (fun s => s.gender == Gender.female))).length =
      (joinG groups ++ roster.filter
        (fun s => !((joinG groups).any (fun a => a.id == s.id)))).length := by
    rw [(hlaw.forceM _).length_eq, (hlaw.forceF _).length_eq]
    exact filter_gender_length _
  obtain ⟨hE1, hE2, hE5, hE3, hE4⟩ := equalizer_main
    (rnd.forceMaleShuffle ((joinG groups ++ roster.filter
      (fun s => !((joinG groups).any (fun a => a.id == s.id)))).filter
      (fun s => s.gender == Gender.male)))
    (rnd.forceFemaleShuffle ((joinG groups ++ roster.filter
      (fun s => !((joinG groups).any (fun a => a.id == s.id)))).filter
      (fun s => s.gender == Gender.female)))
    (groups.map (fun g => { g with students := [] })) groups.length
    (joinG groups ++ roster.filter
      (fun s => !((joinG groups).any (fun a => a.id == s.id)))).length
    (by simp) hgc (by simp) hT _ rfl _ rfl _ rfl _ rfl
  simp only [forceEqualMaleFirstDescr]
  rw [List.length_map]
  exact hE5

theorem maleFirst_sizes (groups : List Group) (roster : List Student) (rnd : Rand)
    (hgc : 0 < groups.length) (hlaw : rnd.Lawful) :
    (forceEqualMaleFirstDescr groups roster rnd).map (fun g => g.students.length) =
      (List.range groups.length).map (fun j =>
        (distributePool groups roster).length / groups.length +
          if j < (distributePool groups roster).length % groups.length then 1 else 0) := by
  have hT : (rnd.forceMaleShuffle ((joinG groups ++ roster.filter
        (fun s => !((joinG groups).any (fun a => a.id == s.id)))).filter
        (fun s => s.gender == Gender.male))).length +
      (rnd.forceFemaleShuffle ((joinG groups ++ roster.filter
        (fun s => !((joinG groups).any (fun a => a.id == s.id)))).filter
        (fun s => s.gender == Gender.female))).length =
      (joinG groups ++ roster.filter
        (fun s => !((joinG groups).any (fun a => a.id == s.id)))).length := by
    rw [(hlaw.forceM _).length_eq, (hlaw.forceF _).length_eq]
    exact filter_gender_length _
  obtain ⟨hE1, hE2, hE5, hE3, hE4⟩ := equalizer_main
    (rnd.forceMaleShuffle ((joinG groups ++ roster.filter
      (fun s => !((joinG groups).any (fun a => a.id == s.id)))).filter
      (fun s => s.gender == Gender.male)))
    (rnd.forceFemaleShuffle ((joinG groups ++ roster.filter
      (fun s => !((joinG groups).any (fun a => a.id == s.id)))).filter
      (fun s => s.gender == Gender.female)))
    (groups.map (fun g => { g with students := [] })) groups.length
    (joinG groups ++ roster.filter
      (fun s => !((joinG groups).any (fun a => a.id == s.id)))).length
    (by simp) hgc (by simp) hT _ rfl _ rfl _ rfl _ rfl
  simp only [forceEqualMaleFirstDescr]
  rw [List.map_map]
  rw [List.map_congr_left (fun g _ => by
    show (g.students.sortJs (fun a b => decide (a.id ≤ b.id))).length = g.students.length
    exact length_sortJs _ _)]
  exact hE3

theorem maleFirst_join (groups : List Group) (roster : List Student) (rnd : Rand)
    (hgc : 0 < groups.length) (hlaw : rnd.Lawful) :
    joinG (forceEqualMaleFirstDescr groups roster rnd) ~ distributePool groups roster := by
  have hT : (rnd.forceMaleShuffle ((joinG groups ++ roster.filter
        (fun s => !((joinG groups).any (fun a => a.id == s.id)))).filter
        (fun s => s.gender == Gender.male))).length +
      (rnd.forceFemaleShuffle ((joinG groups ++ roster.filter
        (fun s => !((joinG groups).any (fun a => a.id == s.id)))).filter
        (fun s => s.gender == Gender.female))).length =
      (joinG groups ++ roster.filter
        (fun s => !((joinG groups).any (fun a => a.id == s.id)))).length := by
    rw [(hlaw.forceM _).length_eq, (hlaw.forceF _).length_eq]
    exact filter_gender_length _
  obtain ⟨hE1, hE2, hE5, hE3, hE4⟩ := equalizer_main
    (rnd.forceMaleShuffle ((joinG groups ++ roster.filter
      (fun s => !((joinG groups).any (fun a => a.id == s.id)))).filter
      (fun s => s.gender == Gender.male)))
    (rnd.forceFemaleShuffle ((joinG groups ++ roster.filter
      (fun s => !((joinG groups).any (fun a => a.id == s.id)))).filter
      (fun s => s.gender == Gender.female)))
    (groups.map (fun g => { g with students := [] })) groups.length
    (joinG groups ++ roster.filter
      (fun s => !((joinG groups).any (fun a => a.id == s.id)))).length
    (by simp) hgc (by simp) hT _ rfl _ rfl _ rfl _ rfl
  simp only [forceEqualMaleFirstDescr]
  refine (joinG_map_sort_perm _).trans ?_
  refine hE4.trans ?_
  refine ((hlaw.forceM _).append (hlaw.forceF _)).trans ?_
  exact filter_gender_perm _

theorem distributePool_perm {groups : List Group} {roster : List Student}
    (hroster : (roster.map Student.id).Nodup)
    (hjoin : ((joinG groups).map Student.id).Nodup)
    (hmem : ∀ s ∈ joinG groups, s ∈ roster) :
    distributePool groups roster ~ roster := by
  have hrosterN : roster.Nodup := hroster.of_map
  have hA : (joinG groups).Nodup := hjoin.of_map
  have hB : (roster.filter
      (fun s => !((joinG groups).any (fun a => a.id == s.id)))).Nodup :=
    hrosterN.filter _
  have hdisj : ∀ a ∈ joinG groups,
      a ∉ roster.filter (fun s => !((joinG groups).any (fun a => a.id == s.id))) := by
    intro a ha hb
    have hany : (joinG groups).any (fun x => x.id == a.id) = true :=
      List.any_eq_true.mpr ⟨a, ha, beq_self_eq_true a.id⟩
    have hcond := List.of_mem_filter hb
    rw [hany] at hcond
    simp at hcond
  have hnodup : (distributePool groups roster).Nodup := by
    rw [distributePool]
    exact List.Nodup.append hA hB (fun a ha hb => hdisj a ha hb)
  rw [List.perm_ext_iff_of_nodup hnodup hrosterN]
  intro x
  rw [distributePool, List.mem_append]
  constructor
  · rintro (hx | hx)
    · exact hmem x hx
    · exact List.mem_of_mem_filter hx
  · intro hx
    cases hany : (joinG groups).any (fun a => a.id == x.id) with
    | true =>
      obtain ⟨a, ha, hid⟩ := List.any_eq_true.mp hany
      rw [beq_iff_eq] at hid
      have : a = x := mem_id_inj hroster (hmem a ha) hx hid
      exact Or.inl (this ▸ ha)
    | false =>
      refine Or.inr (List.mem_filter.mpr ⟨hx, ?_⟩)
      rw [hany]
      rfl

/-! ## Chain lemmas: membership and the `studentGroupMap` model -/

theorem mem_joinG {gs : List Group} {s : Student} :
    s ∈ joinG gs ↔ ∃ i, i < gs.length ∧ s ∈ (gs.getD i default).students := by
  induction gs with
  | nil => simp [joinG]
  | cons g rest ih =>
    rw [joinG_cons, List.mem_append, ih]
    constructor
    · rintro (hs | ⟨i, hi, hs⟩)
      · exact ⟨0, by simp, by simpa using hs⟩
      · exact ⟨i + 1, by simpa using hi, by simpa using hs⟩
    · rintro ⟨i, hi, hs⟩
      match i with
      | 0 => exact Or.inl (by simpa using hs)
      | i + 1 => exact Or.inr ⟨i, by simpa using hi, by simpa using hs⟩

theorem mem_joinG_id {gs : List Group} {id : Int} :
    id ∈ (joinG gs).map Student.id ↔ ∃ s ∈ joinG gs, s.id = id := by
  simp [List.mem_map]

theorem dgFold_spec (gs : List Group) (id : Int) :
    ∀ (l : List Nat) (acc : Option Nat),
      (l.foldl (fun acc i =>
          if (gs.getD i default).students.any (fun s => s.id == id) then some i else acc)
        acc = acc ∧
        ∀ i ∈ l, ¬ ((gs.getD i default).students.any (fun s => s.id == id) = true)) ∨
      (∃ j ∈ l, l.foldl (fun acc i =>
          if (gs.getD i default).students.any (fun s => s.id == id) then some i else acc)
        acc = some j ∧ (gs.getD j default).students.any (fun s => s.id == id) = true) := by
  intro l
  induction l with
  | nil => intro acc; exact Or.inl ⟨rfl, by simp⟩
  | cons x xs ih =>
    intro acc
    rw [List.foldl_cons]
    by_cases hx : (gs.getD x default).students.any (fun s => s.id == id) = true
    · rw [if_pos hx]
      rcases ih (some x) with ⟨heq, hall⟩ | ⟨j, hj, heq, hjx⟩
      · exact Or.inr ⟨x, List.mem_cons_self x xs, heq, hx⟩
      · exact Or.inr ⟨j, List.mem_cons_of_mem _ hj, heq, hjx⟩
    · rw [if_neg hx]
      rcases ih acc with ⟨heq, hall⟩ | ⟨j, hj, heq, hjx⟩
      · refine Or.inl ⟨heq, ?_⟩
        intro i hi
        rcases List.mem_cons.mp hi with rfl | hi
        · exact hx
        · exact hall i hi
      · exact Or.inr ⟨j, List.mem_cons_of_mem _ hj, heq, hjx⟩

theorem lastGroupOf_some_spec {gs : List Group} {id : Int} {j : Nat}
    (h : lastGroupOf gs id = some j) :
    j < gs.length ∧ ∃ s ∈ (gs.getD j default).students, s.id = id := by
  rcases dgFold_spec gs id (List.range gs.length) none with ⟨heq, _⟩ | ⟨i, hi, heq, hix⟩
  · rw [lastGroupOf] at h
    rw [heq] at h
    cases h
  · rw [lastGroupOf] at h
    rw [heq] at h
    cases h
    obtain ⟨s, hs, hsid⟩ := List.any_eq_true.mp hix
    rw [beq_iff_eq] at hsid
    exact ⟨List.mem_range.mp hi, s, hs, hsid⟩

theorem lastGroupOf_none_iff {gs : List Group} {id : Int} :
    lastGroupOf gs id = none ↔ id ∉ (joinG gs).map Student.id := by
  constructor
  · intro h hmem
    obtain ⟨s, hs, rfl⟩ := mem_joinG_id.mp hmem
    obtain ⟨i, hi, hsi⟩ := mem_joinG.mp hs
    rcases dgFold_spec gs s.id (List.range gs.length) none with ⟨_, hall⟩ | ⟨j, _, heq, _⟩
    · exact hall i (List.mem_range.mpr hi)
        (List.any_eq_true.mpr ⟨s, hsi, beq_self_eq_true s.id⟩)
    · rw [lastGroupOf] at h
      rw [heq] at h
      cases h
  · intro hmem
    cases hl : lastGroupOf gs id with
    | none => rfl
    | some j =>
      obtain ⟨_, s, hs, hsid⟩ := lastGroupOf_some_spec hl
      exfalso
      refine hmem (mem_joinG_id.mpr ⟨s, ?_, hsid⟩)
      exact mem_joinG.mpr ⟨j, (lastGroupOf_some_spec hl).1, hs⟩

theorem lastGroupOf_isSome_iff {gs : List Group} {id : Int} :
    (lastGroupOf gs id).isSome = true ↔ id ∈ (joinG gs).map Student.id := by
  constructor
  · intro h
    cases hl : lastGroupOf gs id with
    | none => rw [hl] at h; cases h
    | some j =>
      by_contra hmem
      rw [lastGroupOf_none_iff.mpr hmem] at hl
      cases hl
  · intro hmem
    cases hl : lastGroupOf gs id with
    | none => exact absurd (lastGroupOf_none_iff.mp hl) (by simpa using hmem)
    | some j => rfl

theorem find_mem_and_id {l : List Student} {id : Int} {s : Student}
    (h : l.find? (fun t => t.id == id) = some s) : s ∈ l ∧ s.id = id := by
  refine ⟨List.mem_of_find?_eq_some h, ?_⟩
  have := List.find?_some h
  rwa [beq_iff_eq] at this

theorem push_nodup {gs : List Group} {i : Nat} {s : Student}
    (hnd : ((joinG gs).map Student.id).Nodup)
    (hs : s.id ∉ (joinG gs).map Student.id) :
    ((joinG (pushStudent gs i s)).map Student.id).Nodup := by
  refine nodup_of_subperm (subperm_map Student.id (joinG_pushStudent_subperm gs i s)) ?_
  rw [List.map_append]
  refine List.Nodup.append hnd (List.nodup_singleton _) ?_
  intro a ha hb
  simp only [List.map_cons, List.map_nil, List.mem_singleton] at hb
  subst hb
  exact hs ha

theorem push_mem {gs : List Group} {i : Nat} {s : Student} {t : Student}
    (ht : t ∈ joinG (pushStudent gs i s)) : t ∈ joinG gs ∨ t = s := by
  have := (joinG_pushStudent_subperm gs i s).subset ht
  rw [List.mem_append, List.mem_singleton] at this
  exact this

theorem push_id_sub {gs : List Group} {i : Nat} {s : Student} {x : Int}
    (hx : x ∈ (joinG (pushStudent gs i s)).map Student.id) :
    x ∈ (joinG gs).map Student.id ∨ x = s.id := by
  have := (subperm_map Student.id (joinG_pushStudent_subperm gs i s)).subset hx
  rw [List.map_append, List.mem_append] at this
  rcases this with h | h
  · exact Or.inl h
  · simp only [List.map_cons, List.map_nil, List.mem_singleton] at h
    exact Or.inr h

theorem dgStep_ok (students : List Student) (lkpGs : List Group) (rem : List Student)
    (st : List Group × List Nat × List Int) (id : Int)
    (hnd : ((joinG st.1).map Student.id).Nodup)
    (hfresh : lastGroupOf lkpGs id = none → id ∉ (joinG st.1).map Student.id)
    (hmemG : ∀ s ∈ joinG st.1, s ∈ students)
    (hmemR : ∀ s ∈ rem, s ∈ students) :
    (dgStep lkpGs rem st id).1.length = st.1.length ∧
    ((joinG (dgStep lkpGs rem st id).1).map Student.id).Nodup ∧
    (∀ s ∈ joinG (dgStep lkpGs rem st id).1, s ∈ students) ∧
    (∀ x ∈ st.2.2, x ∈ (dgStep lkpGs rem st id).2.2) ∧
    (∀ x ∈ (dgStep lkpGs rem st id).2.2, x ∈ st.2.2 ∨ x = id) ∧
    (∀ x ∈ (joinG (dgStep lkpGs rem st id).1).map Student.id,
      x ∈ (joinG st.1).map Student.id ∨ x = id) ∧
    (∀ x ∈ (joinG (dgStep lkpGs rem st id).1).map Student.id,
      x ∈ (joinG st.1).map Student.id ∨ x ∈ (dgStep lkpGs rem st id).2.2) := by
  simp only [dgStep]
  by_cases hsome : (lastGroupOf lkpGs id).isSome = true
  · rw [if_pos hsome]
    refine ⟨rfl, hnd, hmemG, ?_, ?_, fun x hx => Or.inl hx, fun x hx => Or.inl hx⟩
    · intro x hx
      exact mem_insertSet.mpr (Or.inl hx)
    · intro x hx
      exact mem_insertSet.mp hx
  · rw [if_neg hsome]
    have hnone : lastGroupOf lkpGs id = none := by
      cases hl : lastGroupOf lkpGs id with
      | none => rfl
      | some j => rw [hl] at hsome; exact absurd rfl hsome
    have hid : id ∉ (joinG st.1).map Student.id := hfresh hnone
    cases hf : rem.find? (fun s => s.id == id) with
    | none =>
      exact ⟨rfl, hnd, hmemG, fun x hx => hx, fun x hx => Or.inl hx, fun x hx => Or.inl hx,
        fun x hx => Or.inl hx⟩
    | some student =>
      obtain ⟨hsmem, hsid⟩ := find_mem_and_id hf
      have hsid' : student.id ∉ (joinG st.1).map Student.id := by rw [hsid]; exact hid
      cases hav : ((List.range st.1.length).filter
          (fun i => !(st.2.1.contains i))).sortJs
          (fun a b => decide (sizeAt st.1 a ≤ sizeAt st.1 b)) with
      | cons i rest =>
        refine ⟨length_pushStudent _ _ _, push_nodup hnd hsid', ?_, ?_, ?_, ?_, ?_⟩
        · intro s hs
          rcases push_mem hs with h | rfl
          · exact hmemG s h
          · exact hmemR s hsmem
        · intro x hx
          exact mem_insertSet.mpr (Or.inl hx)
        · intro x hx
          exact mem_insertSet.mp hx
        · intro x hx
          rcases push_id_sub hx with h | h
          · exact Or.inl h
          · exact Or.inr (h.trans hsid)
        · intro x hx
          rcases push_id_sub hx with h | h
          · exact Or.inl h
          · exact Or.inr (mem_insertSet.mpr (Or.inr (h.trans hsid)))
      | nil =>
        dsimp only
        by_cases hz : st.1.length = 0
        · rw [if_pos hz]
          exact ⟨rfl, hnd, hmemG, fun x hx => hx, fun x hx => Or.inl hx, fun x hx => Or.inl hx,
            fun x hx => Or.inl hx⟩
        · rw [if_neg hz]
          refine ⟨length_pushStudent _ _ _, push_nodup hnd hsid', ?_, ?_, ?_, ?_, ?_⟩
          · intro s hs
            rcases push_mem hs with h | rfl
            · exact hmemG s h
            · exact hmemR s hsmem
          · intro x hx
            exact mem_insertSet.mpr (Or.inl hx)
          · intro x hx
            exact mem_insertSet.mp hx
          · intro x hx
            rcases push_id_sub hx with h | h
            · exact Or.inl h
            · exact Or.inr (h.trans hsid)
          · intro x hx
            rcases push_id_sub hx with h | h
            · exact Or.inl h
            · exact Or.inr (mem_insertSet.mpr (Or.inr (h.trans hsid)))

theorem dgLastLoop_ok (students : List Student) (lkpGs : List Group) (rem : List Student)
    (hmemR : ∀ s ∈ rem, s ∈ students) :
    ∀ (pair : List Int) (gs : List Group) (used : List Nat) (proc : List Int),
      pair.Nodup →
      ((joinG gs).map Student.id).Nodup →
      (∀ id ∈ pair, lastGroupOf lkpGs id = none → id ∉ (joinG gs).map Student.id) →
      (∀ s ∈ joinG gs, s ∈ students) →
      (dgLastLoop lkpGs rem pair gs used proc).1.length = gs.length ∧
      ((joinG (dgLastLoop lkpGs rem pair gs used proc).1).map Student.id).Nodup ∧
      (∀ s ∈ joinG (dgLastLoop lkpGs rem pair gs used proc).1, s ∈ students) ∧
      (∀ x ∈ proc, x ∈ (dgLastLoop lkpGs rem pair gs used proc).2.2) ∧
      (∀ x ∈ (dgLastLoop lkpGs rem pair gs used proc).2.2, x ∈ proc ∨ x ∈ pair) ∧
      (∀ x ∈ (joinG (dgLastLoop lkpGs rem pair gs used proc).1).map Student.id,
        x ∈ (joinG gs).map Student.id ∨ x ∈ pair) ∧
      (∀ x ∈ (joinG (dgLastLoop lkpGs rem pair gs used proc).1).map Student.id,
        x ∈ (joinG gs).map Student.id ∨
          x ∈ (dgLastLoop lkpGs rem pair gs used proc).2.2) := by
  intro pair
  induction pair with
  | nil =>
    intro gs used proc _ hnd _ hmemG
    exact ⟨rfl, hnd, hmemG, fun x hx => hx, fun x hx => Or.inl hx, fun x hx => Or.inl hx,
      fun x hx => Or.inl hx⟩
  | cons id pr ih =>
    intro gs used proc hpairN hnd hfresh hmemG
    have hstep := dgStep_ok students lkpGs rem (gs, used, proc) id hnd
      (hfresh id (List.mem_cons_self id pr)) hmemG hmemR
    rcases hs : dgStep lkpGs rem (gs, used, proc) id with ⟨gs1, used1, proc1⟩
    rw [hs] at hstep
    obtain ⟨hlen1, hnd1, hmemG1, hmono1, hsub1, hids1, hids7⟩ := hstep
    have hN : pr.Nodup := (List.nodup_cons.mp hpairN).2
    have hni : id ∉ pr := (List.nodup_cons.mp hpairN).1
    have hfresh1 : ∀ id' ∈ pr, lastGroupOf lkpGs id' = none →
        id' ∉ (joinG gs1).map Student.id := by
      intro id' hid' hn' hmem'
      rcases hids1 id' hmem' with h | rfl
      · exact hfresh id' (List.mem_cons_of_mem _ hid') hn' h
      · exact hni hid'
    have hih := ih gs1 used1 proc1 hN hnd1 hfresh1 hmemG1
    have hun : dgLastLoop lkpGs rem (id :: pr) gs used proc =
        dgLastLoop lkpGs rem pr gs1 used1 proc1 := by
      simp only [dgLastLoop, List.foldl_cons, hs]
    rw [hun]
    obtain ⟨ihlen, ihnd, ihmem, ihmono, ihsub, ihids, ihids7⟩ := hih
    refine ⟨ihlen.trans hlen1, ihnd, ihmem, ?_, ?_, ?_, ?_⟩
    · intro x hx
      exact ihmono x (hmono1 x hx)
    · intro x hx
      rcases ihsub x hx with h | h
      · rcases hsub1 x h with h2 | rfl
        · exact Or.inl h2
        · exact Or.inr (List.mem_cons_self _ _)
      · exact Or.inr (List.mem_cons_of_mem _ h)
    · intro x hx
      rcases ihids x hx with h | h
      · rcases hids1 x h with h2 | rfl
        · exact Or.inl h2
        · exact Or.inr (List.mem_cons_self _ _)
      · exact Or.inr (List.mem_cons_of_mem _ h)
    · intro x hx
      rcases ihids7 x hx with h | h
      · rcases hids7 x h with h2 | h2
        · exact Or.inl h2
        · exact Or.inr (ihmono x h2)
      · exact Or.inr h

theorem foldl_insertSet_mem {α : Type} [DecidableEq α] :
    ∀ (l : List α) (acc : List α) (x : α),
      x ∈ l.foldl insertSet acc ↔ x ∈ acc ∨ x ∈ l := by
  intro l
  induction l with
  | nil => intro acc x; simp
  | cons a rest ih =>
    intro acc x
    rw [List.foldl_cons, ih, mem_insertSet]
    constructor
    · rintro ((h | rfl) | h)
      · exact Or.inl h
      · exact Or.inr (List.mem_cons_self _ _)
      · exact Or.inr (List.mem_cons_of_mem _ h)
    · rintro (h | h)
      · exact Or.inl (Or.inl h)
      · rcases List.mem_cons.mp h with rfl | h
        · exact Or.inl (Or.inr rfl)
        · exact Or.inr h

theorem getD_setGroupStudents_self {gs : List Group} {i : Nat} (h : i < gs.length)
    (l : List Student) :
    (setGroupStudents gs i l).getD i default = { gs.getD i default with students := l } := by
  simp [setGroupStudents, List.getD_eq_getElem?_getD, List.getElem?_set_self h]

theorem evictStep_ok (conflict : Nat) (st : List Group × List Student) (id : Int) :
    joinG (evictStep conflict st id).1 <+ joinG st.1 ∧
    (evictStep conflict st id).1.length = st.1.length ∧
    ∃ objs, (evictStep conflict st id).2 = st.2 ++ objs ∧
      ∀ o ∈ objs, o ∈ joinG st.1 ∧ o.id = id := by
  rw [evictStep]
  cases hf : (st.1.getD conflict default).students.find? (fun s => s.id == id) with
  | none => exact ⟨List.Sublist.refl _, rfl, [], by simp, by simp⟩
  | some obj =>
    obtain ⟨hobjmem, hobjid⟩ := find_mem_and_id hf
    by_cases hc : conflict < st.1.length
    · refine ⟨?_, length_setGroupStudents _ _ _, [obj], by simp, ?_⟩
      · rw [joinG_setGroupStudents hc]
        conv_rhs => rw [joinG_decomp hc]
        exact ((List.Sublist.refl _).append (List.filter_sublist _)).append (List.Sublist.refl _)
      · intro o ho
        rw [List.mem_singleton] at ho
        subst ho
        exact ⟨mem_joinG.mpr ⟨conflict, hc, hobjmem⟩, hobjid⟩
    · exfalso
      have hempty : (st.1.getD conflict default).students = [] := by
        rw [List.getD_eq_getElem?_getD, List.getElem?_eq_none (by omega)]
        rfl
      rw [hempty] at hf
      cases hf

theorem evictFold_ok (conflict : Nat) :
    ∀ (eids : List Int) (gs : List Group) (rem2 : List Student),
      joinG (eids.foldl (evictStep conflict) (gs, rem2)).1 <+ joinG gs ∧
      (eids.foldl (evictStep conflict) (gs, rem2)).1.length = gs.length ∧
      ∃ objs, (eids.foldl (evictStep conflict) (gs, rem2)).2 = rem2 ++ objs ∧
        ∀ o ∈ objs, o ∈ joinG gs ∧ o.id ∈ eids := by
  intro eids
  induction eids with
  | nil =>
    intro gs rem2
    exact ⟨List.Sublist.refl _, rfl, [], by simp, by simp⟩
  | cons id pr ih =>
    intro gs rem2
    rw [List.foldl_cons]
    have hstep := evictStep_ok conflict (gs, rem2) id
    rcases hs : evictStep conflict (gs, rem2) id with ⟨gs1, rem1⟩
    rw [hs] at hstep
    dsimp only at hstep
    obtain ⟨hsub1, hlen1, objs1, hobjs1, hmem1⟩ := hstep
    obtain ⟨hsub2, hlen2, objs2, hobjs2, hmem2⟩ := ih gs1 rem1
    refine ⟨hsub2.trans hsub1, hlen2.trans hlen1, objs1 ++ objs2, ?_, ?_⟩
    · rw [hobjs2, hobjs1, List.append_assoc]
    · intro o ho
      rcases List.mem_append.mp ho with h | h
      · obtain ⟨hm, hid⟩ := hmem1 o h
        exact ⟨hm, by rw [hid]; exact List.mem_cons_self _ _⟩
      · obtain ⟨hm, hid⟩ := hmem2 o h
        exact ⟨hsub1.subset hm, List.mem_cons_of_mem _ hid⟩

theorem evictFold_removes (conflict : Nat) :
    ∀ (eids : List Int) (gs : List Group) (rem2 : List Student),
      eids.Nodup →
      ((joinG gs).map Student.id).Nodup →
      conflict < gs.length →
      (∀ id ∈ eids, ∃ s ∈ (gs.getD conflict default).students, s.id = id) →
      ∀ id ∈ eids,
        id ∉ (joinG (eids.foldl (evictStep conflict) (gs, rem2)).1).map Student.id := by
  intro eids
  induction eids with
  | nil => intro gs rem2 _ _ _ _ id hid; cases hid
  | cons a pr ih =>
    intro gs rem2 hN hnd hconf hin id hid
    rw [List.foldl_cons]
    obtain ⟨s0, hs0mem, hs0id⟩ := hin a (List.mem_cons_self a pr)
    have hfs : ((gs.getD conflict default).students.find?
        (fun s => s.id == a)).isSome = true := by
      rw [List.find?_isSome]
      exact ⟨s0, hs0mem, by rw [hs0id]; exact beq_self_eq_true a⟩
    cases hf : (gs.getD conflict default).students.find? (fun s => s.id == a) with
    | none => rw [hf] at hfs; cases hfs
    | some obj =>
      have hstep : evictStep conflict (gs, rem2) a =
          (setGroupStudents gs conflict
            ((gs.getD conflict default).students.filter (fun s => !(s.id == a))),
           rem2 ++ [obj]) := by
        rw [evictStep, hf]
      rw [hstep]
      have hjdec := joinG_decomp hconf
      set gs1 := setGroupStudents gs conflict
        ((gs.getD conflict default).students.filter (fun s => !(s.id == a))) with hgs1
      have hsubgs1 : joinG gs1 <+ joinG gs := by
        rw [hgs1, joinG_setGroupStudents hconf]
        conv_rhs => rw [hjdec]
        exact ((List.Sublist.refl _).append (List.filter_sublist _)).append (List.Sublist.refl _)
      have hgs1nd : ((joinG gs1).map Student.id).Nodup :=
        nodup_of_subperm (subperm_map Student.id hsubgs1.subperm) hnd
      have hlen1 : gs1.length = gs.length := by
        rw [hgs1]
        exact length_setGroupStudents _ _ _
      rcases List.mem_cons.mp hid with rfl | hid'
      · have hsub := (evictFold_ok conflict pr gs1 (rem2 ++ [obj])).1
        intro hmem
        have hmem1 := (subperm_map Student.id hsub.subperm).subset hmem
        have hid_in_conf : id ∈ ((gs.getD conflict default).students).map Student.id :=
          List.mem_map.mpr ⟨s0, hs0mem, hs0id⟩
        have hnd2 := hnd
        rw [hjdec, List.map_append, List.map_append, List.nodup_append] at hnd2
        rw [hgs1, joinG_setGroupStudents hconf, List.map_append, List.map_append,
          List.mem_append, List.mem_append] at hmem1
        rcases hmem1 with (h | h) | h
        · have hndAC := hnd2.1
          rw [List.nodup_append] at hndAC
          exact hndAC.2.2 h hid_in_conf
        · obtain ⟨t, ht, htid⟩ := List.mem_map.mp h
          have hcond := List.of_mem_filter ht
          rw [htid] at hcond
          simp at hcond
        · exact hnd2.2.2 (by rw [List.mem_append]; exact Or.inr hid_in_conf) h
      · refine ih gs1 (rem2 ++ [obj]) (List.nodup_cons.mp hN).2 hgs1nd
          (by rw [hlen1]; exact hconf) ?_ id hid'
        intro id2 hid2
        obtain ⟨s2, hs2mem, hs2id⟩ := hin id2 (List.mem_cons_of_mem _ hid2)
        refine ⟨s2, ?_, hs2id⟩
        rw [hgs1, getD_setGroupStudents_self hconf]
        refine List.mem_filter.mpr ⟨hs2mem, ?_⟩
        have hne : id2 ≠ a := by
          intro hEq
          subst hEq
          exact (List.nodup_cons.mp hN).1 hid2
        rw [hs2id]
        simp [hne]

theorem redistStep_ok (remaining : List Student) (avoid : Nat) (gs : List Group) (id : Int) :
    (redistStep remaining avoid gs id).length = gs.length ∧
    (id ∉ (joinG gs).map Student.id → ((joinG gs).map Student.id).Nodup →
      ((joinG (redistStep remaining avoid gs id)).map Student.id).Nodup) ∧
    (∀ s ∈ joinG (redistStep remaining avoid gs id), s ∈ joinG gs ∨ s ∈ remaining) ∧
    (∀ x ∈ (joinG (redistStep remaining avoid gs id)).map Student.id,
      x ∈ (joinG gs).map Student.id ∨ x = id) := by
  rw [redistStep]
  cases hf : remaining.find? (fun s => s.id == id) with
  | none => exact ⟨rfl, fun _ h => h, fun s hs => Or.inl hs, fun x hx => Or.inl hx⟩
  | some s0 =>
    obtain ⟨hs0mem, hs0id⟩ := find_mem_and_id hf
    cases hav : ((List.range gs.length).filter (fun i => i ≠ avoid)).sortJs
        (fun a b => decide (sizeAt gs a ≤ sizeAt gs b)) with
    | nil => exact ⟨rfl, fun _ h => h, fun s hs => Or.inl hs, fun x hx => Or.inl hx⟩
    | cons i rest =>
      refine ⟨length_pushStudent _ _ _, ?_, ?_, ?_⟩
      · intro hid hnd
        exact push_nodup hnd (by rw [hs0id]; exact hid)
      · intro s hs
        rcases push_mem hs with h | rfl
        · exact Or.inl h
        · exact Or.inr hs0mem
      · intro x hx
        rcases push_id_sub hx with h | h
        · exact Or.inl h
        · exact Or.inr (h.trans hs0id)

theorem redistFold_ok (remaining : List Student) (avoid : Nat) :
    ∀ (eids : List Int) (gs : List Group),
      eids.Nodup →
      ((joinG gs).map Student.id).Nodup →
      (∀ id ∈ eids, id ∉ (joinG gs).map Student.id) →
      (eids.foldl (redistStep remaining avoid) gs).length = gs.length ∧
      ((joinG (eids.foldl (redistStep remaining avoid) gs)).map Student.id).Nodup ∧
      (∀ s ∈ joinG (eids.foldl (redistStep remaining avoid) gs),
        s ∈ joinG gs ∨ s ∈ remaining) ∧
      (∀ x ∈ (joinG (eids.foldl (redistStep remaining avoid) gs)).map Student.id,
        x ∈ (joinG gs).map Student.id ∨ x ∈ eids) := by
  intro eids
  induction eids with
  | nil =>
    intro gs _ hnd _
    exact ⟨rfl, hnd, fun s hs => Or.inl hs, fun x hx => Or.inl hx⟩
  | cons id pr ih =>
    intro gs hN hnd hfr
    rw [List.foldl_cons]
    obtain ⟨hlen1, hnd1f, hmem1, hids1⟩ := redistStep_ok remaining avoid gs id
    have hnd1 := hnd1f (hfr id (List.mem_cons_self id pr)) hnd
    have hfr1 : ∀ id2 ∈ pr, id2 ∉ (joinG (redistStep remaining avoid gs id)).map Student.id := by
      intro id2 hid2 hmem
      rcases hids1 id2 hmem with h | rfl
      · exact hfr id2 (List.mem_cons_of_mem _ hid2) h
      · exact (List.nodup_cons.mp hN).1 hid2
    obtain ⟨ihlen, ihnd, ihmem, ihids⟩ := ih (redistStep remaining avoid gs id)
      (List.nodup_cons.mp hN).2 hnd1 hfr1
    refine ⟨ihlen.trans hlen1, ihnd, ?_, ?_⟩
    · intro s hs
      rcases ihmem s hs with h | h
      · exact hmem1 s h
      · exact Or.inr h
    · intro x hx
      rcases ihids x hx with h | h
      · rcases hids1 x h with h2 | rfl
        · exact Or.inl h2
        · exact Or.inr (List.mem_cons_self _ _)
      · exact Or.inr (List.mem_cons_of_mem _ h)

theorem pairGroupValues_mem {gs : List Group} {pair : List Int} {c : Nat}
    (hc : c ∈ pairGroupValues gs pair) :
    ∃ id ∈ pair, lastGroupOf gs id = some c := by
  rw [pairGroupValues] at hc
  have hc2 := jsDedup_mem.mp hc
  obtain ⟨id, hid, hval⟩ := List.mem_map.mp hc2
  rw [pairPlacedIds] at hid
  have hfil := List.mem_filter.mp hid
  refine ⟨id, hfil.1, ?_⟩
  cases hl : lastGroupOf gs id with
  | none =>
    have hiss := hfil.2
    rw [hl] at hiss
    simp at hiss
  | some j =>
    rw [hl] at hval
    simp only [Option.getD_some] at hval
    rw [hval]

theorem inConflict_spec {gs : List Group} {pair : List Int} {c : Nat} {id : Int}
    (h : id ∈ pair.filter (fun id => lastGroupOf gs id == some c)) :
    id ∈ pair ∧ lastGroupOf gs id = some c := by
  have := List.mem_filter.mp h
  refine ⟨this.1, ?_⟩
  have hb := this.2
  rwa [beq_iff_eq] at hb

theorem assignDG_ok (students : List Student) (pair : List Int) (hpairN : pair.Nodup)
    (gs : List Group) (rem : List Student) (proc : List Int) (rem0 : List Student)
    (hnd : ((joinG gs).map Student.id).Nodup)
    (hmemG : ∀ s ∈ joinG gs, s ∈ students)
    (hmemR : ∀ s ∈ rem, s ∈ students)
    (hextra : ∃ extra, rem = rem0 ++ extra ∧ ∀ s ∈ extra, s.id ∈ proc)
    (hcp : ∀ s ∈ rem, s.id ∈ (joinG gs).map Student.id → s.id ∈ proc) :
    (assignToDifferentGroups gs pair rem proc).1.length = gs.length ∧
    ((joinG (assignToDifferentGroups gs pair rem proc).1).map Student.id).Nodup ∧
    (∀ s ∈ joinG (assignToDifferentGroups gs pair rem proc).1, s ∈ students) ∧
    (∀ s ∈ (assignToDifferentGroups gs pair rem proc).2.1, s ∈ students) ∧
    (∃ extra, (assignToDifferentGroups gs pair rem proc).2.1 = rem0 ++ extra ∧
      ∀ s ∈ extra, s.id ∈ (assignToDifferentGroups gs pair rem proc).2.2) ∧
    (∀ s ∈ (assignToDifferentGroups gs pair rem proc).2.1,
      s.id ∈ (joinG (assignToDifferentGroups gs pair rem proc).1).map Student.id →
      s.id ∈ (assignToDifferentGroups gs pair rem proc).2.2) ∧
    (∀ x ∈ proc, x ∈ (assignToDifferentGroups gs pair rem proc).2.2) := by
  obtain ⟨extra0, hrem0, hmarks0⟩ := hextra
  simp only [assignToDifferentGroups]
  have hfreshTriv : ∀ id ∈ pair, lastGroupOf gs id = none →
      id ∉ (joinG gs).map Student.id := fun id _ hn => lastGroupOf_none_iff.mp hn
  by_cases hv1 : (pairGroupValues gs pair).length > 1
  · rw [if_pos hv1]
    dsimp only
    obtain ⟨hlen, hnd2, hmem2, hmono, hsub, hids, hids7⟩ :=
      dgLastLoop_ok students gs rem hmemR pair gs (pairGroupValues gs pair)
        ((pairPlacedIds gs pair).foldl insertSet proc) hpairN hnd hfreshTriv hmemG
    have hproc1 : ∀ x ∈ proc, x ∈ (pairPlacedIds gs pair).foldl insertSet proc :=
      fun x hx => (foldl_insertSet_mem _ _ _).mpr (Or.inl hx)
    refine ⟨hlen, hnd2, hmem2, hmemR, ⟨extra0, hrem0, ?_⟩, ?_, ?_⟩
    · intro t ht
      exact hmono _ (hproc1 _ (hmarks0 t ht))
    · intro t ht hmem
      rcases hids7 _ hmem with h | h
      · exact hmono _ (hproc1 _ (hcp t ht h))
      · exact h
    · intro x hx
      exact hmono _ (hproc1 _ hx)
  · rw [if_neg hv1]
    by_cases hv2 : ((pairGroupValues gs pair).length == 1) = true
    · rw [if_pos hv2]
      dsimp only
      obtain ⟨c, hc⟩ := List.length_eq_one.mp (by
        have h12 := hv2
        rwa [beq_iff_eq] at h12)
      rw [hc]
      simp only [List.headD_cons]
      simp only [redistributeStudents]
      obtain ⟨cid, hcidpair, hcidlast⟩ := pairGroupValues_mem (by
        rw [hc]
        exact List.mem_singleton.mpr rfl)
      have hclt : c < gs.length := (lastGroupOf_some_spec hcidlast).1
      set eids := (pair.filter (fun id => lastGroupOf gs id == some c)).drop 1 with heids
      set ev := eids.foldl (evictStep c) (gs, rem) with hev
      set gs2 := eids.foldl (redistStep ev.2 c) ev.1 with hgs2
      set res := dgLastLoop gs ev.2 pair gs2 [c] (pair.foldl insertSet proc) with hres
      have heids_pair : ∀ id ∈ eids, id ∈ pair := by
        intro id hid
        rw [heids] at hid
        exact (List.mem_filter.mp ((List.drop_subset 1 _) hid)).1
      have hdropN : eids.Nodup := by
        rw [heids]
        exact (hpairN.filter _).sublist (List.drop_sublist 1 _)
      have hin : ∀ id ∈ eids, ∃ s ∈ (gs.getD c default).students, s.id = id := by
        intro id hid
        rw [heids] at hid
        obtain ⟨_, hlast⟩ := inConflict_spec ((List.drop_subset 1 _) hid)
        exact (lastGroupOf_some_spec hlast).2
      obtain ⟨hsubE, hlenE, objs, hobjs, hobjmem⟩ := evictFold_ok c eids gs rem
      rw [← hev] at hsubE hlenE hobjs
      have hremoves := evictFold_removes c eids gs rem hdropN hnd hclt hin
      rw [← hev] at hremoves
      have hndE : ((joinG ev.1).map Student.id).Nodup :=
        nodup_of_subperm (subperm_map Student.id hsubE.subperm) hnd
      have hmemE : ∀ s ∈ joinG ev.1, s ∈ students := fun s hs => hmemG s (hsubE.subset hs)
      have hmemRE : ∀ s ∈ ev.2, s ∈ students := by
        rw [hobjs]
        intro s hs
        rcases List.mem_append.mp hs with h | h
        · exact hmemR s h
        · exact hmemG s (hobjmem s h).1
      obtain ⟨hlenR, hndR, hmemRR, hidsR⟩ :=
        redistFold_ok ev.2 c eids ev.1 hdropN hndE hremoves
      rw [← hgs2] at hlenR hndR hmemRR hidsR
      have hmemG2 : ∀ s ∈ joinG gs2, s ∈ students := by
        intro s hs
        rcases hmemRR s hs with h | h
        · exact hmemE s h
        · exact hmemRE s h
      have hfresh2 : ∀ id ∈ pair, lastGroupOf gs id = none →
          id ∉ (joinG gs2).map Student.id := by
        intro id hid hnone hmem
        rcases hidsR _ hmem with h | h
        · exact lastGroupOf_none_iff.mp hnone
            ((subperm_map Student.id hsubE.subperm).subset h)
        · rw [heids] at h
          have hlast := (inConflict_spec ((List.drop_subset 1 _) h)).2
          rw [hnone] at hlast
          cases hlast
      obtain ⟨hlenL, hndL, hmemL, hmonoL, hsubL, hidsL, hids7L⟩ :=
        dgLastLoop_ok students gs ev.2 hmemRE pair gs2 [c] (pair.foldl insertSet proc)
          hpairN hndR hfresh2 hmemG2
      rw [← hres] at hlenL hndL hmemL hmonoL hsubL hidsL hids7L
      have hproc1 : ∀ x ∈ proc, x ∈ pair.foldl insertSet proc :=
        fun x hx => (foldl_insertSet_mem _ _ _).mpr (Or.inl hx)
      have hpairproc1 : ∀ x ∈ pair, x ∈ pair.foldl insertSet proc :=
        fun x hx => (foldl_insertSet_mem _ _ _).mpr (Or.inr hx)
      refine ⟨hlenL.trans (hlenR.trans hlenE), hndL, hmemL, hmemRE, ?_, ?_, ?_⟩
      · refine ⟨extra0 ++ objs, by rw [hobjs, hrem0, List.append_assoc], ?_⟩
        intro t ht
        rcases List.mem_append.mp ht with h | h
        · exact hmonoL _ (hproc1 _ (hmarks0 t h))
        · exact hmonoL _ (hpairproc1 _ (heids_pair _ (hobjmem t h).2))
      · intro t ht hmem
        rcases hids7L _ hmem with h | h
        · rcases hidsR _ h with h2 | h2
          · have hidgs : t.id ∈ (joinG gs).map Student.id :=
              (subperm_map Student.id hsubE.subperm).subset h2
            rw [hobjs] at ht
            rcases List.mem_append.mp ht with h3 | h3
            · exact hmonoL _ (hproc1 _ (hcp t h3 hidgs))
            · exact hmonoL _ (hpairproc1 _ (heids_pair _ (hobjmem t h3).2))
          · exact hmonoL _ (hpairproc1 _ (heids_pair _ h2))
        · exact h
      · intro x hx
        exact hmonoL _ (hproc1 _ hx)
    · rw [if_neg hv2]
      dsimp only
      obtain ⟨hlen, hnd2, hmem2, hmono, hsub, hids, hids7⟩ :=
        dgLastLoop_ok students gs rem hmemR pair gs (pairGroupValues gs pair) proc
          hpairN hnd hfreshTriv hmemG
      refine ⟨hlen, hnd2, hmem2, hmemR, ⟨extra0, hrem0, ?_⟩, ?_, ?_⟩
      · intro t ht
        exact hmono _ (hmarks0 t ht)
      · intro t ht hmem
        rcases hids7 _ hmem with h | h
        · exact hmono _ (hcp t ht h)
        · exact h
      · intro x hx
        exact hmono _ hx

theorem dgPairsFold_ok (students : List Student) (rem0 : List Student) :
    ∀ (pairs : List (List Int)), (∀ p ∈ pairs, p.Nodup) →
      ∀ (gs : List Group) (rem : List Student) (proc : List Int),
        ((joinG gs).map Student.id).Nodup →
        (∀ s ∈ joinG gs, s ∈ students) →
        (∀ s ∈ rem, s ∈ students) →
        (∃ extra, rem = rem0 ++ extra ∧ ∀ s ∈ extra, s.id ∈ proc) →
        (∀ s ∈ rem, s.id ∈ (joinG gs).map Student.id → s.id ∈ proc) →
        (pairs.foldl (fun st pair => assignToDifferentGroups st.1 pair st.2.1 st.2.2)
          (gs, rem, proc)).1.length = gs.length ∧
        ((joinG (pairs.foldl (fun st pair => assignToDifferentGroups st.1 pair st.2.1 st.2.2)
          (gs, rem, proc)).1).map Student.id).Nodup ∧
        (∀ s ∈ joinG (pairs.foldl (fun st pair => assignToDifferentGroups st.1 pair st.2.1 st.2.2)
          (gs, rem, proc)).1, s ∈ students) ∧
        (∀ s ∈ (pairs.foldl (fun st pair => assignToDifferentGroups st.1 pair st.2.1 st.2.2)
          (gs, rem, proc)).2.1, s ∈ students) ∧
        (∃ extra, (pairs.foldl (fun st pair => assignToDifferentGroups st.1 pair st.2.1 st.2.2)
          (gs, rem, proc)).2.1 = rem0 ++ extra ∧
          ∀ s ∈ extra, s.id ∈ (pairs.foldl
            (fun st pair => assignToDifferentGroups st.1 pair st.2.1 st.2.2)
            (gs, rem, proc)).2.2) ∧
        (∀ s ∈ (pairs.foldl (fun st pair => assignToDifferentGroups st.1 pair st.2.1 st.2.2)
          (gs, rem, proc)).2.1,
          s.id ∈ (joinG (pairs.foldl
            (fun st pair => assignToDifferentGroups st.1 pair st.2.1 st.2.2)
            (gs, rem, proc)).1).map Student.id →
          s.id ∈ (pairs.foldl (fun st pair => assignToDifferentGroups st.1 pair st.2.1 st.2.2)
            (gs, rem, proc)).2.2) := by
  intro pairs
  induction pairs with
  | nil =>
    intro _ gs rem proc hnd hmemG hmemR hextra hcp
    exact ⟨rfl, hnd, hmemG, hmemR, hextra, hcp⟩
  | cons pair prs ih =>
    intro hN gs rem proc hnd hmemG hmemR hextra hcp
    rw [List.foldl_cons]
    have hstep := assignDG_ok students pair (hN pair (List.mem_cons_self _ _)) gs rem proc
      rem0 hnd hmemG hmemR hextra hcp
    rcases hs : assignToDifferentGroups gs pair rem proc with ⟨gs1, rem1, proc1⟩
    rw [hs] at hstep
    dsimp only at hstep
    obtain ⟨hlen1, hnd1, hmemG1, hmemR1, hextra1, hcp1, _⟩ := hstep
    obtain ⟨ihlen, ihnd, ihmemG, ihmemR, ihextra, ihcp⟩ :=
      ih (fun p hp => hN p (List.mem_cons_of_mem _ hp)) gs1 rem1 proc1
        hnd1 hmemG1 hmemR1 hextra1 hcp1
    exact ⟨ihlen.trans hlen1, ihnd, ihmemG, ihmemR, ihextra, ihcp⟩

theorem placeGender_ok (cmp : GStat → GStat → Int) (b : Bool) (pool : List Student) :
    ∀ (gs : List Group) (stats : List GStat), 0 < stats.length →
      (∀ st ∈ stats, st.index < gs.length) →
      (placeGender cmp b gs stats pool).1.length = gs.length ∧
      joinG (placeGender cmp b gs stats pool).1 ~ joinG gs ++ pool ∧
      (placeGender cmp b gs stats pool).2.length = stats.length ∧
      (∀ st ∈ (placeGender cmp b gs stats pool).2, st.index < gs.length) := by
  induction pool with
  | nil => intro gs stats _ hidx; exact ⟨rfl, by simp [placeGender], rfl, hidx⟩
  | cons s rest ih =>
    intro gs stats hpos hidx
    rw [placeGender]
    cases hms : stats.sortJs (fun a b => decide (cmp a b ≤ 0)) with
    | nil =>
      exfalso
      have hl : (stats.sortJs (fun a b => decide (cmp a b ≤ 0))).length = stats.length :=
        length_sortJs _ _
      rw [hms] at hl
      simp at hl
      omega
    | cons top others =>
      dsimp only
      have hl : (stats.sortJs (fun a b => decide (cmp a b ≤ 0))).length = stats.length :=
        length_sortJs _ _
      rw [hms] at hl
      have htop : top ∈ stats := by
        have hm : top ∈ stats.sortJs (fun a b => decide (cmp a b ≤ 0)) := by
          rw [hms]
          exact List.mem_cons_self _ _
        exact mem_sortJs.mp hm
      have hothers : ∀ st ∈ others, st ∈ stats := by
        intro st hst
        have hm : st ∈ stats.sortJs (fun a b => decide (cmp a b ≤ 0)) := by
          rw [hms]
          exact List.mem_cons_of_mem _ hst
        exact mem_sortJs.mp hm
      have hidx' : ∀ st ∈ ((if b then { top with males := top.males + 1, total := top.total + 1 }
          else { top with females := top.females + 1, total := top.total + 1 }) :: others),
          st.index < (pushStudent gs top.index s).length := by
        intro st hst
        rw [length_pushStudent]
        rcases List.mem_cons.mp hst with rfl | hst
        · cases b
          · simpa using hidx top htop
          · simpa using hidx top htop
        · exact hidx st (hothers st hst)
      obtain ⟨ihlen, ihperm, ihslen, ihsidx⟩ := ih (pushStudent gs top.index s)
        ((if b then { top with males := top.males + 1, total := top.total + 1 }
          else { top with females := top.females + 1, total := top.total + 1 }) :: others)
        (by simp) hidx'
      refine ⟨ihlen.trans (length_pushStudent _ _ _), ?_, ?_, ?_⟩
      · refine ihperm.trans ?_
        refine ((joinG_pushStudent_perm (hidx top htop) s).append_right rest).trans
          (List.Perm.of_eq ?_)
        simp
      · rw [ihslen]
        simp only [List.length_cons] at hl ⊢
        omega
      · intro st hst
        have := ihsidx st hst
        rwa [length_pushStudent] at this

theorem pushMinFold_ok (pool : List Student) :
    ∀ gs : List Group, 0 < gs.length →
      (pool.foldl (fun gs s => pushStudent gs (firstMinIdx gs) s) gs).length = gs.length ∧
      joinG (pool.foldl (fun gs s => pushStudent gs (firstMinIdx gs) s) gs) ~
        joinG gs ++ pool := by
  induction pool with
  | nil => intro gs _; exact ⟨rfl, by simp⟩
  | cons s rest ih =>
    intro gs hpos
    rw [List.foldl_cons]
    obtain ⟨ihlen, ihperm⟩ := ih (pushStudent gs (firstMinIdx gs) s)
      (by rw [length_pushStudent]; exact hpos)
    refine ⟨ihlen.trans (length_pushStudent _ _ _), ?_⟩
    refine ihperm.trans ?_
    refine ((joinG_pushStudent_perm (firstMinIdx_lt hpos) s).append_right rest).trans
      (List.Perm.of_eq ?_)
    simp

theorem distributeRemaining_ok (gs : List Group) (remaining : List Student)
    (shuffle : List Student → List Student) (hpos : 0 < gs.length) :
    (distributeRemainingStudents gs remaining shuffle).length = gs.length ∧
    joinG (distributeRemainingStudents gs remaining shuffle) ~
      joinG gs ++ shuffle remaining := by
  simp only [distributeRemainingStudents]
  exact pushMinFold_ok (shuffle remaining) gs hpos

theorem disjoint_ids {gsIds remIds : List Int}
    (hdisj : ∀ x ∈ remIds, x ∉ gsIds) : List.Disjoint gsIds remIds := by
  intro x hx hx2
  exact hdisj x hx2 hx

/-- The gender-ratio handler (the tail of the chain) preserves the chain
invariant. -/
theorem genderRatio_ok (ctx : GroupingContext) (rnd : Rand) (n : Nat)
    (hgc : 0 < n) (hlaw : rnd.Lawful)
    (hok : ChainOk ctx.students n ctx.groups ctx.remainingStudents) :
    ChainOk ctx.students n (genderRatioHandle ctx rnd).groups
      (genderRatioHandle ctx rnd).remainingStudents := by
  obtain ⟨hlen, hndG, hndR, hmemG, hmemR, hdisj⟩ := hok
  rw [genderRatioHandle, genderRatioProcess]
  cases hf : ctx.conditions.find? (fun c => c.type == CType.genderBal && c.enabled) with
  | none => exact ⟨hlen, hndG, hndR, hmemG, hmemR, hdisj⟩
  | some cond =>
    simp only []
    by_cases hz : ((ctx.remainingStudents.filter
        (fun s => s.gender == Gender.male)).length == 0 &&
        (ctx.remainingStudents.filter (fun s => s.gender == Gender.female)).length == 0) = true
    · rw [if_pos hz]
      exact ⟨hlen, hndG, by simp, hmemG, by simp, by simp⟩
    · rw [if_neg hz]
      simp only []
      have hpos : 0 < ctx.groups.length := by rw [hlen]; exact hgc
      have hstats_len : 0 < ((List.range ctx.groups.length).map (fun i =>
        let g := ctx.groups.getD i default
        let m := (g.students.filter (fun s => s.gender == Gender.male)).length
        let f := (g.students.filter (fun s => s.gender == Gender.female)).length
        GStat.mk i m f (m + f))).length := by
        rw [List.length_map, List.length_range]
        exact hpos
      have hstats_idx : ∀ st ∈ ((List.range ctx.groups.length).map (fun i =>
        let g := ctx.groups.getD i default
        let m := (g.students.filter (fun s => s.gender == Gender.male)).length
        let f := (g.students.filter (fun s => s.gender == Gender.female)).length
        GStat.mk i m f (m + f))), st.index < ctx.groups.length := by
        intro st hst
        obtain ⟨i, hi, hsti⟩ := List.mem_map.mp hst
        rw [← hsti]
        exact List.mem_range.mp hi
      obtain ⟨h1len, h1perm, h1slen, h1sidx⟩ :=
        placeGender_ok (maleCmp (((ctx.remainingStudents.filter (fun s => s.gender == Gender.male)).length +
        (ctx.remainingStudents.filter (fun s => s.gender == Gender.female)).length +
        (ctx.groups.map (fun g => g.students.length)).sum + ctx.groups.length - 1) /
        ctx.groups.length)) true (rnd.genderMaleShuffle (ctx.remainingStudents.filter (fun s => s.gender == Gender.male))) ctx.groups ((List.range ctx.groups.length).map (fun i =>
        let g := ctx.groups.getD i default
        let m := (g.students.filter (fun s => s.gender == Gender.male)).length
        let f := (g.students.filter (fun s => s.gender == Gender.female)).length
        GStat.mk i m f (m + f))) hstats_len hstats_idx
      obtain ⟨h2len, h2perm, _, _⟩ :=
        placeGender_ok (femaleCmp (((ctx.remainingStudents.filter (fun s => s.gender == Gender.male)).length +
        (ctx.remainingStudents.filter (fun s => s.gender == Gender.female)).length +
        (ctx.groups.map (fun g => g.students.length)).sum + ctx.groups.length - 1) /
        ctx.groups.length)) false (rnd.genderFemaleShuffle (ctx.remainingStudents.filter (fun s => s.gender == Gender.female))) (placeGender (maleCmp (((ctx.remainingStudents.filter (fun s => s.gender == Gender.male)).length +
        (ctx.remainingStudents.filter (fun s => s.gender == Gender.female)).length +
        (ctx.groups.map (fun g => g.students.length)).sum + ctx.groups.length - 1) /
        ctx.groups.length)) true ctx.groups ((List.range ctx.groups.length).map (fun i =>
        let g := ctx.groups.getD i default
        let m := (g.students.filter (fun s => s.gender == Gender.male)).length
        let f := (g.students.filter (fun s => s.gender == Gender.female)).length
        GStat.mk i m f (m + f))) (rnd.genderMaleShuffle (ctx.remainingStudents.filter (fun s => s.gender == Gender.male)))).1 (placeGender (maleCmp (((ctx.remainingStudents.filter (fun s => s.gender == Gender.male)).length +
        (ctx.remainingStudents.filter (fun s => s.gender == Gender.female)).length +
        (ctx.groups.map (fun g => g.students.length)).sum + ctx.groups.length - 1) /
        ctx.groups.length)) true ctx.groups ((List.range ctx.groups.length).map (fun i =>
        let g := ctx.groups.getD i default
        let m := (g.students.filter (fun s => s.gender == Gender.male)).length
        let f := (g.students.filter (fun s => s.gender == Gender.female)).length
        GStat.mk i m f (m + f))) (rnd.genderMaleShuffle (ctx.remainingStudents.filter (fun s => s.gender == Gender.male)))).2
          (by rw [h1slen]; exact hstats_len)
          (fun st hst => by rw [h1len]; exact h1sidx st hst)
      have hperm : joinG (placeGender (femaleCmp (((ctx.remainingStudents.filter (fun s => s.gender == Gender.male)).length +
        (ctx.remainingStudents.filter (fun s => s.gender == Gender.female)).length +
        (ctx.groups.map (fun g => g.students.length)).sum + ctx.groups.length - 1) /
        ctx.groups.length)) false
          (placeGender (maleCmp (((ctx.remainingStudents.filter (fun s => s.gender == Gender.male)).length +
        (ctx.remainingStudents.filter (fun s => s.gender == Gender.female)).length +
        (ctx.groups.map (fun g => g.students.length)).sum + ctx.groups.length - 1) /
        ctx.groups.length)) true ctx.groups ((List.range ctx.groups.length).map (fun i =>
        let g := ctx.groups.getD i default
        let m := (g.students.filter (fun s => s.gender == Gender.male)).length
        let f := (g.students.filter (fun s => s.gender == Gender.female)).length
        GStat.mk i m f (m + f))) (rnd.genderMaleShuffle (ctx.remainingStudents.filter (fun s => s.gender == Gender.male)))).1 (placeGender (maleCmp (((ctx.remainingStudents.filter (fun s => s.gender == Gender.male)).length +
        (ctx.remainingStudents.filter (fun s => s.gender == Gender.female)).length +
        (ctx.groups.map (fun g => g.students.length)).sum + ctx.groups.length - 1) /
        ctx.groups.length)) true ctx.groups ((List.range ctx.groups.length).map (fun i =>
        let g := ctx.groups.getD i default
        let m := (g.students.filter (fun s => s.gender == Gender.male)).length
        let f := (g.students.filter (fun s => s.gender == Gender.female)).length
        GStat.mk i m f (m + f))) (rnd.genderMaleShuffle (ctx.remainingStudents.filter (fun s => s.gender == Gender.male)))).2 (rnd.genderFemaleShuffle (ctx.remainingStudents.filter (fun s => s.gender == Gender.female)))).1 ~
          joinG ctx.groups ++ ctx.remainingStudents := by
        refine h2perm.trans ?_
        refine (h1perm.append_right _).trans ?_
        rw [List.append_assoc]
        refine List.Perm.append_left _ ?_
        refine ((hlaw.genderM _).append (hlaw.genderF _)).trans ?_
        exact filter_gender_perm _
      refine ⟨h2len.trans (h1len.trans hlen), ?_, by simp, ?_, by simp, by simp⟩
      · refine ((hperm.map Student.id).nodup_iff).mpr ?_
        rw [List.map_append]
        refine List.Nodup.append hndG hndR (disjoint_ids ?_)
        intro x hx
        obtain ⟨s, hs, rfl⟩ := List.mem_map.mp hx
        exact hdisj s hs
      · intro s hs
        have := hperm.subset hs
        rcases List.mem_append.mp this with h | h
        · exact hmemG s h
        · exact hmemR s h
/-- The different-group handler body preserves the chain invariant. -/
theorem differentGroupProcess_ok (ctx : GroupingContext) (rnd : Rand) (n : Nat)
    (hgc : 0 < n) (hlaw : rnd.Lawful)
    (hok : ChainOk ctx.students n ctx.groups ctx.remainingStudents) :
    ChainOk ctx.students n (differentGroupProcess ctx rnd).groups
      (differentGroupProcess ctx rnd).remainingStudents := by
  obtain ⟨hlen, hndG, hndR, hmemG, hmemR, hdisj⟩ := hok
  rw [differentGroupProcess]
  cases hf : ctx.conditions.find? (fun c => c.type == CType.diffGroup && c.enabled) with
  | none => exact ⟨hlen, hndG, hndR, hmemG, hmemR, hdisj⟩
  | some cond =>
    dsimp only
    by_cases hpe : (parseDifferentGroupInput cond.input).isEmpty = true
    · rw [if_pos hpe]
      exact ⟨hlen, hndG, hndR, hmemG, hmemR, hdisj⟩
    · rw [if_neg hpe]
      have hpairsN : ∀ p ∈ parseDifferentGroupInput cond.input, p.Nodup :=
        fun p hp => (parseDifferentGroupInput_mem hp).1
      obtain ⟨hlenF, hndF, hmemGF, hmemRF, hextraF, hcpF⟩ :=
        dgPairsFold_ok ctx.students ctx.remainingStudents (parseDifferentGroupInput cond.input)
          hpairsN ctx.groups ctx.remainingStudents [] hndG hmemG hmemR
          ⟨[], by simp, by simp⟩ (fun s hs hmem => ((hdisj s hs) hmem).elim)
      have hfr_eq : (List.filter (fun s => !(((parseDifferentGroupInput cond.input).foldl (fun st pair => assignToDifferentGroups st.1 pair st.2.1 st.2.2) (ctx.groups, ctx.remainingStudents, [])).2.2.contains s.id)) ((parseDifferentGroupInput cond.input).foldl (fun st pair => assignToDifferentGroups st.1 pair st.2.1 st.2.2) (ctx.groups, ctx.remainingStudents, [])).2.1) =
          List.filter (fun s => !(((parseDifferentGroupInput cond.input).foldl (fun st pair => assignToDifferentGroups st.1 pair st.2.1 st.2.2) (ctx.groups, ctx.remainingStudents, [])).2.2.contains s.id)) ctx.remainingStudents := by
        obtain ⟨extra, hex, hmarks⟩ := hextraF
        rw [hex, List.filter_append]
        have hnil : List.filter (fun s => !(((parseDifferentGroupInput cond.input).foldl (fun st pair => assignToDifferentGroups st.1 pair st.2.1 st.2.2) (ctx.groups, ctx.remainingStudents, [])).2.2.contains s.id)) extra = [] := by
          rw [List.filter_eq_nil_iff]
          intro s hs
          have hc := contains_iff_mem.mpr (hmarks s hs)
          rw [hc]
          simp
        rw [hnil, List.append_nil]
      have hndFR : ((List.filter (fun s => !(((parseDifferentGroupInput cond.input).foldl (fun st pair => assignToDifferentGroups st.1 pair st.2.1 st.2.2) (ctx.groups, ctx.remainingStudents, [])).2.2.contains s.id)) ((parseDifferentGroupInput cond.input).foldl (fun st pair => assignToDifferentGroups st.1 pair st.2.1 st.2.2) (ctx.groups, ctx.remainingStudents, [])).2.1).map Student.id).Nodup := by
        rw [hfr_eq]
        exact hndR.sublist ((List.filter_sublist _).map Student.id)
      have hmemFR : ∀ s ∈ (List.filter (fun s => !(((parseDifferentGroupInput cond.input).foldl (fun st pair => assignToDifferentGroups st.1 pair st.2.1 st.2.2) (ctx.groups, ctx.remainingStudents, [])).2.2.contains s.id)) ((parseDifferentGroupInput cond.input).foldl (fun st pair => assignToDifferentGroups st.1 pair st.2.1 st.2.2) (ctx.groups, ctx.remainingStudents, [])).2.1), s ∈ ctx.students := by
        intro s hs
        rw [hfr_eq] at hs
        exact hmemR s (List.mem_of_mem_filter hs)
      have hdisjFR : ∀ s ∈ (List.filter (fun s => !(((parseDifferentGroupInput cond.input).foldl (fun st pair => assignToDifferentGroups st.1 pair st.2.1 st.2.2) (ctx.groups, ctx.remainingStudents, [])).2.2.contains s.id)) ((parseDifferentGroupInput cond.input).foldl (fun st pair => assignToDifferentGroups st.1 pair st.2.1 st.2.2) (ctx.groups, ctx.remainingStudents, [])).2.1), s.id ∉ (joinG ((parseDifferentGroupInput cond.input).foldl (fun st pair => assignToDifferentGroups st.1 pair st.2.1 st.2.2) (ctx.groups, ctx.remainingStudents, [])).1).map Student.id := by
        intro s hs hmem
        have hcond := List.of_mem_filter hs
        have hsST : s ∈ ((parseDifferentGroupInput cond.input).foldl (fun st pair => assignToDifferentGroups st.1 pair st.2.1 st.2.2) (ctx.groups, ctx.remainingStudents, [])).2.1 := List.mem_of_mem_filter hs
        have hmarked := hcpF s hsST hmem
        have hcc := contains_iff_mem.mpr hmarked
        rw [hcc] at hcond
        simp at hcond
      have hokNext : ChainOk ctx.students n ((parseDifferentGroupInput cond.input).foldl (fun st pair => assignToDifferentGroups st.1 pair st.2.1 st.2.2) (ctx.groups, ctx.remainingStudents, [])).1 (List.filter (fun s => !(((parseDifferentGroupInput cond.input).foldl (fun st pair => assignToDifferentGroups st.1 pair st.2.1 st.2.2) (ctx.groups, ctx.remainingStudents, [])).2.2.contains s.id)) ((parseDifferentGroupInput cond.input).foldl (fun st pair => assignToDifferentGroups st.1 pair st.2.1 st.2.2) (ctx.groups, ctx.remainingStudents, [])).2.1) :=
        ⟨hlenF.trans hlen, hndF, hndFR, hmemGF, hmemFR, hdisjFR⟩
      by_cases hfr : (List.filter (fun s => !(((parseDifferentGroupInput cond.input).foldl (fun st pair => assignToDifferentGroups st.1 pair st.2.1 st.2.2) (ctx.groups, ctx.remainingStudents, [])).2.2.contains s.id)) ((parseDifferentGroupInput cond.input).foldl (fun st pair => assignToDifferentGroups st.1 pair st.2.1 st.2.2) (ctx.groups, ctx.remainingStudents, [])).2.1).length > 0
      · rw [if_pos hfr]
        have hnext := genderRatio_ok
          { ctx with groups := ((parseDifferentGroupInput cond.input).foldl (fun st pair => assignToDifferentGroups st.1 pair st.2.1 st.2.2) (ctx.groups, ctx.remainingStudents, [])).1, remainingStudents := (List.filter (fun s => !(((parseDifferentGroupInput cond.input).foldl (fun st pair => assignToDifferentGroups st.1 pair st.2.1 st.2.2) (ctx.groups, ctx.remainingStudents, [])).2.2.contains s.id)) ((parseDifferentGroupInput cond.input).foldl (fun st pair => assignToDifferentGroups st.1 pair st.2.1 st.2.2) (ctx.groups, ctx.remainingStudents, [])).2.1) } rnd n hgc hlaw hokNext
        by_cases hh : (genderRatioHandle
            { ctx with groups := ((parseDifferentGroupInput cond.input).foldl (fun st pair => assignToDifferentGroups st.1 pair st.2.1 st.2.2) (ctx.groups, ctx.remainingStudents, [])).1, remainingStudents := (List.filter (fun s => !(((parseDifferentGroupInput cond.input).foldl (fun st pair => assignToDifferentGroups st.1 pair st.2.1 st.2.2) (ctx.groups, ctx.remainingStudents, [])).2.2.contains s.id)) ((parseDifferentGroupInput cond.input).foldl (fun st pair => assignToDifferentGroups st.1 pair st.2.1 st.2.2) (ctx.groups, ctx.remainingStudents, [])).2.1) } rnd).handled = true
        · rw [if_pos hh]
          exact hnext
        · rw [if_neg hh]
          obtain ⟨hdl, hdperm⟩ := distributeRemaining_ok ((parseDifferentGroupInput cond.input).foldl (fun st pair => assignToDifferentGroups st.1 pair st.2.1 st.2.2) (ctx.groups, ctx.remainingStudents, [])).1 (List.filter (fun s => !(((parseDifferentGroupInput cond.input).foldl (fun st pair => assignToDifferentGroups st.1 pair st.2.1 st.2.2) (ctx.groups, ctx.remainingStudents, [])).2.2.contains s.id)) ((parseDifferentGroupInput cond.input).foldl (fun st pair => assignToDifferentGroups st.1 pair st.2.1 st.2.2) (ctx.groups, ctx.remainingStudents, [])).2.1) rnd.diffRemShuffle
            (by rw [hlenF, hlen]; exact hgc)
          refine ⟨hdl.trans (hlenF.trans hlen), ?_, by simp, ?_, by simp, by simp⟩
          · refine ((hdperm.map Student.id).nodup_iff).mpr ?_
            rw [List.map_append]
            refine List.Nodup.append hndF ?_ (disjoint_ids ?_)
            · exact (((hlaw.diffRem _).map Student.id).nodup_iff).mpr hndFR
            · intro x hx
              obtain ⟨t, ht, rfl⟩ := List.mem_map.mp hx
              exact hdisjFR t ((hlaw.diffRem _).subset ht)
          · intro s hs
            have := hdperm.subset hs
            rcases List.mem_append.mp this with h | h
            · exact hmemGF s h
            · exact hmemFR s ((hlaw.diffRem _).subset h)
      · rw [if_neg hfr]
        exact ⟨hlenF.trans hlen, hndF, by simp, hmemGF, by simp, by simp⟩

/-- `handle` at the different-group link preserves the chain invariant. -/
theorem differentGroup_ok (ctx : GroupingContext) (rnd : Rand) (n : Nat)
    (hgc : 0 < n) (hlaw : rnd.Lawful)
    (hok : ChainOk ctx.students n ctx.groups ctx.remainingStudents) :
    ChainOk ctx.students n (differentGroupHandle ctx rnd).groups
      (differentGroupHandle ctx rnd).remainingStudents := by
  rw [differentGroupHandle]
  by_cases hs : (differentGroupProcess ctx rnd).success = true
  · rw [hs]
    rw [if_neg (by simp)]
    exact differentGroupProcess_ok ctx rnd n hgc hlaw hok
  · rw [Bool.not_eq_true] at hs
    rw [hs]
    rw [if_pos (by simp)]
    exact genderRatio_ok ctx rnd n hgc hlaw hok

theorem sgPlaceFold_ok (students : List Student) (ti : Nat) :
    ∀ (av : List Int) (gs : List Group) (rem : List Student) (proc : List Int),
      av.Nodup →
      ((joinG gs).map Student.id).Nodup →
      (∀ s ∈ joinG gs, s ∈ students) →
      (∀ s ∈ rem, s ∈ students) →
      (∀ id ∈ av, id ∉ (joinG gs).map Student.id) →
      (av.foldl (sgPlace ti) (gs, rem, proc)).1.length = gs.length ∧
      ((joinG (av.foldl (sgPlace ti) (gs, rem, proc)).1).map Student.id).Nodup ∧
      (∀ s ∈ joinG (av.foldl (sgPlace ti) (gs, rem, proc)).1, s ∈ students) ∧
      (av.foldl (sgPlace ti) (gs, rem, proc)).2.1 = rem ∧
      (∀ x ∈ proc, x ∈ (av.foldl (sgPlace ti) (gs, rem, proc)).2.2) ∧
      (∀ x ∈ (joinG (av.foldl (sgPlace ti) (gs, rem, proc)).1).map Student.id,
        x ∈ (joinG gs).map Student.id ∨ x ∈ (av.foldl (sgPlace ti) (gs, rem, proc)).2.2) := by
  intro av
  induction av with
  | nil =>
    intro gs rem proc _ hnd hmemG hmemR _
    exact ⟨rfl, hnd, hmemG, rfl, fun x hx => hx, fun x hx => Or.inl hx⟩
  | cons id pr ih =>
    intro gs rem proc hN hnd hmemG hmemR hfr
    rw [List.foldl_cons, sgPlace]
    cases hf : rem.find? (fun s => s.id == id) with
    | none =>
      exact ih gs rem proc (List.nodup_cons.mp hN).2 hnd hmemG hmemR
        (fun id2 h2 => hfr id2 (List.mem_cons_of_mem _ h2))
    | some student =>
      dsimp only
      obtain ⟨hsmem, hsid⟩ := find_mem_and_id hf
      have hfresh : student.id ∉ (joinG gs).map Student.id := by
        rw [hsid]
        exact hfr id (List.mem_cons_self _ _)
      have hnd1 : ((joinG (pushStudent gs ti student)).map Student.id).Nodup :=
        push_nodup hnd hfresh
      have hmemG1 : ∀ s ∈ joinG (pushStudent gs ti student), s ∈ students := by
        intro s hs
        rcases push_mem hs with h | rfl
        · exact hmemG s h
        · exact hmemR s hsmem
      have hfr1 : ∀ id2 ∈ pr, id2 ∉ (joinG (pushStudent gs ti student)).map Student.id := by
        intro id2 h2 hmem
        rcases push_id_sub hmem with h | h
        · exact hfr id2 (List.mem_cons_of_mem _ h2) h
        · rw [hsid] at h
          subst h
          exact (List.nodup_cons.mp hN).1 h2
      obtain ⟨ihlen, ihnd, ihmem, ihrem, ihmono, ihids⟩ :=
        ih (pushStudent gs ti student) rem (insertSet proc id)
          (List.nodup_cons.mp hN).2 hnd1 hmemG1 hmemR hfr1
      refine ⟨ihlen.trans (length_pushStudent _ _ _), ihnd, ihmem, ihrem, ?_, ?_⟩
      · intro x hx
        exact ihmono x (mem_insertSet.mpr (Or.inl hx))
      · intro x hx
        rcases ihids x hx with h | h
        · rcases push_id_sub h with h2 | h2
          · exact Or.inl h2
          · refine Or.inr (ihmono _ (mem_insertSet.mpr (Or.inr ?_)))
            rw [← hsid]
            exact h2.symm ▸ rfl
        · exact Or.inr h

theorem sameGroupPairStep_ok (students : List Student)
    (st : List Group × List Student × List Int) (pair : List Int) (hpairN : pair.Nodup)
    (hnd : ((joinG st.1).map Student.id).Nodup)
    (hmemG : ∀ s ∈ joinG st.1, s ∈ students)
    (hmemR : ∀ s ∈ st.2.1, s ∈ students)
    (hcp : ∀ s ∈ st.2.1, s.id ∈ (joinG st.1).map Student.id → s.id ∈ st.2.2) :
    (sameGroupPairStep st pair).1.length = st.1.length ∧
    ((joinG (sameGroupPairStep st pair).1).map Student.id).Nodup ∧
    (∀ s ∈ joinG (sameGroupPairStep st pair).1, s ∈ students) ∧
    (sameGroupPairStep st pair).2.1 = st.2.1 ∧
    (∀ x ∈ st.2.2, x ∈ (sameGroupPairStep st pair).2.2) ∧
    (∀ s ∈ (sameGroupPairStep st pair).2.1,
      s.id ∈ (joinG (sameGroupPairStep st pair).1).map Student.id →
      s.id ∈ (sameGroupPairStep st pair).2.2) := by
  rw [sameGroupPairStep]
  by_cases hae : (pair.filter
      (fun id => st.2.1.any (fun s => s.id == id) && !(st.2.2.contains id))).isEmpty = true
  · rw [if_pos hae]
    exact ⟨rfl, hnd, hmemG, rfl, fun x hx => hx, hcp⟩
  · rw [if_neg hae]
    cases hfa : findAvailableGroup st.1 (pair.filter
        (fun id => st.2.1.any (fun s => s.id == id) && !(st.2.2.contains id))).length with
    | none => exact ⟨rfl, hnd, hmemG, rfl, fun x hx => hx, hcp⟩
    | some ti =>
      dsimp only
      have havN : (pair.filter
          (fun id => st.2.1.any (fun s => s.id == id) && !(st.2.2.contains id))).Nodup :=
        hpairN.filter _
      have havFresh : ∀ id ∈ pair.filter
          (fun id => st.2.1.any (fun s => s.id == id) && !(st.2.2.contains id)),
          id ∉ (joinG st.1).map Student.id := by
        intro id hid hmem
        have hcond := List.of_mem_filter hid
        rw [Bool.and_eq_true] at hcond
        obtain ⟨s0, hs0, hs0id⟩ := List.any_eq_true.mp hcond.1
        rw [beq_iff_eq] at hs0id
        have := hcp s0 hs0 (by rw [hs0id]; exact hmem)
        rw [hs0id] at this
        have hcc := contains_iff_mem.mpr this
        rw [hcc] at hcond
        simp at hcond
      obtain ⟨hlen, hnd2, hmem2, hrem2, hmono2, hids2⟩ :=
        sgPlaceFold_ok students ti _ st.1 st.2.1 st.2.2 havN hnd hmemG hmemR havFresh
      refine ⟨hlen, hnd2, hmem2, hrem2, hmono2, ?_⟩
      rw [hrem2]
      intro s hs hmem
      rcases hids2 _ hmem with h | h
      · exact hmono2 _ (hcp s hs h)
      · exact h

theorem sgPairsFold_ok (students : List Student) :
    ∀ (pairs : List (List Int)), (∀ p ∈ pairs, p.Nodup) →
      ∀ (st : List Group × List Student × List Int),
        ((joinG st.1).map Student.id).Nodup →
        (∀ s ∈ joinG st.1, s ∈ students) →
        (∀ s ∈ st.2.1, s ∈ students) →
        (∀ s ∈ st.2.1, s.id ∈ (joinG st.1).map Student.id → s.id ∈ st.2.2) →
        (pairs.foldl sameGroupPairStep st).1.length = st.1.length ∧
        ((joinG (pairs.foldl sameGroupPairStep st).1).map Student.id).Nodup ∧
        (∀ s ∈ joinG (pairs.foldl sameGroupPairStep st).1, s ∈ students) ∧
        (pairs.foldl sameGroupPairStep st).2.1 = st.2.1 ∧
        (∀ s ∈ (pairs.foldl sameGroupPairStep st).2.1,
          s.id ∈ (joinG (pairs.foldl sameGroupPairStep st).1).map Student.id →
          s.id ∈ (pairs.foldl sameGroupPairStep st).2.2) := by
  intro pairs
  induction pairs with
  | nil =>
    intro _ st hnd hmemG hmemR hcp
    exact ⟨rfl, hnd, hmemG, rfl, hcp⟩
  | cons pair prs ih =>
    intro hN st hnd hmemG hmemR hcp
    rw [List.foldl_cons]
    obtain ⟨hlen1, hnd1, hmemG1, hrem1, _, hcp1⟩ :=
      sameGroupPairStep_ok students st pair (hN pair (List.mem_cons_self _ _))
        hnd hmemG hmemR hcp
    obtain ⟨ihlen, ihnd, ihmem, ihrem, ihcp⟩ :=
      ih (fun p hp => hN p (List.mem_cons_of_mem _ hp)) (sameGroupPairStep st pair)
        hnd1 hmemG1 (by rw [hrem1]; exact hmemR) hcp1
    exact ⟨ihlen.trans hlen1, ihnd, ihmem, ihrem.trans hrem1, ihcp⟩

/-- The same-group handler body preserves the chain invariant. -/
theorem sameGroupProcess_ok (ctx : GroupingContext) (rnd : Rand) (n : Nat)
    (hgc : 0 < n) (hlaw : rnd.Lawful)
    (hok : ChainOk ctx.students n ctx.groups ctx.remainingStudents) :
    ChainOk ctx.students n (sameGroupProcess ctx rnd).groups
      (sameGroupProcess ctx rnd).remainingStudents := by
  obtain ⟨hlen, hndG, hndR, hmemG, hmemR, hdisj⟩ := hok
  rw [sameGroupProcess]
  cases hf : ctx.conditions.find? (fun c => c.type == CType.sameGroup && c.enabled) with
  | none => exact ⟨hlen, hndG, hndR, hmemG, hmemR, hdisj⟩
  | some cond =>
    dsimp only
    by_cases hpe : (parseSameGroupInput cond.input).isEmpty = true
    · rw [if_pos hpe]
      exact ⟨hlen, hndG, hndR, hmemG, hmemR, hdisj⟩
    · rw [if_neg hpe]
      have hpairsN : ∀ p ∈ parseSameGroupInput cond.input, p.Nodup :=
        fun p hp => (parseSameGroupInput_mem hp).1
      obtain ⟨hlenF, hndF, hmemGF, hremF, hcpF⟩ :=
        sgPairsFold_ok ctx.students (parseSameGroupInput cond.input) hpairsN
          (ctx.groups, ctx.remainingStudents, [])
          hndG hmemG hmemR (fun s hs hmem => ((hdisj s hs) hmem).elim)
      have hmemRF : ∀ s ∈ ((parseSameGroupInput cond.input).foldl sameGroupPairStep (ctx.groups, ctx.remainingStudents, [])).2.1, s ∈ ctx.students := by
        rw [hremF]
        exact hmemR
      have hndFR : ((List.filter (fun s => !(((parseSameGroupInput cond.input).foldl sameGroupPairStep (ctx.groups, ctx.remainingStudents, [])).2.2.contains s.id)) ((parseSameGroupInput cond.input).foldl sameGroupPairStep (ctx.groups, ctx.remainingStudents, [])).2.1).map Student.id).Nodup := by
        rw [hremF]
        exact hndR.sublist ((List.filter_sublist _).map Student.id)
      have hmemFR : ∀ s ∈ (List.filter (fun s => !(((parseSameGroupInput cond.input).foldl sameGroupPairStep (ctx.groups, ctx.remainingStudents, [])).2.2.contains s.id)) ((parseSameGroupInput cond.input).foldl sameGroupPairStep (ctx.groups, ctx.remainingStudents, [])).2.1), s ∈ ctx.students :=
        fun s hs => hmemRF s (List.mem_of_mem_filter hs)
      have hdisjFR : ∀ s ∈ (List.filter (fun s => !(((parseSameGroupInput cond.input).foldl sameGroupPairStep (ctx.groups, ctx.remainingStudents, [])).2.2.contains s.id)) ((parseSameGroupInput cond.input).foldl sameGroupPairStep (ctx.groups, ctx.remainingStudents, [])).2.1), s.id ∉ (joinG ((parseSameGroupInput cond.input).foldl sameGroupPairStep (ctx.groups, ctx.remainingStudents, [])).1).map Student.id := by
        intro s hs hmem
        have hcond := List.of_mem_filter hs
        have hsST : s ∈ ((parseSameGroupInput cond.input).foldl sameGroupPairStep (ctx.groups, ctx.remainingStudents, [])).2.1 := List.mem_of_mem_filter hs
        have hmarked := hcpF s hsST hmem
        have hcc := contains_iff_mem.mpr hmarked
        rw [hcc] at hcond
        simp at hcond
      have hokNext : ChainOk ctx.students n ((parseSameGroupInput cond.input).foldl sameGroupPairStep (ctx.groups, ctx.remainingStudents, [])).1 (List.filter (fun s => !(((parseSameGroupInput cond.input).foldl sameGroupPairStep (ctx.groups, ctx.remainingStudents, [])).2.2.contains s.id)) ((parseSameGroupInput cond.input).foldl sameGroupPairStep (ctx.groups, ctx.remainingStudents, [])).2.1) :=
        ⟨hlenF.trans hlen, hndF, hndFR, hmemGF, hmemFR, hdisjFR⟩
      by_cases hfr : (List.filter (fun s => !(((parseSameGroupInput cond.input).foldl sameGroupPairStep (ctx.groups, ctx.remainingStudents, [])).2.2.contains s.id)) ((parseSameGroupInput cond.input).foldl sameGroupPairStep (ctx.groups, ctx.remainingStudents, [])).2.1).length > 0
      · rw [if_pos hfr]
        have hnext := differentGroup_ok
          { ctx with groups := ((parseSameGroupInput cond.input).foldl sameGroupPairStep (ctx.groups, ctx.remainingStudents, [])).1, remainingStudents := (List.filter (fun s => !(((parseSameGroupInput cond.input).foldl sameGroupPairStep (ctx.groups, ctx.remainingStudents, [])).2.2.contains s.id)) ((parseSameGroupInput cond.input).foldl sameGroupPairStep (ctx.groups, ctx.remainingStudents, [])).2.1) } rnd n hgc hlaw hokNext
        by_cases hh : (differentGroupHandle
            { ctx with groups := ((parseSameGroupInput cond.input).foldl sameGroupPairStep (ctx.groups, ctx.remainingStudents, [])).1, remainingStudents := (List.filter (fun s => !(((parseSameGroupInput cond.input).foldl sameGroupPairStep (ctx.groups, ctx.remainingStudents, [])).2.2.contains s.id)) ((parseSameGroupInput cond.input).foldl sameGroupPairStep (ctx.groups, ctx.remainingStudents, [])).2.1) } rnd).handled = true
        · rw [if_pos hh]
          exact hnext
        · rw [if_neg hh]
          obtain ⟨hdl, hdperm⟩ := distributeRemaining_ok ((parseSameGroupInput cond.input).foldl sameGroupPairStep (ctx.groups, ctx.remainingStudents, [])).1 (List.filter (fun s => !(((parseSameGroupInput cond.input).foldl sameGroupPairStep (ctx.groups, ctx.remainingStudents, [])).2.2.contains s.id)) ((parseSameGroupInput cond.input).foldl sameGroupPairStep (ctx.groups, ctx.remainingStudents, [])).2.1) rnd.sameRemShuffle
            (by rw [hlenF, hlen]; exact hgc)
          refine ⟨hdl.trans (hlenF.trans hlen), ?_, by simp, ?_, by simp, by simp⟩
          · refine ((hdperm.map Student.id).nodup_iff).mpr ?_
            rw [List.map_append]
            refine List.Nodup.append hndF ?_ (disjoint_ids ?_)
            · exact (((hlaw.sameRem _).map Student.id).nodup_iff).mpr hndFR
            · intro x hx
              obtain ⟨t, ht, rfl⟩ := List.mem_map.mp hx
              exact hdisjFR t ((hlaw.sameRem _).subset ht)
          · intro s hs
            have := hdperm.subset hs
            rcases List.mem_append.mp this with h | h
            · exact hmemGF s h
            · exact hmemFR s ((hlaw.sameRem _).subset h)
      · rw [if_neg hfr]
        exact ⟨hlenF.trans hlen, hndF, by simp, hmemGF, by simp, by simp⟩

/-- `handle` at the same-group link preserves the chain invariant. -/
theorem sameGroup_ok (ctx : GroupingContext) (rnd : Rand) (n : Nat)
    (hgc : 0 < n) (hlaw : rnd.Lawful)
    (hok : ChainOk ctx.students n ctx.groups ctx.remainingStudents) :
    ChainOk ctx.students n (sameGroupHandle ctx rnd).groups
      (sameGroupHandle ctx rnd).remainingStudents := by
  rw [sameGroupHandle]
  by_cases hs : (sameGroupProcess ctx rnd).success = true
  · rw [hs]
    rw [if_neg (by simp)]
    exact sameGroupProcess_ok ctx rnd n hgc hlaw hok
  · rw [Bool.not_eq_true] at hs
    rw [hs]
    rw [if_pos (by simp)]
    exact differentGroup_ok ctx rnd n hgc hlaw hok

theorem flatten_decomp {ls : List (List Student)} {i : Nat} (h : i < ls.length) :
    ls.flatten = (ls.take i).flatten ++ ls.getD i [] ++ (ls.drop (i + 1)).flatten := by
  conv_lhs => rw [← List.take_append_drop i ls]
  rw [List.flatten_append, List.drop_eq_getElem_cons h, List.flatten_cons]
  have hg : ls.getD i [] = ls[i] := by
    rw [List.getD_eq_getElem?_getD, List.getElem?_eq_getElem h]
    rfl
  rw [hg]
  simp

theorem flatten_set_subperm (ls : List (List Student)) (i : Nat) (s : Student) :
    (ls.set i ((ls.getD i []) ++ [s])).flatten <+~ ls.flatten ++ [s] := by
  by_cases h : i < ls.length
  · refine List.Perm.subperm ?_
    rw [List.set_eq_take_append_cons_drop, if_pos h]
    rw [List.flatten_append, List.flatten_cons]
    conv_rhs => rw [flatten_decomp h]
    simp only [List.perm_iff_count, List.count_append]
    intro a
    omega
  · rw [List.set_eq_of_length_le (Nat.le_of_not_lt h)]
    exact (List.sublist_append_left _ _).subperm

theorem blockBucketFold_ok (blocks : List (List Int)) :
    ∀ (rem : List Student) (st : List (List Student) × List Int),
      (rem.foldl (blockBucket blocks) st).1.flatten <+~ st.1.flatten ++ rem ∧
      (∀ s ∈ (rem.foldl (blockBucket blocks) st).1.flatten,
        s ∈ st.1.flatten ∨ s.id ∈ (rem.foldl (blockBucket blocks) st).2) ∧
      (∀ x ∈ st.2, x ∈ (rem.foldl (blockBucket blocks) st).2) := by
  intro rem
  induction rem with
  | nil =>
    intro st
    exact ⟨(List.sublist_append_left _ _).subperm, fun s hs => Or.inl hs, fun x hx => hx⟩
  | cons s pr ih =>
    intro st
    rw [List.foldl_cons, blockBucket]
    cases hl : blockMapLookup blocks s.id with
    | none =>
      obtain ⟨ihsub, ihmem, ihmono⟩ := ih st
      refine ⟨?_, ihmem, ihmono⟩
      refine ihsub.trans ?_
      refine List.Sublist.subperm ?_
      exact (List.sublist_cons_self s pr).append_left st.1.flatten
    | some bi =>
      dsimp only
      obtain ⟨ihsub, ihmem, ihmono⟩ :=
        ih (st.1.set bi ((st.1.getD bi []) ++ [s]), insertSet st.2 s.id)
      have hstep := flatten_set_subperm st.1 bi s
      refine ⟨?_, ?_, ?_⟩
      · refine ihsub.trans ?_
        refine ((List.subperm_append_right pr).mpr hstep).trans ?_
        refine List.Perm.subperm (List.Perm.of_eq ?_)
        simp
      · intro t ht
        rcases ihmem t ht with h | h
        · rcases List.mem_append.mp (hstep.subset h) with h2 | h2
          · exact Or.inl h2
          · rw [List.mem_singleton] at h2
            subst h2
            exact Or.inr (ihmono _ (mem_insertSet.mpr (Or.inr rfl)))
        · exact Or.inr h
      · intro x hx
        exact ihmono x (mem_insertSet.mpr (Or.inl hx))

theorem pumpFold_ok (rnd : Rand) :
    ∀ (bs : List (Nat × List Student)) (gs : List Group) (cur : Nat), cur < gs.length →
      (bs.foldl (fun (st : List Group × Nat) bi =>
        roundRobinPump st.1 st.2 (rnd.blockShuffle bi.1 bi.2)) (gs, cur)).1.length =
        gs.length ∧
      joinG (bs.foldl (fun (st : List Group × Nat) bi =>
        roundRobinPump st.1 st.2 (rnd.blockShuffle bi.1 bi.2)) (gs, cur)).1 ~
        joinG gs ++ (bs.map (fun bi => rnd.blockShuffle bi.1 bi.2)).flatten := by
  intro bs
  induction bs with
  | nil => intro gs cur hcur; exact ⟨rfl, by simp⟩
  | cons b pr ih =>
    intro gs cur hcur
    have hpos : 0 < gs.length := Nat.lt_of_le_of_lt (Nat.zero_le _) hcur
    rw [List.foldl_cons]
    have hplen : (roundRobinPump gs cur (rnd.blockShuffle b.1 b.2)).1.length = gs.length :=
      roundRobinPump_length _ _ _
    have hcur1 : (roundRobinPump gs cur (rnd.blockShuffle b.1 b.2)).2 <
        (roundRobinPump gs cur (rnd.blockShuffle b.1 b.2)).1.length := by
      rw [hplen, roundRobinPump_snd _ _ _ hpos hcur]
      exact Nat.mod_lt _ hpos
    obtain ⟨ihlen, ihperm⟩ := ih (roundRobinPump gs cur (rnd.blockShuffle b.1 b.2)).1
      (roundRobinPump gs cur (rnd.blockShuffle b.1 b.2)).2 hcur1
    refine ⟨ihlen.trans hplen, ?_⟩
    refine ihperm.trans ?_
    refine ((roundRobinPump_joinG _ _ _ hcur).append_right _).trans ?_
    refine List.Perm.of_eq ?_
    simp

theorem flatten_shuffles_perm (rnd : Rand) (hlaw : rnd.Lawful)
    (bs : List (Nat × List Student)) :
    (bs.map (fun bi => rnd.blockShuffle bi.1 bi.2)).flatten ~ (bs.map Prod.snd).flatten := by
  induction bs with
  | nil => simp
  | cons b rest ih =>
    simp only [List.map_cons, List.flatten_cons]
    exact (hlaw.block b.1 b.2).append ih

/-- The block-distribution handler body preserves the chain invariant. -/
theorem blockDistributionProcess_ok (ctx : GroupingContext) (rnd : Rand) (n : Nat)
    (hgc : 0 < n) (hlaw : rnd.Lawful)
    (hok : ChainOk ctx.students n ctx.groups ctx.remainingStudents) :
    ChainOk ctx.students n (blockDistributionProcess ctx rnd).groups
      (blockDistributionProcess ctx rnd).remainingStudents := by
  obtain ⟨hlen, hndG, hndR, hmemG, hmemR, hdisj⟩ := hok
  rw [blockDistributionProcess]
  cases hf : ctx.conditions.find? (fun c => c.type == CType.blockDist && c.enabled) with
  | none => exact ⟨hlen, hndG, hndR, hmemG, hmemR, hdisj⟩
  | some cond =>
    dsimp only
    by_cases hpe : (parsedBlocks cond.blockInputs).isEmpty = true
    · rw [if_pos hpe]
      exact ⟨hlen, hndG, hndR, hmemG, hmemR, hdisj⟩
    · rw [if_neg hpe]
      simp only [distributeBlockStudents, buildBlockGroups]
      have hpos : 0 < ctx.groups.length := by rw [hlen]; exact hgc
      obtain ⟨hbsub, hbmem, _⟩ := blockBucketFold_ok (parsedBlocks cond.blockInputs)
        ctx.remainingStudents ((parsedBlocks cond.blockInputs).map (fun _ => []), [])
      dsimp only at hbsub hbmem
      have hzn : ((parsedBlocks cond.blockInputs).map
          (fun _ => ([] : List Student))).flatten = [] := by simp
      rw [hzn, List.nil_append] at hbsub
      rw [hzn] at hbmem
      simp only [List.not_mem_nil, false_or] at hbmem
      obtain ⟨hplen, hpperm⟩ := pumpFold_ok rnd (ctx.remainingStudents.foldl (blockBucket (parsedBlocks cond.blockInputs)) ((parsedBlocks cond.blockInputs).map (fun _ => []), [])).1.enum ctx.groups 0 hpos
      have hJperm : joinG ((ctx.remainingStudents.foldl (blockBucket (parsedBlocks cond.blockInputs)) ((parsedBlocks cond.blockInputs).map (fun _ => []), [])).1.enum.foldl (fun (st : List Group × Nat) bi => roundRobinPump st.1 st.2 (rnd.blockShuffle bi.1 bi.2)) (ctx.groups, 0)).1 ~ joinG ctx.groups ++ (ctx.remainingStudents.foldl (blockBucket (parsedBlocks cond.blockInputs)) ((parsedBlocks cond.blockInputs).map (fun _ => []), [])).1.flatten := by
        refine hpperm.trans ?_
        refine List.Perm.append_left _ ?_
        refine (flatten_shuffles_perm rnd hlaw _).trans ?_
        rw [List.enum_map_snd]
      have hndflat : ((ctx.remainingStudents.foldl (blockBucket (parsedBlocks cond.blockInputs)) ((parsedBlocks cond.blockInputs).map (fun _ => []), [])).1.flatten.map Student.id).Nodup :=
        nodup_of_subperm (subperm_map Student.id hbsub) hndR
      have hmemflat : ∀ s ∈ (ctx.remainingStudents.foldl (blockBucket (parsedBlocks cond.blockInputs)) ((parsedBlocks cond.blockInputs).map (fun _ => []), [])).1.flatten, s ∈ ctx.students :=
        fun s hs => hmemR s (hbsub.subset hs)
      have hndG2 : ((joinG ((ctx.remainingStudents.foldl (blockBucket (parsedBlocks cond.blockInputs)) ((parsedBlocks cond.blockInputs).map (fun _ => []), [])).1.enum.foldl (fun (st : List Group × Nat) bi => roundRobinPump st.1 st.2 (rnd.blockShuffle bi.1 bi.2)) (ctx.groups, 0)).1).map Student.id).Nodup := by
        refine ((hJperm.map Student.id).nodup_iff).mpr ?_
        rw [List.map_append]
        refine List.Nodup.append hndG hndflat (disjoint_ids ?_)
        intro x hx
        obtain ⟨t, ht, rfl⟩ := List.mem_map.mp hx
        exact hdisj t (hbsub.subset ht)
      have hmemG2 : ∀ s ∈ joinG ((ctx.remainingStudents.foldl (blockBucket (parsedBlocks cond.blockInputs)) ((parsedBlocks cond.blockInputs).map (fun _ => []), [])).1.enum.foldl (fun (st : List Group × Nat) bi => roundRobinPump st.1 st.2 (rnd.blockShuffle bi.1 bi.2)) (ctx.groups, 0)).1, s ∈ ctx.students := by
        intro s hs
        rcases List.mem_append.mp (hJperm.subset hs) with h | h
        · exact hmemG s h
        · exact hmemflat s h
      have hndFR : ((List.filter (fun s => !((ctx.remainingStudents.foldl (blockBucket (parsedBlocks cond.blockInputs)) ((parsedBlocks cond.blockInputs).map (fun _ => []), [])).2.contains s.id)) ctx.remainingStudents).map Student.id).Nodup :=
        hndR.sublist ((List.filter_sublist _).map Student.id)
      have hmemFR : ∀ s ∈ (List.filter (fun s => !((ctx.remainingStudents.foldl (blockBucket (parsedBlocks cond.blockInputs)) ((parsedBlocks cond.blockInputs).map (fun _ => []), [])).2.contains s.id)) ctx.remainingStudents), s ∈ ctx.students :=
        fun s hs => hmemR s (List.mem_of_mem_filter hs)
      have hdisjFR : ∀ s ∈ (List.filter (fun s => !((ctx.remainingStudents.foldl (blockBucket (parsedBlocks cond.blockInputs)) ((parsedBlocks cond.blockInputs).map (fun _ => []), [])).2.contains s.id)) ctx.remainingStudents), s.id ∉ (joinG ((ctx.remainingStudents.foldl (blockBucket (parsedBlocks cond.blockInputs)) ((parsedBlocks cond.blockInputs).map (fun _ => []), [])).1.enum.foldl (fun (st : List Group × Nat) bi => roundRobinPump st.1 st.2 (rnd.blockShuffle bi.1 bi.2)) (ctx.groups, 0)).1).map Student.id := by
        intro s hs hmem
        have hcond := List.of_mem_filter hs
        have hmem2 := ((hJperm.map Student.id).mem_iff).mp hmem
        rw [List.map_append, List.mem_append] at hmem2
        rcases hmem2 with h | h
        · exact hdisj s (List.mem_of_mem_filter hs) h
        · obtain ⟨t, ht, htid⟩ := List.mem_map.mp h
          have hmark := hbmem t ht
          rw [htid] at hmark
          have hcc := contains_iff_mem.mpr hmark
          rw [hcc] at hcond
          simp at hcond
      have hokNext : ChainOk ctx.students n ((ctx.remainingStudents.foldl (blockBucket (parsedBlocks cond.blockInputs)) ((parsedBlocks cond.blockInputs).map (fun _ => []), [])).1.enum.foldl (fun (st : List Group × Nat) bi => roundRobinPump st.1 st.2 (rnd.blockShuffle bi.1 bi.2)) (ctx.groups, 0)).1 (List.filter (fun s => !((ctx.remainingStudents.foldl (blockBucket (parsedBlocks cond.blockInputs)) ((parsedBlocks cond.blockInputs).map (fun _ => []), [])).2.contains s.id)) ctx.remainingStudents) :=
        ⟨hplen.trans hlen, hndG2, hndFR, hmemG2, hmemFR, hdisjFR⟩
      by_cases hfr : (List.filter (fun s => !((ctx.remainingStudents.foldl (blockBucket (parsedBlocks cond.blockInputs)) ((parsedBlocks cond.blockInputs).map (fun _ => []), [])).2.contains s.id)) ctx.remainingStudents).length > 0
      · rw [if_pos hfr]
        have hnext := sameGroup_ok
          { ctx with groups := ((ctx.remainingStudents.foldl (blockBucket (parsedBlocks cond.blockInputs)) ((parsedBlocks cond.blockInputs).map (fun _ => []), [])).1.enum.foldl (fun (st : List Group × Nat) bi => roundRobinPump st.1 st.2 (rnd.blockShuffle bi.1 bi.2)) (ctx.groups, 0)).1, remainingStudents := (List.filter (fun s => !((ctx.remainingStudents.foldl (blockBucket (parsedBlocks cond.blockInputs)) ((parsedBlocks cond.blockInputs).map (fun _ => []), [])).2.contains s.id)) ctx.remainingStudents) } rnd n hgc hlaw hokNext
        by_cases hh : (sameGroupHandle
            { ctx with groups := ((ctx.remainingStudents.foldl (blockBucket (parsedBlocks cond.blockInputs)) ((parsedBlocks cond.blockInputs).map (fun _ => []), [])).1.enum.foldl (fun (st : List Group × Nat) bi => roundRobinPump st.1 st.2 (rnd.blockShuffle bi.1 bi.2)) (ctx.groups, 0)).1, remainingStudents := (List.filter (fun s => !((ctx.remainingStudents.foldl (blockBucket (parsedBlocks cond.blockInputs)) ((parsedBlocks cond.blockInputs).map (fun _ => []), [])).2.contains s.id)) ctx.remainingStudents) } rnd).handled = true
        · rw [if_pos hh]
          exact hnext
        · rw [if_neg hh]
          obtain ⟨hdl, hdperm⟩ := distributeRemaining_ok ((ctx.remainingStudents.foldl (blockBucket (parsedBlocks cond.blockInputs)) ((parsedBlocks cond.blockInputs).map (fun _ => []), [])).1.enum.foldl (fun (st : List Group × Nat) bi => roundRobinPump st.1 st.2 (rnd.blockShuffle bi.1 bi.2)) (ctx.groups, 0)).1 (List.filter (fun s => !((ctx.remainingStudents.foldl (blockBucket (parsedBlocks cond.blockInputs)) ((parsedBlocks cond.blockInputs).map (fun _ => []), [])).2.contains s.id)) ctx.remainingStudents) rnd.blockRemShuffle
            (by rw [hplen, hlen]; exact hgc)
          refine ⟨hdl.trans (hplen.trans hlen), ?_, by simp, ?_, by simp, by simp⟩
          · refine ((hdperm.map Student.id).nodup_iff).mpr ?_
            rw [List.map_append]
            refine List.Nodup.append hndG2 ?_ (disjoint_ids ?_)
            · exact (((hlaw.blockRem _).map Student.id).nodup_iff).mpr hndFR
            · intro x hx
              obtain ⟨t, ht, rfl⟩ := List.mem_map.mp hx
              exact hdisjFR t ((hlaw.blockRem _).subset ht)
          · intro s hs
            have := hdperm.subset hs
            rcases List.mem_append.mp this with h | h
            · exact hmemG2 s h
            · exact hmemFR s ((hlaw.blockRem _).subset h)
      · rw [if_neg hfr]
        exact ⟨hplen.trans hlen, hndG2, by simp, hmemG2, by simp, by simp⟩

/-- The whole handler chain preserves the chain invariant. -/
theorem blockDistribution_ok (ctx : GroupingContext) (rnd : Rand) (n : Nat)
    (hgc : 0 < n) (hlaw : rnd.Lawful)
    (hok : ChainOk ctx.students n ctx.groups ctx.remainingStudents) :
    ChainOk ctx.students n (blockDistributionHandle ctx rnd).groups
      (blockDistributionHandle ctx rnd).remainingStudents := by
  rw [blockDistributionHandle]
  by_cases hs : (blockDistributionProcess ctx rnd).success = true
  · rw [hs]
    rw [if_neg (by simp)]
    exact blockDistributionProcess_ok ctx rnd n hgc hlaw hok
  · rw [Bool.not_eq_true] at hs
    rw [hs]
    rw [if_pos (by simp)]
    exact sameGroup_ok ctx rnd n hgc hlaw hok

/-! ## The equalizer corollaries and the end-to-end partition theorem -/

theorem forceEqual_join (groups : List Group) (roster : List Student) (rnd : Rand)
    (hgc : 0 < groups.length) (hlaw : rnd.Lawful) :
    joinG (forceEqualDistribution groups roster rnd) ~ distributePool groups roster := by
  rw [forceEqual_eq_maleFirst groups roster rnd hgc hlaw]
  exact maleFirst_join groups roster rnd hgc hlaw

theorem forceEqual_sizes (groups : List Group) (roster : List Student) (rnd : Rand)
    (hgc : 0 < groups.length) (hlaw : rnd.Lawful) :
    (forceEqualDistribution groups roster rnd).map (fun g => g.students.length) =
      (List.range groups.length).map (fun j =>
        (distributePool groups roster).length / groups.length +
          if j < (distributePool groups roster).length % groups.length then 1 else 0) := by
  rw [forceEqual_eq_maleFirst groups roster rnd hgc hlaw]
  exact maleFirst_sizes groups roster rnd hgc hlaw

theorem forceEqual_length (groups : List Group) (roster : List Student) (rnd : Rand)
    (hgc : 0 < groups.length) (hlaw : rnd.Lawful) :
    (forceEqualDistribution groups roster rnd).length = groups.length := by
  rw [forceEqual_eq_maleFirst groups roster rnd hgc hlaw]
  exact maleFirst_length groups roster rnd hgc hlaw

theorem joinG_initGroups (gc : Nat) : joinG (initializeGroups gc) = [] := by
  rw [initializeGroups]
  refine joinG_empty ?_
  intro g hg
  obtain ⟨i, _, rfl⟩ := List.mem_map.mp hg
  rfl

theorem initializeGroups_length (gc : Nat) : (initializeGroups gc).length = gc := by
  rw [initializeGroups]
  simp

/-- The partition theorem for the whole engine: the students placed by
`performGrouping` are, as a multiset, exactly the roster. -/
theorem performGrouping_join (students : List Student) (gc : Nat) (conds : List CondState)
    (rnd : Rand) (hgc : 0 < gc) (hnd : (students.map Student.id).Nodup) (hlaw : rnd.Lawful) :
    joinG (performGrouping students gc conds rnd) ~ students := by
  rw [performGrouping]
  have hok0 : ChainOk students gc (initializeGroups gc) students := by
    refine ⟨initializeGroups_length gc, ?_, hnd, ?_, fun s hs => hs, ?_⟩
    · rw [joinG_initGroups]
      simp
    · rw [joinG_initGroups]
      simp
    · rw [joinG_initGroups]
      simp
  obtain ⟨hclen, hcnd, _, hcmemG, _, _⟩ :=
    blockDistribution_ok ⟨students, initializeGroups gc, conds, students⟩ rnd gc hgc hlaw hok0
  by_cases hh : (blockDistributionHandle
      ⟨students, initializeGroups gc, conds, students⟩ rnd).handled = true
  · rw [if_pos hh]
    refine (forceEqual_join _ students rnd (by rw [hclen]; exact hgc) hlaw).trans ?_
    exact distributePool_perm hnd hcnd hcmemG
  · rw [if_neg hh]
    refine (forceEqual_join _ students rnd
      (by rw [initializeGroups_length]; exact hgc) hlaw).trans ?_
    refine distributePool_perm hnd ?_ ?_
    · rw [joinG_initGroups]
      simp
    · rw [joinG_initGroups]
      simp

/-- The size theorem for the whole engine: the returned group sizes are the
balanced targets for some total `T`. -/
theorem performGrouping_sizes (students : List Student) (gc : Nat) (conds : List CondState)
    (rnd : Rand) (hgc : 0 < gc) (hnd : (students.map Student.id).Nodup) (hlaw : rnd.Lawful) :
    ∃ T : Nat, (performGrouping students gc conds rnd).map (fun g => g.students.length) =
      (List.range gc).map (fun j => T / gc + if j < T % gc then 1 else 0) := by
  rw [performGrouping]
  have hok0 : ChainOk students gc (initializeGroups gc) students := by
    refine ⟨initializeGroups_length gc, ?_, hnd, ?_, fun s hs => hs, ?_⟩
    · rw [joinG_initGroups]
      simp
    · rw [joinG_initGroups]
      simp
    · rw [joinG_initGroups]
      simp
  obtain ⟨hclen, _, _, _, _, _⟩ :=
    blockDistribution_ok ⟨students, initializeGroups gc, conds, students⟩ rnd gc hgc hlaw hok0
  by_cases hh : (blockDistributionHandle
      ⟨students, initializeGroups gc, conds, students⟩ rnd).handled = true
  · rw [if_pos hh]
    refine ⟨(distributePool (blockDistributionHandle
      ⟨students, initializeGroups gc, conds, students⟩ rnd).groups students).length, ?_⟩
    have hs := forceEqual_sizes _ students rnd (by rw [hclen]; exact hgc) hlaw
    rw [hs, hclen]
  · rw [if_neg hh]
    refine ⟨(distributePool (initializeGroups gc) students).length, ?_⟩
    have hs := forceEqual_sizes (initializeGroups gc) students rnd
      (by rw [initializeGroups_length]; exact hgc) hlaw
    rw [hs, initializeGroups_length]

theorem performGrouping_length (students : List Student) (gc : Nat) (conds : List CondState)
    (rnd : Rand) (hgc : 0 < gc) (hnd : (students.map Student.id).Nodup) (hlaw : rnd.Lawful) :
    (performGrouping students gc conds rnd).length = gc := by
  rw [performGrouping]
  have hok0 : ChainOk students gc (initializeGroups gc) students := by
    refine ⟨initializeGroups_length gc, ?_, hnd, ?_, fun s hs => hs, ?_⟩
    · rw [joinG_initGroups]
      simp
    · rw [joinG_initGroups]
      simp
    · rw [joinG_initGroups]
      simp
  obtain ⟨hclen, _, _, _, _, _⟩ :=
    blockDistribution_ok ⟨students, initializeGroups gc, conds, students⟩ rnd gc hgc hlaw hok0
  by_cases hh : (blockDistributionHandle
      ⟨students, initializeGroups gc, conds, students⟩ rnd).handled = true
  · rw [if_pos hh]
    rw [forceEqual_length _ students rnd (by rw [hclen]; exact hgc) hlaw]
    exact hclen
  · rw [if_neg hh]
    rw [forceEqual_length _ students rnd (by rw [initializeGroups_length]; exact hgc) hlaw]
    exact initializeGroups_length gc

theorem pumpFold_eq_pump (rnd : Rand) :
    ∀ (bs : List (Nat × List Student)) (gs : List Group) (cur : Nat), cur < gs.length →
      bs.foldl (fun (st : List Group × Nat) bi =>
        roundRobinPump st.1 st.2 (rnd.blockShuffle bi.1 bi.2)) (gs, cur) =
      roundRobinPump gs cur ((bs.map (fun bi => rnd.blockShuffle bi.1 bi.2)).flatten) := by
  intro bs
  induction bs with
  | nil => intro gs cur _; rfl
  | cons b pr ih =>
    intro gs cur hcur
    have hpos : 0 < gs.length := Nat.lt_of_le_of_lt (Nat.zero_le _) hcur
    rw [List.foldl_cons, List.map_cons, List.flatten_cons, roundRobinPump_append]
    have hplen : (roundRobinPump gs cur (rnd.blockShuffle b.1 b.2)).1.length = gs.length :=
      roundRobinPump_length _ _ _
    have hcur1 : (roundRobinPump gs cur (rnd.blockShuffle b.1 b.2)).2 <
        (roundRobinPump gs cur (rnd.blockShuffle b.1 b.2)).1.length := by
      rw [hplen, roundRobinPump_snd _ _ _ hpos hcur]
      exact Nat.mod_lt _ hpos
    rcases hp : roundRobinPump gs cur (rnd.blockShuffle b.1 b.2) with ⟨gs1, cur1⟩
    rw [hp] at hcur1
    dsimp only
    dsimp only at hcur1
    exact ih gs1 cur1 hcur1

/-- The separation behaviour actually implemented for a two-member cluster
whose placed members sit in the same group: the first stays, the second is
evicted and pushed into the least-occupied other group. -/
theorem pair_separates (gs : List Group) (x y : Int) (i : Nat)
    (rem : List Student) (proc : List Int)
    (hxy : x ≠ y) (hx : lastGroupOf gs x = some i) (hy : lastGroupOf gs y = some i)
    (h2 : 2 ≤ gs.length) :
    (∃ s ∈ ((assignToDifferentGroups gs [x, y] rem proc).1.getD i default).students,
      s.id = x) ∧
    (∀ s ∈ ((assignToDifferentGroups gs [x, y] rem proc).1.getD i default).students,
      s.id ≠ y) ∧
    (∃ j, j ≠ i ∧ j < (assignToDifferentGroups gs [x, y] rem proc).1.length ∧
      ∃ s ∈ ((assignToDifferentGroups gs [x, y] rem proc).1.getD j default).students,
        s.id = y) := by
  have hilt : i < gs.length := (lastGroupOf_some_spec hx).1
  have hplaced : pairPlacedIds gs [x, y] = [x, y] := by
    simp [pairPlacedIds, hx, hy]
  have hvals : pairGroupValues gs [x, y] = [i] := by
    rw [pairGroupValues, hplaced]
    simp [hx, hy, jsDedup, jsDedup.go, insertSet]
  simp only [assignToDifferentGroups, hvals]
  rw [if_neg (by simp)]
  rw [if_pos (by simp)]
  dsimp only
  have hconflict : ([i].headD 0) = i := rfl
  rw [hconflict]
  have hinc : List.filter (fun id => lastGroupOf gs id == some i) [x, y] = [x, y] := by
    simp [hx, hy]
  rw [hinc]
  have hdrop : List.drop 1 [x, y] = [y] := rfl
  rw [hdrop]
  -- one eviction step for y
  obtain ⟨hlt2, sy, hsy, hsyid⟩ := lastGroupOf_some_spec hy
  have hfy : ((gs.getD i default).students.find? (fun s => s.id == y)).isSome = true := by
    rw [List.find?_isSome]
    exact ⟨sy, hsy, by rw [hsyid]; exact beq_self_eq_true y⟩
  cases hf : (gs.getD i default).students.find? (fun s => s.id == y) with
  | none => rw [hf] at hfy; cases hfy
  | some obj =>
    obtain ⟨hobjmem, hobjid⟩ := find_mem_and_id hf
    have hev : List.foldl (evictStep i) (gs, rem) [y] =
        (setGroupStudents gs i
          ((gs.getD i default).students.filter (fun s => !(s.id == y))), rem ++ [obj]) := by
      rw [List.foldl_cons, List.foldl_nil, evictStep, hf]
    rw [hev]
    dsimp only
    -- the redistribution of y
    simp only [redistributeStudents, List.foldl_cons, List.foldl_nil, redistStep]
    have hlen1 : (setGroupStudents gs i
        ((gs.getD i default).students.filter (fun s => !(s.id == y)))).length =
        gs.length := length_setGroupStudents _ _ _
    have hfy2 : ((rem ++ [obj]).find? (fun s => s.id == y)).isSome = true := by
      rw [List.find?_isSome]
      refine ⟨obj, by simp, by rw [hobjid]; exact beq_self_eq_true y⟩
    cases hf2 : (rem ++ [obj]).find? (fun s => s.id == y) with
    | none => rw [hf2] at hfy2; cases hfy2
    | some obj2 =>
      obtain ⟨hobj2mem, hobj2id⟩ := find_mem_and_id hf2
      dsimp only
      -- the available list is nonempty: some index other than i exists
      have hk : (if i = 0 then 1 else 0) < gs.length ∧ (if i = 0 then 1 else 0) ≠ i := by
        by_cases h0 : i = 0
        · rw [if_pos h0]
          exact ⟨by omega, by omega⟩
        · rw [if_neg h0]
          exact ⟨by omega, fun hEq => h0 hEq.symm⟩
      have havne : (List.range (setGroupStudents gs i
          ((gs.getD i default).students.filter (fun s => !(s.id == y)))).length).filter
            (fun k => k ≠ i) ≠ [] := by
        intro hnil
        have hmem : (if i = 0 then 1 else 0) ∈ (List.range (setGroupStudents gs i
            ((gs.getD i default).students.filter (fun s => !(s.id == y)))).length).filter
              (fun k => k ≠ i) := by
          rw [List.mem_filter]
          refine ⟨List.mem_range.mpr (by rw [hlen1]; exact hk.1), by simp [hk.2]⟩
        rw [hnil] at hmem
        cases hmem
      have hmsne : ((List.range (setGroupStudents gs i
          ((gs.getD i default).students.filter (fun s => !(s.id == y)))).length).filter
            (fun k => k ≠ i)).sortJs (fun a b => decide (sizeAt (setGroupStudents gs i
              ((gs.getD i default).students.filter (fun s => !(s.id == y)))) a ≤
              sizeAt (setGroupStudents gs i
              ((gs.getD i default).students.filter (fun s => !(s.id == y)))) b)) ≠ [] := by
        intro hnil
        have hlm : (((List.range (setGroupStudents gs i
            ((gs.getD i default).students.filter (fun s => !(s.id == y)))).length).filter
              (fun k => k ≠ i)).sortJs (fun a b => decide (sizeAt (setGroupStudents gs i
                ((gs.getD i default).students.filter (fun s => !(s.id == y)))) a ≤
                sizeAt (setGroupStudents gs i
                ((gs.getD i default).students.filter (fun s => !(s.id == y)))) b))).length =
            ((List.range (setGroupStudents gs i
              ((gs.getD i default).students.filter (fun s => !(s.id == y)))).length).filter
                (fun k => k ≠ i)).length := length_sortJs _ _
        rw [hnil] at hlm
        have := List.length_eq_zero.mp hlm.symm
        exact havne this
      cases hms : ((List.range (setGroupStudents gs i
          ((gs.getD i default).students.filter (fun s => !(s.id == y)))).length).filter
            (fun k => k ≠ i)).sortJs (fun a b => decide (sizeAt (setGroupStudents gs i
              ((gs.getD i default).students.filter (fun s => !(s.id == y)))) a ≤
              sizeAt (setGroupStudents gs i
              ((gs.getD i default).students.filter (fun s => !(s.id == y)))) b)) with
      | nil => exact absurd hms hmsne
      | cons j rest =>
        dsimp only
        have hjprop : j ≠ i ∧ j < gs.length := by
          have hjm : j ∈ ((List.range (setGroupStudents gs i
              ((gs.getD i default).students.filter (fun s => !(s.id == y)))).length).filter
                (fun k => k ≠ i)) := by
            have : j ∈ ((List.range (setGroupStudents gs i
                ((gs.getD i default).students.filter (fun s => !(s.id == y)))).length).filter
                  (fun k => k ≠ i)).sortJs (fun a b => decide (sizeAt (setGroupStudents gs i
                    ((gs.getD i default).students.filter (fun s => !(s.id == y)))) a ≤
                    sizeAt (setGroupStudents gs i
                    ((gs.getD i default).students.filter (fun s => !(s.id == y)))) b)) := by
              rw [hms]
              exact List.mem_cons_self _ _
            exact mem_sortJs.mp this
          have hjf := List.mem_filter.mp hjm
          refine ⟨by simpa using hjf.2, ?_⟩
          have := List.mem_range.mp hjf.1
          rwa [hlen1] at this
        -- the trailing loop leaves the groups unchanged
        have hloop : ∀ (gs2 : List Group) (used : List Nat) (proc1 : List Int),
            (dgLastLoop gs (rem ++ [obj]) [x, y] gs2 used proc1).1 = gs2 := by
          intro gs2 used proc1
          rw [dgLastLoop, List.foldl_cons, dgStep]
          rw [if_pos (by rw [hx]; rfl)]
          rw [List.foldl_cons, dgStep]
          rw [if_pos (by rw [hy]; rfl)]
          rfl
        rw [hloop]
        -- final group shape
        have hgetI : ((pushStudent (setGroupStudents gs i
            ((gs.getD i default).students.filter (fun s => !(s.id == y)))) j obj2).getD i
              default).students =
            (gs.getD i default).students.filter (fun s => !(s.id == y)) := by
          rw [getD_pushStudent_ne hjprop.1, getD_setGroupStudents_self hilt]
        have hgetJ : ((pushStudent (setGroupStudents gs i
            ((gs.getD i default).students.filter (fun s => !(s.id == y)))) j obj2).getD j
              default).students =
            ((setGroupStudents gs i
              ((gs.getD i default).students.filter (fun s => !(s.id == y)))).getD j
                default).students ++ [obj2] := by
          rw [getD_pushStudent_self (by rw [hlen1]; exact hjprop.2)]
        refine ⟨?_, ?_, ?_⟩
        · rw [hgetI]
          obtain ⟨hxlt, sx, hsx, hsxid⟩ := lastGroupOf_some_spec hx
          refine ⟨sx, ?_, hsxid⟩
          refine List.mem_filter.mpr ⟨hsx, ?_⟩
          rw [hsxid]
          simp [hxy]
        · rw [hgetI]
          intro s hs
          have := List.of_mem_filter hs
          simp at this
          exact this
        · refine ⟨j, hjprop.1, ?_, ?_⟩
          · rw [length_pushStudent, hlen1]
            exact hjprop.2
          · rw [hgetJ]
            exact ⟨obj2, by simp, hobj2id⟩

theorem blockBucketFold_length (blocks : List (List Int)) :
    ∀ (rem : List Student) (st : List (List Student) × List Int),
      (rem.foldl (blockBucket blocks) st).1.length = st.1.length := by
  intro rem
  induction rem with
  | nil => intro st; rfl
  | cons s pr ih =>
    intro st
    rw [List.foldl_cons, blockBucket]
    cases hl : blockMapLookup blocks s.id with
    | none => exact ih st
    | some bi =>
      dsimp only
      rw [ih]
      simp

theorem buildBlockGroups_length (blocks : List (List Int)) (rem : List Student) :
    (buildBlockGroups blocks rem).1.length = blocks.length := by
  rw [buildBlockGroups, blockBucketFold_length]
  simp

/-! ## The claims -/

/-- C1: for every roster with distinct seat numbers, every group count ≥ 1
and every lawful random source, the students placed by `performGrouping`
(the handler chain followed by the mandatory equalizer pass) are exactly the
input roster: as multisets, the union of the returned group memberships
equals the roster, so every student appears in exactly one group, with no
duplicates and no omissions. -/
theorem claim1_partition (students : List Student) (gc : Nat) (conds : List CondState)
    (rnd : Rand) (hgc : 1 ≤ gc) (hnd : (students.map Student.id).Nodup)
    (hlaw : rnd.Lawful) :
    (joinG (performGrouping students gc conds rnd)).Perm students :=
  performGrouping_join students gc conds rnd hgc hnd hlaw

theorem claim1_partition_witness :
    1 ≤ 2 ∧ (joinG (performGrouping [⟨1, Gender.male⟩, ⟨2, Gender.female⟩,
      ⟨3, Gender.male⟩, ⟨4, Gender.female⟩] 2 [] idRand)).Perm
      [⟨1, Gender.male⟩, ⟨2, Gender.female⟩, ⟨3, Gender.male⟩, ⟨4, Gender.female⟩] :=
  ⟨by decide, claim1_partition [⟨1, Gender.male⟩, ⟨2, Gender.female⟩,
    ⟨3, Gender.male⟩, ⟨4, Gender.female⟩] 2 [] idRand (by decide) (by decide) idRand_lawful⟩

/-- C2: for every roster with distinct seat numbers, every group count ≥ 1
and every lawful random source, after the final equalizer pass of
`performGrouping` the sizes of any two returned groups differ by at most 1,
regardless of which constraints were enabled and what the chain produced. -/
theorem claim2_size_balance (students : List Student) (gc : Nat) (conds : List CondState)
    (rnd : Rand) (hgc : 1 ≤ gc) (hnd : (students.map Student.id).Nodup)
    (hlaw : rnd.Lawful) :
    ∀ g₁ ∈ performGrouping students gc conds rnd,
      ∀ g₂ ∈ performGrouping students gc conds rnd,
        g₁.students.length ≤ g₂.students.length + 1 := by
  obtain ⟨T, hT⟩ := performGrouping_sizes students gc conds rnd hgc hnd hlaw
  intro g₁ h₁ g₂ h₂
  have m₁ : g₁.students.length ∈ (List.range gc).map
      (fun j => T / gc + if j < T % gc then 1 else 0) := by
    rw [← hT]
    exact List.mem_map_of_mem _ h₁
  have m₂ : g₂.students.length ∈ (List.range gc).map
      (fun j => T / gc + if j < T % gc then 1 else 0) := by
    rw [← hT]
    exact List.mem_map_of_mem _ h₂
  obtain ⟨j₁, _, e₁⟩ := List.mem_map.mp m₁
  obtain ⟨j₂, _, e₂⟩ := List.mem_map.mp m₂
  rw [← e₁, ← e₂]
  split_ifs <;> omega

theorem claim2_size_balance_witness :
    1 ≤ 2 ∧ ∀ g₁ ∈ performGrouping [⟨1, Gender.male⟩, ⟨2, Gender.female⟩,
        ⟨3, Gender.male⟩] 2 [] idRand,
      ∀ g₂ ∈ performGrouping [⟨1, Gender.male⟩, ⟨2, Gender.female⟩,
        ⟨3, Gender.male⟩] 2 [] idRand,
        g₁.students.length ≤ g₂.students.length + 1 :=
  ⟨by decide, claim2_size_balance [⟨1, Gender.male⟩, ⟨2, Gender.female⟩,
    ⟨3, Gender.male⟩] 2 [] idRand (by decide) (by decide) idRand_lawful⟩

/-- C3 (amended): the final equalizer redistributes the entire roster
male-pool first — *not* majority-category first: it partitions the students
by gender into two shuffled pools; if the **male** pool has at least as many
members as there are groups, it gives every group exactly one male first,
then distributes the remaining males round-robin, then distributes the
female pool round-robin, skipping any group that has already reached its
target size of `⌊total/groupCount⌋`, with the first `total mod groupCount`
groups receiving one extra member; every group is listed sorted by seat
number and the trailing top-up check never fires. -/
theorem claim3_equalizer_male_first (groups : List Group) (roster : List Student)
    (rnd : Rand) (hgc : 0 < groups.length) (hlaw : rnd.Lawful) :
    forceEqualDistribution groups roster rnd = forceEqualMaleFirstDescr groups roster rnd :=
  forceEqual_eq_maleFirst groups roster rnd hgc hlaw

theorem claim3_equalizer_male_first_witness :
    0 < (initializeGroups 2).length ∧
    forceEqualDistribution (initializeGroups 2) [⟨1, Gender.male⟩, ⟨2, Gender.female⟩,
        ⟨3, Gender.female⟩, ⟨4, Gender.female⟩] idRand =
      forceEqualMaleFirstDescr (initializeGroups 2) [⟨1, Gender.male⟩, ⟨2, Gender.female⟩,
        ⟨3, Gender.female⟩, ⟨4, Gender.female⟩] idRand :=
  ⟨by decide, claim3_equalizer_male_first (initializeGroups 2) [⟨1, Gender.male⟩,
    ⟨2, Gender.female⟩, ⟨3, Gender.female⟩, ⟨4, Gender.female⟩] idRand
    (by decide) idRand_lawful⟩

/-- C3, counterexample to the original claim: with one male and three
females the majority category is female, but the code still hands out the
males first — on a concrete roster the code's output differs from the
majority-category-first procedure the spec describes. -/
theorem claim3_counterexample :
    forceEqualDistribution (initializeGroups 2) [⟨1, Gender.male⟩, ⟨2, Gender.female⟩,
        ⟨3, Gender.female⟩, ⟨4, Gender.female⟩] idRand ≠
      forceEqualMajorityDescr (initializeGroups 2) [⟨1, Gender.male⟩, ⟨2, Gender.female⟩,
        ⟨3, Gender.female⟩, ⟨4, Gender.female⟩] idRand := by
  decide

/-- C4: on the concrete roster with male seats {1,3} and female seats
{2,4}, group count 2, all four constraints disabled and the
midpoint-returning random source (every shuffle is the identity),
`performGrouping` returns exactly the two groups {1,2} and {3,4}. -/
theorem claim4_end_to_end :
    performGrouping [⟨1, Gender.male⟩, ⟨2, Gender.female⟩, ⟨3, Gender.male⟩,
        ⟨4, Gender.female⟩] 2
      [⟨"block-distribution", CType.blockDist, false, "", some []⟩,
       ⟨"same-group", CType.sameGroup, false, "", none⟩,
       ⟨"different-group", CType.diffGroup, false, "", none⟩,
       ⟨"gender-ratio", CType.genderBal, false, "", none⟩] idRand =
    [⟨"group-1", "組別1", [⟨1, Gender.male⟩, ⟨2, Gender.female⟩]⟩,
     ⟨"group-2", "組別2", [⟨3, Gender.male⟩, ⟨4, Gender.female⟩]⟩] := by
  decide

/-- C5 (amended): in the `DifferentGroupHandler`, for a two-member separation
cluster `[x, y]` whose placed members both sit in group `i` (of at least two
groups), the handler keeps the first member `x` in place, evicts `y` from
group `i` back into the pool, and reassigns it to the least-occupied *other*
group — the code only avoids the conflict group itself, it does not track
which groups the cluster already uses.  In particular `x` and `y` end in
different groups. -/
theorem claim5_pair_separation (gs : List Group) (x y : Int) (i : Nat)
    (rem : List Student) (proc : List Int)
    (hxy : x ≠ y) (hx : lastGroupOf gs x = some i) (hy : lastGroupOf gs y = some i)
    (h2 : 2 ≤ gs.length) :
    (∃ s ∈ ((assignToDifferentGroups gs [x, y] rem proc).1.getD i default).students,
      s.id = x) ∧
    (∀ s ∈ ((assignToDifferentGroups gs [x, y] rem proc).1.getD i default).students,
      s.id ≠ y) ∧
    (∃ j, j ≠ i ∧ j < (assignToDifferentGroups gs [x, y] rem proc).1.length ∧
      ∃ s ∈ ((assignToDifferentGroups gs [x, y] rem proc).1.getD j default).students,
        s.id = y) :=
  pair_separates gs x y i rem proc hxy hx hy h2

theorem claim5_pair_separation_witness :
    (1 : Int) ≠ 2 ∧
    lastGroupOf [⟨"group-1", "G1", [⟨1, Gender.male⟩, ⟨2, Gender.female⟩]⟩,
      ⟨"group-2", "G2", []⟩] 1 = some 0 ∧
    lastGroupOf [⟨"group-1", "G1", [⟨1, Gender.male⟩, ⟨2, Gender.female⟩]⟩,
      ⟨"group-2", "G2", []⟩] 2 = some 0 ∧
    2 ≤ ([⟨"group-1", "G1", [⟨1, Gender.male⟩, ⟨2, Gender.female⟩]⟩,
      ⟨"group-2", "G2", ([] : List Student)⟩] : List Group).length ∧
    ((∃ s ∈ ((assignToDifferentGroups [⟨"group-1", "G1", [⟨1, Gender.male⟩,
        ⟨2, Gender.female⟩]⟩, ⟨"group-2", "G2", []⟩] [1, 2] [] []).1.getD 0
          default).students, s.id = 1) ∧
      (∀ s ∈ ((assignToDifferentGroups [⟨"group-1", "G1", [⟨1, Gender.male⟩,
        ⟨2, Gender.female⟩]⟩, ⟨"group-2", "G2", []⟩] [1, 2] [] []).1.getD 0
          default).students, s.id ≠ 2) ∧
      (∃ j, j ≠ 0 ∧ j < (assignToDifferentGroups [⟨"group-1", "G1", [⟨1, Gender.male⟩,
        ⟨2, Gender.female⟩]⟩, ⟨"group-2", "G2", []⟩] [1, 2] [] []).1.length ∧
        ∃ s ∈ ((assignToDifferentGroups [⟨"group-1", "G1", [⟨1, Gender.male⟩,
          ⟨2, Gender.female⟩]⟩, ⟨"group-2", "G2", []⟩] [1, 2] [] []).1.getD j
            default).students, s.id = 2)) :=
  ⟨by decide, by decide, by decide, by decide,
    claim5_pair_separation [⟨"group-1", "G1", [⟨1, Gender.male⟩, ⟨2, Gender.female⟩]⟩,
      ⟨"group-2", "G2", []⟩] 1 2 0 [] [] (by decide) (by decide) (by decide) (by decide)⟩

/-- C5, counterexample to the original claim: the spec says each evicted
member goes to a *distinct group not yet used by this cluster*, but the code
only avoids the conflict group.  For the cluster `[1, 2, 3]` concentrated in
the first of three groups (the third group holding two other students), both
evicted members 2 and 3 are pushed into the same second group. -/
theorem claim5_counterexample :
    ((assignToDifferentGroups
        [⟨"group-1", "G1", [⟨1, Gender.male⟩, ⟨2, Gender.male⟩, ⟨3, Gender.male⟩]⟩,
         ⟨"group-2", "G2", []⟩,
         ⟨"group-3", "G3", [⟨4, Gender.male⟩, ⟨5, Gender.male⟩]⟩]
        [1, 2, 3] [] []).1.map (fun g => g.students.map Student.id)) =
      [[1], [2, 3], [4, 5]] := by
  decide

/-- C6: in one invocation of the `BlockDistributionHandler` over two
configured blocks, the cyclic group pointer is shared across the blocks: the
second block's round-robin starts exactly at the pointer the first block
ended with (which equals the first block's size modulo the group count), not
back at group 0. -/
theorem claim6_shared_pointer (gs : List Group) (b1 b2 : List Int)
    (rem : List Student) (rnd : Rand) (hgs : 0 < gs.length) :
    (distributeBlockStudents gs [b1, b2] rem rnd).1 =
      (roundRobinPump
        (roundRobinPump gs 0
          (rnd.blockShuffle 0 ((buildBlockGroups [b1, b2] rem).1.getD 0 []))).1
        (roundRobinPump gs 0
          (rnd.blockShuffle 0 ((buildBlockGroups [b1, b2] rem).1.getD 0 []))).2
        (rnd.blockShuffle 1 ((buildBlockGroups [b1, b2] rem).1.getD 1 []))).1 ∧
    (roundRobinPump gs 0
        (rnd.blockShuffle 0 ((buildBlockGroups [b1, b2] rem).1.getD 0 []))).2 =
      (rnd.blockShuffle 0 ((buildBlockGroups [b1, b2] rem).1.getD 0 [])).length %
        gs.length := by
  have hlen2 : (buildBlockGroups [b1, b2] rem).1.length = 2 := by
    rw [buildBlockGroups_length]
    rfl
  obtain ⟨l0, l1, hbb⟩ := List.length_eq_two.mp hlen2
  constructor
  · simp only [distributeBlockStudents]
    rw [hbb]
    rfl
  · rw [roundRobinPump_snd _ gs 0 hgs hgs]
    rw [Nat.zero_add]

theorem claim6_shared_pointer_witness :
    0 < (initializeGroups 2).length ∧
    ((distributeBlockStudents (initializeGroups 2) [[1, 2, 3], [4, 5]]
        [⟨1, Gender.male⟩, ⟨2, Gender.male⟩, ⟨3, Gender.male⟩, ⟨4, Gender.male⟩,
         ⟨5, Gender.male⟩] idRand).1 =
      (roundRobinPump
        (roundRobinPump (initializeGroups 2) 0
          (idRand.blockShuffle 0 ((buildBlockGroups [[1, 2, 3], [4, 5]]
            [⟨1, Gender.male⟩, ⟨2, Gender.male⟩, ⟨3, Gender.male⟩, ⟨4, Gender.male⟩,
             ⟨5, Gender.male⟩]).1.getD 0 []))).1
        (roundRobinPump (initializeGroups 2) 0
          (idRand.blockShuffle 0 ((buildBlockGroups [[1, 2, 3], [4, 5]]
            [⟨1, Gender.male⟩, ⟨2, Gender.male⟩, ⟨3, Gender.male⟩, ⟨4, Gender.male⟩,
             ⟨5, Gender.male⟩]).1.getD 0 []))).2
        (idRand.blockShuffle 1 ((buildBlockGroups [[1, 2, 3], [4, 5]]
          [⟨1, Gender.male⟩, ⟨2, Gender.male⟩, ⟨3, Gender.male⟩, ⟨4, Gender.male⟩,
           ⟨5, Gender.male⟩]).1.getD 1 []))).1 ∧
      (roundRobinPump (initializeGroups 2) 0
          (idRand.blockShuffle 0 ((buildBlockGroups [[1, 2, 3], [4, 5]]
            [⟨1, Gender.male⟩, ⟨2, Gender.male⟩, ⟨3, Gender.male⟩, ⟨4, Gender.male⟩,
             ⟨5, Gender.male⟩]).1.getD 0 []))).2 =
        (idRand.blockShuffle 0 ((buildBlockGroups [[1, 2, 3], [4, 5]]
          [⟨1, Gender.male⟩, ⟨2, Gender.male⟩, ⟨3, Gender.male⟩, ⟨4, Gender.male⟩,
           ⟨5, Gender.male⟩]).1.getD 0 [])).length % (initializeGroups 2).length) :=
  ⟨by decide, claim6_shared_pointer (initializeGroups 2) [1, 2, 3] [4, 5]
    [⟨1, Gender.male⟩, ⟨2, Gender.male⟩, ⟨3, Gender.male⟩, ⟨4, Gender.male⟩,
     ⟨5, Gender.male⟩] idRand (by decide)⟩

/-- C7: every cluster kept by the co-location parser is duplicate-free with
at least two members; the concrete input `"1,1,2"` is dropped entirely from
the parsed cluster list (no deduplicated form is kept), and the pre-flight
validation turns it into the human-readable duplicate-seat message. -/
theorem claim7_duplicate_cluster :
    (∀ (input : String) (c : List Int), c ∈ parseSameGroupInput input →
      c.Nodup ∧ 2 ≤ c.length) ∧
    parseSameGroupInput "1,1,2" = [] ∧
    validateSameGroupInput "1,1,2" 8 = some "群組 \"1,1,2\" 有錯誤: 重複的座號: 1" :=
  ⟨fun _ _ h => parseSameGroupInput_mem h, by decide, by decide⟩

theorem claim7_duplicate_cluster_witness :
    [1, 2] ∈ parseSameGroupInput "1,2" ∧
    ([1, 2] : List Int).Nodup ∧ 2 ≤ ([1, 2] : List Int).length :=
  ⟨by decide, (claim7_duplicate_cluster.1 "1,2" [1, 2] (by decide)).1,
    (claim7_duplicate_cluster.1 "1,2" [1, 2] (by decide)).2⟩

/-- C8 (amended): the allocation engine itself rejects nothing — on an empty
roster `performGrouping` silently succeeds and returns `groupCount` empty
groups for every condition list and lawful random source; the rejection of
structurally invalid requests (empty roster, fewer students than groups)
lives in the home page's pre-check, which refuses to start before
`performGrouping` is ever reachable. -/
theorem claim8_structural_errors (gc : Nat) (conds : List CondState) (rnd : Rand)
    (hgc : 1 ≤ gc) (hlaw : rnd.Lawful) :
    ((performGrouping [] gc conds rnd).length = gc ∧
      ∀ g ∈ performGrouping [] gc conds rnd, g.students = []) ∧
    initializeFromInputsCheck 0 gc = some "請至少輸入一位學生" := by
  refine ⟨⟨performGrouping_length [] gc conds rnd hgc (by simp) hlaw, ?_⟩, rfl⟩
  have hj := performGrouping_join [] gc conds rnd hgc (by simp) hlaw
  have hnil : joinG (performGrouping [] gc conds rnd) = [] := hj.eq_nil
  rw [joinG] at hnil
  intro g hg
  exact List.flatten_eq_nil_iff.mp hnil _ (List.mem_map_of_mem _ hg)

theorem claim8_structural_errors_witness :
    1 ≤ 2 ∧
    (((performGrouping [] 2 [] idRand).length = 2 ∧
        ∀ g ∈ performGrouping [] 2 [] idRand, g.students = []) ∧
      initializeFromInputsCheck 0 2 = some "請至少輸入一位學生") :=
  ⟨by decide, claim8_structural_errors 2 [] idRand (by decide) idRand_lawful⟩

/-- C8, counterexample to the original claim: calling the engine with an
empty roster is not rejected with a descriptive failure — it silently
returns the two freshly initialized empty groups. -/
theorem claim8_counterexample :
    performGrouping [] 2 [] idRand = initializeGroups 2 := by
  decide

/-- C9 (amended): `updateBlockInput` is a no-op exactly on strict (`===`)
equality with the stored block value — and a whitespace-only edit does leave
the *parsed* block unchanged (`parseBlockInput "1 " = parseBlockInput "1"`),
but not the stored state. -/
theorem claim9_idempotent_update (conds : List CondState) (conditionId : String)
    (blockIndex : Nat) (value : String)
    (hstored : ((conds.find? (fun c => c.id == conditionId)).bind
        (fun c => c.blockInputs.bind (fun bi => bi.get? blockIndex))) = some value) :
    updateBlockInput conds conditionId blockIndex value = conds ∧
    parseBlockInput "1 " = parseBlockInput "1" := by
  refine ⟨?_, by decide⟩
  rw [updateBlockInput]
  dsimp only
  rw [hstored]
  rw [if_pos (by simp)]

theorem claim9_idempotent_update_witness :
    (([⟨"block-distribution", CType.blockDist, true, "1", some ["1"]⟩] :
        List CondState).find? (fun c => c.id == "block-distribution")).bind
      (fun c => c.blockInputs.bind (fun bi => bi.get? 0)) = some "1" ∧
    (updateBlockInput [⟨"block-distribution", CType.blockDist, true, "1", some ["1"]⟩]
        "block-distribution" 0 "1" =
      [⟨"block-distribution", CType.blockDist, true, "1", some ["1"]⟩] ∧
    parseBlockInput "1 " = parseBlockInput "1") :=
  ⟨by decide, claim9_idempotent_update
    [⟨"block-distribution", CType.blockDist, true, "1", some ["1"]⟩]
    "block-distribution" 0 "1" (by decide)⟩

/-- C9, counterexample to the original claim: re-submitting a block input
after a whitespace-only edit is *not* a no-op on the stored condition state —
the code compares with strict equality, so submitting `"1 "` over the stored
`"1"` changes the saved `blockInputs`. -/
theorem claim9_counterexample :
    updateBlockInput [⟨"block-distribution", CType.blockDist, true, "1", some ["1"]⟩]
        "block-distribution" 0 "1 " ≠
      [⟨"block-distribution", CType.blockDist, true, "1", some ["1"]⟩] := by
  decide

/-- C10: for a roster with distinct seat numbers, `addStudents` fails if and
only if some seat number parsed from the input already exists on the roster
(and then no new list is produced — the stored roster is untouched); on
success the returned roster is a permutation of the old roster plus the new
students, sorted ascending by seat number with all seat numbers distinct. -/
theorem claim10_addStudents (students : List Student) (input : String) (gender : Gender)
    (hnd : (students.map Student.id).Nodup) :
    ((∃ e, addStudents students input gender = .error e) ↔
      ∃ id ∈ parseNumberInput input, id ∈ students.map Student.id) ∧
    ∀ out, addStudents students input gender = .ok out →
      out.Perm (students ++ (parseNumberInput input).map
        (fun id => Student.mk id gender)) ∧
      out.Pairwise (fun a b => a.id ≤ b.id) ∧
      (out.map Student.id).Nodup := by
  rw [addStudents]
  dsimp only
  by_cases hd : ((parseNumberInput input).filter
      (fun id => (students.map Student.id).contains id)).length > 0
  · rw [if_pos hd]
    refine ⟨⟨fun _ => ?_, fun _ => ⟨_, rfl⟩⟩, fun out hout => absurd hout (by simp)⟩
    have hne : ((parseNumberInput input).filter
        (fun id => (students.map Student.id).contains id)) ≠ [] := by
      intro h0
      rw [h0] at hd
      simp at hd
    obtain ⟨x, hx⟩ := List.exists_mem_of_ne_nil _ hne
    obtain ⟨hx1, hx2⟩ := List.mem_filter.mp hx
    exact ⟨x, hx1, by simpa using hx2⟩
  · rw [if_neg hd]
    have hnone : ∀ id ∈ parseNumberInput input, id ∉ students.map Student.id := by
      intro id hid hmem
      apply hd
      have hm : id ∈ (parseNumberInput input).filter
          (fun id => (students.map Student.id).contains id) :=
        List.mem_filter.mpr ⟨hid, by simpa using hmem⟩
      have := List.length_pos.mpr (List.ne_nil_of_mem hm)
      omega
    refine ⟨⟨fun h => ?_, fun h => ?_⟩, fun out hout => ?_⟩
    · obtain ⟨e, he⟩ := h
      exact absurd he (by simp)
    · obtain ⟨id, hid, hmem⟩ := h
      exact absurd hmem (hnone id hid)
    · have heq : (students ++ (parseNumberInput input).map
          (fun id => Student.mk id gender)).sortJs
            (fun a b => decide (a.id ≤ b.id)) = out := by
        rw [Except.ok.injEq] at hout
        exact hout
      subst heq
      refine ⟨sortJs_perm _ _, ?_, ?_⟩
      · have hs := sorted_sortJs (fun a b : Student => decide (a.id ≤ b.id))
          (fun a b c hab hbc => by
            simp only [decide_eq_true_eq] at *
            omega)
          (fun a b => by
            simp only [decide_eq_true_eq]
            omega)
          (students ++ (parseNumberInput input).map (fun id => Student.mk id gender))
        exact List.Pairwise.imp (fun h => by simpa using h) hs
      · refine (((sortJs_perm _ _).map Student.id).nodup_iff).mpr ?_
        rw [List.map_append]
        refine List.Nodup.append hnd ?_ ?_
        · have hmm : ((parseNumberInput input).map
              (fun id => Student.mk id gender)).map Student.id =
              parseNumberInput input := by
            rw [List.map_map]
            have hcomp : (Student.id ∘ fun id => Student.mk id gender) =
                fun id => id := rfl
            rw [hcomp, List.map_id']
          rw [hmm]
          exact parseNumberInput_nodup input
        · intro a ha hb
          have hmm : ((parseNumberInput input).map
              (fun id => Student.mk id gender)).map Student.id =
              parseNumberInput input := by
            rw [List.map_map]
            have hcomp : (Student.id ∘ fun id => Student.mk id gender) =
                fun id => id := rfl
            rw [hcomp, List.map_id']
          rw [hmm] at hb
          exact hnone a hb ha

theorem claim10_addStudents_witness :
    (([⟨1, Gender.male⟩] : List Student).map Student.id).Nodup ∧
    (((∃ e, addStudents [⟨1, Gender.male⟩] "2, 3" Gender.female = .error e) ↔
        ∃ id ∈ parseNumberInput "2, 3",
          id ∈ ([⟨1, Gender.male⟩] : List Student).map Student.id) ∧
      ∀ out, addStudents [⟨1, Gender.male⟩] "2, 3" Gender.female = .ok out →
        out.Perm ([⟨1, Gender.male⟩] ++ (parseNumberInput "2, 3").map
          (fun id => Student.mk id Gender.female)) ∧
        out.Pairwise (fun a b => a.id ≤ b.id) ∧
        (out.map Student.id).Nodup) :=
  ⟨by decide, claim10_addStudents [⟨1, Gender.male⟩] "2, 3" Gender.female (by decide)⟩

end TeamShuffle
